import Mathlib

/-!
# openwebos/filecache: a shallow embedding of the cache engine

The development follows the C++ sources under `src/src`:

* `CacheBase.cpp`   : the path codec and the filesystem size of an object,
* `CacheObject.cpp` : one cached object and its subscription state machine,
* `FileCache.cpp`   : one cache type (object map, LRU list, watermarks),
* `FileCacheSet.cpp`: the set of all types, the id map and cross-type cleanup.

Conventions of the embedding.

* A `std::string` and a `const char*` are lists of characters without the
  terminating NUL; every string the engine handles is built from a C string,
  so `c_str()` and the converting constructors are the identity.
* `cacheSize_t` and `paramValue_t` are signed machine integers whose
  declarations live in `CacheBase.h`, which is not part of the sources at
  hand.  They are embedded as `Int`; statements hold for the runs in which
  no intermediate value leaves the machine range.
* `cachedObjectId_t` is an unsigned 64 bit integer (`%llu`, `ULL` literals),
  embedded as `Nat` with explicit reduction modulo `2 ^ 64` where a value could
  leave that range.
* The constants of `CacheBase.h` are taken from the specification; the
  alphabet `s_charMapping` is not given anywhere and is a parameter `cm`.
-/

namespace FileCache

/-! ## Constants of the absent `CacheBase.h` -/

/-- Modelled from the spec: `s_blockSize` of the absent CacheBase.h, section 6
"Global constants": `blockSize=4096`. -/
def s_blockSize : Int := 4096

/-- Modelled from the spec: `s_maxCost` of the absent CacheBase.h, section 6
"Global constants": `maxCost=100`. -/
def s_maxCost : Int := 100

/-- Modelled from the spec: `s_numChars` of the absent CacheBase.h, section 6:
`N=9` encoded chars. -/
def s_numChars : Nat := 9

/-- Modelled from the spec: `s_dirChars` of the absent CacheBase.h, section 6:
`D=1` dir char. -/
def s_dirChars : Nat := 1

/-- Modelled from the spec: `s_maskSize` of the absent CacheBase.h, section 3:
"64-symbol alphabet (6 bits each)". -/
def s_maskSize : Nat := 6

/-- Modelled from the spec: `s_mask` of the absent CacheBase.h, the six low
bits that select one symbol of the 64-symbol alphabet. -/
def s_mask : Nat := 0x3F

/-- The terminating NUL of a C string. -/
def NUL : Char := Char.ofNat 0

/-! ## C library and `std::string` primitives used by `CacheBase.cpp` -/

/-- The C function `rindex(s, c)` for `c` other than NUL: offset of the last occurrence. -/
def rindex : List Char → Char → Option Nat
  | [], _ => none
  | x :: xs, c =>
    match rindex xs c with
    | some k => some (k + 1)
    | none => if x = c then some 0 else none

/-- The read `s[pos]` of a C string: offsets `0 .. strlen s` are inside the
string (the last one holds the terminator), every other offset is a read
outside the string and gives `none`. -/
def charAt (s : List Char) (pos : Int) : Option Char :=
  if pos < 0 then none
  else if pos.toNat < s.length then some (s.getD pos.toNat NUL)
  else if pos.toNat = s.length then some NUL
  else none

/-- The member `std::string::find(c, pos)`: offset of the first `c` at or after `pos`. -/
def str_find (s : List Char) (c : Char) (pos : Nat) : Option Nat :=
  let k := (s.drop pos).indexOf c
  if k < (s.drop pos).length then some (pos + k) else none

/-- The member `std::string::substr(pos, n)` for `pos` within the string. -/
def substr (s : List Char) (pos n : Nat) : List Char :=
  (s.drop pos).take n

/-- The member `std::string::find_last_of(set)`: offset of the last character that
belongs to `set`. -/
def find_last_of : List Char → List Char → Option Nat
  | [], _ => none
  | x :: xs, set =>
    match find_last_of xs set with
    | some k => some (k + 1)
    | none => if x ∈ set then some 0 else none

/-- The left shift of a 64 bit unsigned value by an `int` count.  The count is
negative only when `GetObjectIdFromPath` meets a tenth symbol; the hardware
then uses the count modulo 64, and the value so obtained is discarded by the
caller (the symbol count is wrong). -/
def shl64 (v : Nat) (count : Int) : Nat :=
  (v <<< (count % 64).toNat) % 2 ^ 64

/-! ## CacheBase.cpp -/

/-- The function `GetCharNFromObjectId` (CacheBase.cpp:28-46). -/
def GetCharNFromObjectId (cm : List Char) (objectId : Nat) (n : Nat) : Char :=
  let charMask := (s_mask <<< (n * s_maskSize)) % 2 ^ 64
  let index := (objectId &&& charMask) >>> (n * s_maskSize)
  if index > cm.length then ' '
  else cm.getD index NUL

/-- The function `GetValueForChar` (CacheBase.cpp:51-66): `index(s_charMapping, c)` finds
the first occurrence of `c`, the terminator included. -/
def GetValueForChar (cm : List Char) (c : Char) : Int :=
  let k := cm.indexOf c
  if k < cm.length then (k : Int)
  else if c = NUL then (cm.length : Int)
  else -1

/-- The value `GetObjectIdFromPath` returns once its loop is left. -/
def GetObjectIdFromPath.finish (i : Int) (foundDelimiter : Bool) (objectId : Nat) : Nat :=
  if !foundDelimiter || i ≠ (s_numChars : Int) then 0 else objectId

/-- The `while (curPos < endPos)` loop of `GetObjectIdFromPath`
(CacheBase.cpp:94-121).  `n` is the distance `endPos - curPos`; one round
reads `filePath[curPos]` and moves `curPos` one step, or jumps to `endPos`
when the delimiter is misplaced.  The result is what the function returns;
`none` records a read outside the string. -/
def GetObjectIdFromPath.loop (cm filePath : List Char) (endPos : Int) :
    Nat → Int → Bool → Nat → Option Nat
  | 0, i, foundDelimiter, objectId =>
    some (GetObjectIdFromPath.finish i foundDelimiter objectId)
  | n + 1, i, foundDelimiter, objectId =>
    let curPos : Int := endPos - ((n + 1 : Nat) : Int)
    match charAt filePath curPos with
    | none => none
    | some c =>
      if c ≠ '/' then
        let tmp := GetValueForChar cm c
        if tmp < 0 then some 0
        else
          let value := tmp.toNat
          let shiftValue : Int := ((s_numChars : Int) - i - 1) * (s_maskSize : Int)
          GetObjectIdFromPath.loop cm filePath endPos n (i + 1) foundDelimiter
            ((objectId + shl64 value shiftValue) % 2 ^ 64)
      else if i = (s_dirChars : Int) then
        GetObjectIdFromPath.loop cm filePath endPos n i true objectId
      else
        some (GetObjectIdFromPath.finish i foundDelimiter objectId)

/-- The function `GetObjectIdFromPath` (CacheBase.cpp:72-128).  `none`: the function read
a character outside the string it was given. -/
def GetObjectIdFromPath (cm filePath : List Char) : Option Nat :=
  let endPos : Int :=
    match rindex filePath '.' with
    | none => (filePath.length : Int)
    | some p => (p : Int)
  let curPos : Int := endPos - (s_numChars : Int) - 1
  GetObjectIdFromPath.loop cm filePath endPos (endPos - curPos).toNat 0 false 0

/-- The function `GetTypeNameFromPath` (CacheBase.cpp:133-146). -/
def GetTypeNameFromPath (baseDirName filePath : List Char) : List Char :=
  if baseDirName = substr filePath 0 baseDirName.length then
    let startPos := baseDirName.length + 1
    match str_find filePath '/' startPos with
    | some endPos =>
      if endPos > startPos then substr filePath startPos (endPos - startPos) else []
    | none => []
  else []

/-- The function `GetDirectoryFromPath` (CacheBase.cpp:152-163). -/
def GetDirectoryFromPath (pathname : List Char) : List Char :=
  match rindex pathname '/' with
  | some endPos => if endPos > 0 then substr pathname 0 endPos else []
  | none => []

/-- The function `GetFileExtension` (CacheBase.cpp:167-178). -/
def GetFileExtension (filePath : List Char) : List Char :=
  match find_last_of filePath ['.', '/'] with
  | some startPos => if filePath.getD startPos NUL = '.' then filePath.drop startPos else []
  | none => []

/-- One of the two `for` loops of `BuildPathname`: append the symbols of the
positions `is` in turn; a blank symbol clears the path and leaves the loop. -/
def BuildPathname.appendChars (cm : List Char) (objectId : Nat) :
    List Nat → List Char → List Char
  | [], pathname => pathname
  | i :: is, pathname =>
    let c := GetCharNFromObjectId cm objectId i
    if c ≠ ' ' then BuildPathname.appendChars cm objectId is (pathname ++ [c])
    else []

/-- The function `BuildPathname` (CacheBase.cpp:198-253).  `mkdirOk path` tells whether
`::mkdir(path)` returns 0 or fails with `EEXIST`. -/
def BuildPathname (cm : List Char) (mkdirOk : List Char → Bool) (objectId : Nat)
    (basePath typeName fileName : List Char) (createDir : Bool) : List Char :=
  if objectId = 0 then []
  else
    let pathname := basePath ++ ['/'] ++ typeName ++ ['/']
    -- i = s_numChars - 1 down to s_numChars - s_dirChars
    let pathname := BuildPathname.appendChars cm objectId
      ((List.range s_dirChars).map (fun k => s_numChars - 1 - k)) pathname
    let pathname :=
      if createDir && !pathname.isEmpty then
        if mkdirOk pathname then pathname else []
      else pathname
    if !pathname.isEmpty then
      let pathname := pathname ++ ['/']
      -- i = s_numChars - s_dirChars - 1 down to 0
      let pathname := BuildPathname.appendChars cm objectId
        (List.range (s_numChars - s_dirChars)).reverse pathname
      if !fileName.isEmpty && !pathname.isEmpty then
        pathname ++ GetFileExtension fileName
      else pathname
    else pathname

/-- The function `GetFilesystemFileSize` (CacheBase.cpp:257-273). -/
def GetFilesystemFileSize (size : Int) : Int :=
  let realSize : Int :=
    if size > 0 then ((size + s_blockSize - 1) / s_blockSize) * s_blockSize
    else s_blockSize
  realSize + s_blockSize

/-- The alphabet of the unit tests' expectations: symbols `A` .. `I` have the
values 0 .. 8 (CacheBaseTest.h:45-62) and `@` is not a symbol
(CacheBaseTest.h:70).  The remaining symbols are a sample filling; only
statements about concrete runs use this alphabet. -/
def sampleCharMapping : List Char :=
  "ABCDEFGHIJKLMNOPQRSTUVWXYZabcdefghijklmnopqrstuvwxyz0123456789_-".toList

/-- What the codec needs from the alphabet: 64 pairwise distinct symbols,
none of which is the path separator, the extension dot, the blank that
`GetCharNFromObjectId` uses as its error value, or NUL. -/
structure ValidCharMapping (cm : List Char) : Prop where
  length_eq : cm.length = 64
  nodup : cm.Nodup
  no_slash : '/' ∉ cm
  no_dot : '.' ∉ cm
  no_blank : ' ' ∉ cm
  no_nul : NUL ∉ cm

/-! ## Path codec: auxiliary definitions used in statements -/

/-- The symbol the claim names `c_i`: `alphabet[(id >> 6*i) & 63]`. -/
def idSymbol (cm : List Char) (objectId : Nat) (i : Nat) : Char :=
  cm.getD ((objectId >>> (6 * i)) &&& 63) NUL

/-- The nine symbols of an id in path order: `c8` for the directory, then
`c7 .. c0` for the file stem. -/
def idDirSymbols (cm : List Char) (objectId : Nat) : List Char :=
  [idSymbol cm objectId 8]

/-- The file stem `c7 c6 c5 c4 c3 c2 c1 c0` of an id. -/
def idStemSymbols (cm : List Char) (objectId : Nat) : List Char :=
  [idSymbol cm objectId 7, idSymbol cm objectId 6, idSymbol cm objectId 5,
   idSymbol cm objectId 4, idSymbol cm objectId 3, idSymbol cm objectId 2,
   idSymbol cm objectId 1, idSymbol cm objectId 0]

/-- The extension as the claim words it: the part of the file name from its
last `.`, empty when the file name has no `.`. -/
def extFromLastDot (fileName : List Char) : List Char :=
  match rindex fileName '.' with
  | some p => fileName.drop p
  | none => []

/-- The extension `GetFileExtension` computes, in the words of the claim:
the part from the last `.` unless a `/` follows that `.`. -/
def extUnlessSlash (fileName : List Char) : List Char :=
  if '/' ∈ extFromLastDot fileName then [] else extFromLastDot fileName

/-- The `while` loop of `GetObjectIdFromPath` run over the characters it
visits, given as a list (all reads inside the string). -/
def decodeChars (cm : List Char) : List Char → Int → Bool → Nat → Nat
  | [], i, foundDelimiter, objectId => GetObjectIdFromPath.finish i foundDelimiter objectId
  | c :: cs, i, foundDelimiter, objectId =>
    if c ≠ '/' then
      let tmp := GetValueForChar cm c
      if tmp < 0 then 0
      else
        decodeChars cm cs (i + 1) foundDelimiter
          ((objectId + shl64 tmp.toNat (((s_numChars : Int) - i - 1) * (s_maskSize : Int))) % 2 ^ 64)
    else if i = (s_dirChars : Int) then decodeChars cm cs i true objectId
    else GetObjectIdFromPath.finish i foundDelimiter objectId

/-- The end position `GetObjectIdFromPath` computes: the offset of the last
`.`, or the length of the string when it has none. -/
def endPosition (filePath : List Char) : Nat :=
  match rindex filePath '.' with
  | none => filePath.length
  | some p => p

/-- The ten characters `GetObjectIdFromPath` visits when at least ten
characters stand in front of the end position. -/
def visitedChars (filePath : List Char) : List Char :=
  (filePath.drop (endPosition filePath - 10)).take 10

/-- The canonical layout of the ten visited characters: one character with a
value in the alphabet, then `/`, then eight characters with a value in the
alphabet. -/
def CanonicalTen (cm : List Char) (l : List Char) : Prop :=
  ∃ a b, l = a :: '/' :: b ∧ b.length = 8 ∧
    ∀ c ∈ a :: b, c ≠ '/' ∧ 0 ≤ GetValueForChar cm c

/-! ## Finite maps (`std::map`) as association lists -/

namespace AMap

variable {κ α : Type} [DecidableEq κ]

/-- The lookup `m.find(k)`: the value stored under `k`, if any. -/
def find : List (κ × α) → κ → Option α
  | [], _ => none
  | p :: m, k => if p.1 = k then some p.2 else find m k

/-- The removal `m.erase(k)`. -/
def erase (m : List (κ × α)) (k : κ) : List (κ × α) :=
  m.filter (fun p => decide (p.1 ≠ k))

/-- A write through the pointer stored under `k`: the value under `k` becomes
`v`, the keys stay as they are. -/
def replace (m : List (κ × α)) (k : κ) (v : α) : List (κ × α) :=
  m.map (fun p => if p.1 = k then (p.1, v) else p)

/-- Insertion of a fresh key at its place in the key order `lt`. -/
def orderedInsert (lt : κ → κ → Bool) (k : κ) (v : α) : List (κ × α) → List (κ × α)
  | [] => [(k, v)]
  | p :: m => if lt k p.1 then (k, v) :: p :: m else p :: orderedInsert lt k v m

/-- The insertion `m.insert(value_type(k, v))`: a key that is present keeps
its value. -/
def insert (lt : κ → κ → Bool) (m : List (κ × α)) (k : κ) (v : α) : List (κ × α) :=
  match find m k with
  | some _ => m
  | none => orderedInsert lt k v m

/-- The keys in iteration order. -/
def keys (m : List (κ × α)) : List κ := m.map Prod.fst

end AMap

/-! ## The world outside the engine -/

/-- The permission sets of CacheBase.h that the engine passes to `chmod`:
`s_fileRWPerms`, `s_fileROPerms`, `s_dirObjPerms`. -/
inductive Perm where
  | fileRW
  | fileRO
  | dirObj
  deriving DecidableEq, Repr

/-- Everything a call of the engine reads that is not engine state: the
alphabet of the absent CacheBase.h, the clock, the outcomes of the system
calls, and the addresses of the `CFileCache` objects (they order the
`std::map<CFileCache*, ...>` of `CleanupAllTypes`). -/
structure Env where
  /-- The constant `s_charMapping`. -/
  charMapping : List Char
  /-- The value of `::time(0)`. -/
  now : Int
  /-- Whether `::mkdir(path)` returns 0. -/
  mkdirOk : List Char → Bool
  /-- Whether a failing `::mkdir(path)` reports `EEXIST`. -/
  mkdirExists : List Char → Bool
  /-- Whether `::fopen(path, "w")` succeeds. -/
  fopenOk : List Char → Bool
  /-- Whether `::chmod(path, perms)` returns 0. -/
  chmodOk : List Char → Perm → Bool
  /-- Whether `setxattr(path, "user." ++ key, ..)` returns 0; the flag tells
  `XATTR_REPLACE` from `XATTR_CREATE`. -/
  setxattrOk : List Char → Char → Bool → Bool
  /-- The result of `::stat(path)`: `none` when it fails, else `st_size`. -/
  statSize : List Char → Option Int
  /-- Whether `SyncFile(path)` succeeds. -/
  syncOk : List Char → Bool
  /-- Whether `::unlink(path)` returns 0. -/
  unlinkOk : List Char → Bool
  /-- Whether `CleanupDir(path)` succeeds. -/
  cleanupDirOk : List Char → Bool
  /-- The address of the `CFileCache` of a type. -/
  cachePtr : List Char → Nat
  /-- Whether a `std::ofstream` on the path opens, takes what is written and
  is `good()` after `close()`. -/
  ofstreamOk : List Char → Bool
  /-- Whether `::rename(from, to)` returns 0. -/
  renameOk : List Char → List Char → Bool
  /-- What a `std::ifstream` on the path delivers to the loop
  `while (infile >> label) infile >> value`: `none` when the open fails, else
  the pairs of label and value in the order of the file. -/
  configFile : List Char → Option (List (List Char × Int))
  /-- The value of the `k`-th call of `lrand48()` within one call of the
  engine. -/
  lrand48 : Nat → Nat

/-! ## CacheObject.cpp -/

/-- The data members of `CCacheObject` (CacheObject.h:114-130); the
back-pointer `m_fileCache` is the name of the owning type, passed to the
member functions that use it. -/
structure CCacheObject where
  m_id : Nat
  m_size : Int
  m_cost : Int
  m_lifetime : Int
  m_subscriptionCount : Int
  m_filename : List Char
  m_written : Bool
  m_expired : Bool
  m_dirType : Bool
  m_creationTime : Int
  m_lastAccessTime : Int
  deriving DecidableEq, Repr

namespace CCacheObject

/-- The constructor `CCacheObject::CCacheObject` (CacheObject.cpp:26-49). -/
def new (env : Env) (id : Nat) (filename : List Char) (size cost lifetime : Int)
    (written dirType : Bool) : CCacheObject :=
  { m_id := id
    m_size := size
    m_cost := if cost > s_maxCost then s_maxCost else cost
    m_lifetime := if lifetime < 1 then 1 else lifetime
    m_subscriptionCount := 0
    m_filename := filename
    m_written := written
    m_expired := false
    m_dirType := dirType
    m_creationTime := env.now
    m_lastAccessTime := env.now }

/-- The member `CCacheObject::GetPathname` (CacheObject.cpp:683-692);
`baseDirName` is `GetFileCacheSet()->GetBaseDirName()` and `typeName` is
`GetFileCacheType()`. -/
def GetPathname (env : Env) (baseDirName typeName : List Char) (o : CCacheObject)
    (createDir : Bool) : List Char :=
  BuildPathname env.charMapping (fun p => env.mkdirOk p || env.mkdirExists p) o.m_id
    baseDirName typeName o.m_filename createDir

/-- The member `CCacheObject::UpdateAccessTime` (CacheObject.h:54-57). -/
def UpdateAccessTime (env : Env) (o : CCacheObject) : CCacheObject :=
  { o with m_lastAccessTime := env.now }

/-- The member `CCacheObject::CreateObject` (CacheObject.cpp:97-148). -/
def CreateObject (env : Env) (o : CCacheObject) (pathname : List Char) : Bool :=
  if o.m_dirType then env.mkdirOk pathname
  else if env.fopenOk pathname then env.chmodOk pathname Perm.fileRW
  else false

/-- The member `CCacheObject::SetSizeAttribute` (CacheObject.cpp:174-199). -/
def SetSizeAttribute (env : Env) (pathname : List Char) (replace : Bool) : Bool :=
  env.setxattrOk pathname 's' replace

/-- The member `CCacheObject::SetWrittenAttribute` (CacheObject.cpp:249-292):
the attribute, then the read-only permissions. -/
def SetWrittenAttribute (env : Env) (pathname : List Char) (replace : Bool) : Bool :=
  if env.setxattrOk pathname 'w' replace then env.chmodOk pathname Perm.fileRO else false

/-- The member `CCacheObject::Initialize` (CacheObject.cpp:320-359). -/
def Initialize (env : Env) (baseDirName typeName : List Char) (o : CCacheObject)
    (isNew : Bool) : Bool :=
  if isNew then
    let pathname := o.GetPathname env baseDirName typeName true
    let success := !pathname.isEmpty
    let success := if success then o.CreateObject env pathname else success
    let success := if success then env.setxattrOk pathname 'f' false else success
    let success := if success then SetSizeAttribute env pathname false else success
    let success := if success then env.setxattrOk pathname 'c' false else success
    let success := if success then env.setxattrOk pathname 'l' false else success
    let success := if success then env.setxattrOk pathname 'd' false else success
    let success := if success then SetWrittenAttribute env pathname false else success
    success
  else true

/-- The text `CCacheObject::Subscribe` stores in `msgText` when a second
writer is refused (CacheObject.cpp:404). -/
def onlyOneWriterText : List Char := "Failed, only one writer allowed".toList

/-- The member `CCacheObject::Subscribe` (CacheObject.cpp:372-417).  The
result is the object afterwards, the returned path and the reason text
`msgText` afterwards. -/
def Subscribe (env : Env) (baseDirName typeName : List Char) (msgText : List Char)
    (o : CCacheObject) : CCacheObject × List Char × List Char :=
  if !o.m_expired then
    if o.m_written || o.m_subscriptionCount == 0 then
      let pathname := o.GetPathname env baseDirName typeName false
      let pathname :=
        if !o.m_written then
          if env.chmodOk pathname (if o.m_dirType then Perm.dirObj else Perm.fileRW) then pathname
          else []
        else pathname
      let o1 :=
        if !pathname.isEmpty then { o with m_subscriptionCount := o.m_subscriptionCount + 1 }
        else o
      (o1.UpdateAccessTime env, pathname, msgText)
    else
      (o.UpdateAccessTime env, [], onlyOneWriterText)
  else (o, [], msgText)

/-- The size check of `CCacheObject::UnSubscribe` (CacheObject.cpp:440-483):
the object afterwards and the flag `suceeded`. -/
def UnSubscribe.checkSize (env : Env) (pathname : List Char) (o : CCacheObject) :
    CCacheObject × Bool :=
  if !pathname.isEmpty then
    match env.statSize pathname with
    | none => (o, false)
    | some size =>
      if size > o.m_size then (o, false)
      else if size < o.m_size then
        ({ o with m_size := size }, SetSizeAttribute env pathname true)
      else (o, true)
  else (o, false)

/-- The sync and the written flag of `CCacheObject::UnSubscribe`
(CacheObject.cpp:485-504), from the object and the flag `suceeded` the size
check has left. -/
def UnSubscribe.persist (env : Env) (pathname : List Char) (r : CCacheObject × Bool) :
    CCacheObject × Bool :=
  let suceeded := if r.2 then env.syncOk pathname else r.2
  if suceeded then
    if SetWrittenAttribute env pathname true then ({ r.1 with m_written := true }, true)
    else ({ r.1 with m_written := false }, false)
  else (r.1, suceeded)

/-- The member `CCacheObject::UnSubscribe` (CacheObject.cpp:419-519).  The
flag of the result tells whether the object called
`RemoveObjectFromIdMap(m_id)` on the cache set. -/
def UnSubscribe (env : Env) (baseDirName typeName : List Char) (o : CCacheObject) :
    CCacheObject × Bool :=
  let o1 := { o with m_subscriptionCount := o.m_subscriptionCount - 1 }
  let pathname := o1.GetPathname env baseDirName typeName false
  let r :=
    if o1.m_dirType then (o1, false)
    else if !o1.m_written then UnSubscribe.persist env pathname (UnSubscribe.checkSize env pathname o1)
    else (o1, true)
  if !r.2 then ({ r.1 with m_expired := true }, true)
  else (r.1.UpdateAccessTime env, false)

/-- The member `CCacheObject::Touch` (CacheObject.cpp:523-529). -/
def Touch (env : Env) (o : CCacheObject) : CCacheObject × Int :=
  (o.UpdateAccessTime env, env.now)

/-- The member `CCacheObject::Resize` (CacheObject.cpp:533-561).  The local
`int savedSize` holds `m_size` unchanged: the declared size is stored in an
extended attribute of `sizeof(int)` bytes, so `cacheSize_t` is `int`. -/
def Resize (env : Env) (baseDirName typeName : List Char) (o : CCacheObject)
    (newSize : Int) : CCacheObject × Int :=
  if !o.m_written && o.m_subscriptionCount == 1 then
    let pathname := o.GetPathname env baseDirName typeName false
    let savedSize := o.m_size
    let o1 := { o with m_size := newSize }
    let o2 := if !SetSizeAttribute env pathname true then { o1 with m_size := savedSize } else o1
    (o2, o2.m_size)
  else (o, o.m_size)

/-- The member `CCacheObject::Expire` (CacheObject.cpp:563-624).  The result
is the object afterwards, the returned flag, and whether the backing file or
directory was handed to `::unlink` or `CleanupDir`. -/
def Expire (env : Env) (baseDirName typeName : List Char) (o : CCacheObject) :
    CCacheObject × Bool × Bool :=
  let o := { o with m_expired := true }
  if o.m_subscriptionCount > 0 then (o, false, false)
  else if o.m_filename.length > 0 then
    let pathname := o.GetPathname env baseDirName typeName false
    let successful :=
      if o.m_dirType then env.cleanupDirOk pathname else env.unlinkOk pathname
    (o, successful, true)
  else (o, false, false)

/-- The destructor `CCacheObject::~CCacheObject` (CacheObject.cpp:51-95):
whether it hands the backing file or directory to `::unlink` or `CleanupDir`. -/
def destructorRemoves (env : Env) (baseDirName typeName : List Char) (o : CCacheObject) : Bool :=
  (o.GetPathname env baseDirName typeName false).length > 0

/-- The member `CCacheObject::GetCacheCost` (CacheObject.cpp:702-719), with
the truncating division of C++.  -/
def GetCacheCost (env : Env) (o : CCacheObject) : Int :=
  let age := env.now - o.m_lastAccessTime
  if age < o.m_lifetime then s_maxCost
  else
    let sizeInPages := Int.tdiv (o.m_size + s_blockSize - 1) s_blockSize
    Int.tdiv (o.m_cost * sizeInPages) age

end CCacheObject

/-! ## FileCache.cpp and FileCacheSet.cpp: the state -/

/-- The data members of `CFileCache` (FileCache.h:161-174).  The map
`m_cachedObjects` owns the objects (the stored pointers are the only
references); `m_cacheList` is the LRU list, most recent first. -/
structure CFileCache where
  m_cacheType : List Char
  m_numObjects : Int
  m_cacheSize : Int
  m_loWatermark : Int
  m_hiWatermark : Int
  m_defaultSize : Int
  m_defaultLifetime : Int
  m_defaultCost : Int
  m_dirType : Bool
  m_cachedObjects : List (Nat × CCacheObject)
  m_cacheList : List Nat
  deriving DecidableEq, Repr

/-- The data members of `CFileCacheSet` (FileCacheSet.h:241-246), and one
ghost member: `fsRemoved` lists, in order, the objects (name of the type in
`m_cacheSet` and id) whose backing file or directory the engine handed to
`::unlink` or `CleanupDir`. -/
structure CFileCacheSet where
  m_cacheSet : List (List Char × CFileCache)
  m_idMap : List (Nat × List Char)
  m_totalCacheSpace : Int
  m_baseDirName : List Char
  m_sequenceNumber : Int
  fsRemoved : List (List Char × Nat)
  deriving DecidableEq, Repr

/-- The key order of `std::map<cachedObjectId_t, ..>`. -/
def idLt (a b : Nat) : Bool := decide (a < b)

/-- The key order of `std::map<const std::string, ..>`: the lexicographic
order of `std::string`. -/
def nameLt (a b : List Char) : Bool := decide (a < b)

namespace CFileCache

/-- The constructor `CFileCache::CFileCache` (FileCache.cpp:26-38). -/
def new (cacheType : List Char) : CFileCache :=
  { m_cacheType := cacheType
    m_numObjects := 0
    m_cacheSize := 0
    m_loWatermark := 0
    m_hiWatermark := 1
    m_defaultSize := 0
    m_defaultLifetime := 1
    m_defaultCost := 0
    m_dirType := false
    m_cachedObjects := []
    m_cacheList := [] }

/-- The member `CFileCache::GetCacheObjectForId` (FileCache.cpp:606-638). -/
def GetCacheObjectForId (c : CFileCache) (objId : Nat) : Option CCacheObject :=
  AMap.find c.m_cachedObjects objId

/-- The member `CFileCache::UpdateObject` (FileCache.cpp:642-657): move the
first occurrence of the id to the front of the LRU list. -/
def UpdateObject (c : CFileCache) (objId : Nat) : CFileCache :=
  if objId ∈ c.m_cacheList then { c with m_cacheList := objId :: c.m_cacheList.erase objId }
  else c

/-- The member `CFileCache::Insert` (FileCache.cpp:160-179). -/
def Insert (c : CFileCache) (newObj : CCacheObject) : CFileCache × Int :=
  let objects := AMap.insert idLt c.m_cachedObjects newObj.m_id newObj
  ({ c with
      m_cachedObjects := objects
      m_cacheList := newObj.m_id :: c.m_cacheList
      m_numObjects := c.m_numObjects + 1
      m_cacheSize := c.m_cacheSize + GetFilesystemFileSize newObj.m_size },
    (objects.length : Int))

/-- The member `CFileCache::Expire` (FileCache.cpp:236-288).  The result is
the cache afterwards, the returned flag, and the ids whose backing file this
call handed to `::unlink` or `CleanupDir` (in `CCacheObject::Expire`, then in
the destructor when the object is deleted). -/
def Expire (env : Env) (baseDirName : List Char) (c : CFileCache) (objId : Nat) :
    CFileCache × Bool × List Nat :=
  match c.GetCacheObjectForId objId with
  | some o =>
    let objSize := o.m_size
    let c1 := if !o.m_expired then { c with m_cacheList := c.m_cacheList.erase objId } else c
    let r := o.Expire env baseDirName c.m_cacheType
    let log := if r.2.2 then [objId] else []
    if r.2.1 then
      ({ c1 with
          m_cachedObjects := AMap.erase c1.m_cachedObjects objId
          m_numObjects := c1.m_numObjects - 1
          m_cacheSize := c1.m_cacheSize - GetFilesystemFileSize objSize },
        true,
        log ++ (if r.1.destructorRemoves env baseDirName c.m_cacheType then [objId] else []))
    else
      ({ c1 with m_cachedObjects := AMap.replace c1.m_cachedObjects objId r.1 }, false, log)
  | none => (c, true, [])

/-- The member `CFileCache::Subscribe` (FileCache.cpp:294-315).  The result is
the cache afterwards, the returned path and `msgText` afterwards. -/
def Subscribe (env : Env) (baseDirName : List Char) (msgText : List Char) (c : CFileCache)
    (objId : Nat) : CFileCache × List Char × List Char :=
  match c.GetCacheObjectForId objId with
  | some o =>
    let r := o.Subscribe env baseDirName c.m_cacheType msgText
    let c1 := { c with m_cachedObjects := AMap.replace c.m_cachedObjects objId r.1 }
    let c2 := if !r.2.1.isEmpty && r.2.2.isEmpty then c1.UpdateObject objId else c1
    (c2, r.2.1, r.2.2)
  | none => (c, [], msgText)

/-- The part of `CFileCache::UnSubscribe` (FileCache.cpp:320-344) that acts on
the cache itself; the flag tells whether the object called
`RemoveObjectFromIdMap` on the cache set. -/
def UnSubscribeLocal (env : Env) (baseDirName : List Char) (c : CFileCache) (objId : Nat) :
    CFileCache × Bool :=
  match c.GetCacheObjectForId objId with
  | some o =>
    let origSize := o.m_size
    let r := o.UnSubscribe env baseDirName c.m_cacheType
    let c1 := { c with m_cachedObjects := AMap.replace c.m_cachedObjects objId r.1 }
    let finalSize := r.1.m_size
    let c2 :=
      if finalSize ≠ origSize then
        { c1 with m_cacheSize := c1.m_cacheSize +
            (GetFilesystemFileSize finalSize - GetFilesystemFileSize origSize) }
      else c1
    (c2.UpdateObject objId, r.2)
  | none => (c, false)

/-- The member `CFileCache::Touch` (FileCache.cpp:348-366). -/
def Touch (env : Env) (c : CFileCache) (objId : Nat) : CFileCache × Bool :=
  match c.GetCacheObjectForId objId with
  | some o =>
    let c1 := { c with m_cachedObjects := AMap.replace c.m_cachedObjects objId (o.Touch env).1 }
    (c1.UpdateObject objId, true)
  | none => (c, false)

/-- The member `CFileCache::GetCachedObjects` (FileCache.cpp:370-390), as the
ids in the order of the map. -/
def GetCachedObjects (c : CFileCache) : List Nat := AMap.keys c.m_cachedObjects

/-- The member `CFileCache::GetCacheCost` (FileCache.cpp:473-491). -/
def GetCacheCost (env : Env) (c : CFileCache) (objId : Nat) : Int :=
  match c.GetCacheObjectForId objId with
  | some o => o.GetCacheCost env
  | none => -1

/-- The member `CFileCache::GetCleanupCandidate` (FileCache.cpp:494-505). -/
def GetCleanupCandidate (c : CFileCache) : Nat :=
  if c.m_cacheSize > c.m_loWatermark && !c.m_cacheList.isEmpty then c.m_cacheList.getLastD 0
  else 0

/-- The member `CFileCache::GetObjectSize` (FileCache.cpp:550-565). -/
def GetObjectSize (c : CFileCache) (objId : Nat) : Int :=
  match c.GetCacheObjectForId objId with
  | some o => o.m_size
  | none => -1

/-- The member `CFileCache::isCleanable` (FileCache.cpp:585-604). -/
def isCleanable (c : CFileCache) : Bool :=
  c.m_cachedObjects.all (fun p => !(decide (p.2.m_subscriptionCount > 0)))

end CFileCache

namespace CFileCacheSet

/-- The member `CFileCacheSet::GetFileCacheForType` (FileCacheSet.cpp:893-906). -/
def GetFileCacheForType (s : CFileCacheSet) (typeName : List Char) : Option CFileCache :=
  AMap.find s.m_cacheSet typeName

/-- The member `CFileCacheSet::GetTypeForObjectId` (FileCacheSet.cpp:853-866):
the empty string stands for "not found". -/
def GetTypeForObjectId (s : CFileCacheSet) (objId : Nat) : List Char :=
  match AMap.find s.m_idMap objId with
  | some typeName => typeName
  | none => []

/-- A write to the `CFileCache` the set holds under `typeName`. -/
def setCache (s : CFileCacheSet) (typeName : List Char) (c : CFileCache) : CFileCacheSet :=
  { s with m_cacheSet := AMap.replace s.m_cacheSet typeName c }

/-- The member `CFileCacheSet::RemoveObjectFromIdMap` (FileCacheSet.h:134-136). -/
def RemoveObjectFromIdMap (s : CFileCacheSet) (objId : Nat) : CFileCacheSet :=
  { s with m_idMap := AMap.erase s.m_idMap objId }

/-- The member `CFileCacheSet::SumOfLoWatermarks` (FileCacheSet.cpp:812-830). -/
def SumOfLoWatermarks (s : CFileCacheSet) : Int :=
  (s.m_cacheSet.map (fun p => p.2.m_loWatermark)).sum

/-- The member `CFileCacheSet::SumOfCacheSizes` (FileCacheSet.cpp:833-849). -/
def SumOfCacheSizes (s : CFileCacheSet) : Int :=
  (s.m_cacheSet.map (fun p => p.2.m_cacheSize)).sum

/-- The member `CFileCacheSet::CachedObjectSize` (FileCacheSet.cpp:641-667). -/
def CachedObjectSize (s : CFileCacheSet) (objId : Nat) : Int :=
  let typeName := s.GetTypeForObjectId objId
  if !typeName.isEmpty then
    match s.GetFileCacheForType typeName with
    | some c => c.GetObjectSize objId
    | none => -1
  else -1

/-- The member `CFileCacheSet::ExpireCacheObject` (FileCacheSet.cpp:431-460). -/
def ExpireCacheObject (env : Env) (s : CFileCacheSet) (objId : Nat) : CFileCacheSet × Bool :=
  let typeName := s.GetTypeForObjectId objId
  if !typeName.isEmpty then
    match s.GetFileCacheForType typeName with
    | some c =>
      let s1 := s.RemoveObjectFromIdMap objId
      let r := c.Expire env s.m_baseDirName objId
      ({ s1 with
          m_cacheSet := AMap.replace s1.m_cacheSet typeName r.1
          fsRemoved := s1.fsRemoved ++ r.2.2.map (fun i => (typeName, i)) },
        r.2.1)
    | none => (s, true)
  else (s, true)

/-- The member `CFileCacheSet::SelectCandidateToExpire`
(FileCacheSet.cpp:206-225) over the candidate map in its iteration order;
`none` is the `NULL` result. -/
def SelectCandidateToExpire (env : Env) (s : CFileCacheSet) :
    List (List Char × Nat) → Option (List Char) → Int → Option (List Char)
  | [], retVal, _ => retVal
  | p :: rest, retVal, lowCost =>
    let cost :=
      match s.GetFileCacheForType p.1 with
      | some c => c.GetCacheCost env p.2
      | none => -1
    if cost ≤ lowCost then SelectCandidateToExpire env s rest (some p.1) cost
    else SelectCandidateToExpire env s rest retVal lowCost

/-- The order of `std::map<CFileCache*, ..>`: the addresses of the caches. -/
def ptrLt (env : Env) (a b : List Char) : Bool := decide (env.cachePtr a < env.cachePtr b)

/-- The first loop of `CFileCacheSet::CleanupAllTypes`
(FileCacheSet.cpp:243-254): the candidate of every type that has one. -/
def collectCandidates (env : Env) :
    List (List Char × CFileCache) → List (List Char × Nat) → List (List Char × Nat)
  | [], cleanupMap => cleanupMap
  | p :: rest, cleanupMap =>
    let candidate := p.2.GetCleanupCandidate
    if candidate ≠ 0 then
      collectCandidates env rest (AMap.insert (ptrLt env) cleanupMap p.1 candidate)
    else collectCandidates env rest cleanupMap

/-- The second loop of `CFileCacheSet::CleanupAllTypes`
(FileCacheSet.cpp:257-279).  A round either leaves the loop, or adds at least
two blocks to `cleanedSize`, or removes an entry of `m_idMap`; `fuel` bounds
the number of rounds. -/
def CleanupAllTypes.loop (env : Env) (neededSize : Int) :
    Nat → CFileCacheSet → List (List Char × Nat) → Int → CFileCacheSet × Int
  | 0, s, _, cleanedSize => (s, cleanedSize)
  | fuel + 1, s, cleanupMap, cleanedSize =>
    if cleanedSize < neededSize then
      match SelectCandidateToExpire env s cleanupMap none s_maxCost with
      | none => (s, cleanedSize)
      | some fileCache =>
        let objId := (AMap.find cleanupMap fileCache).getD 0
        let size := GetFilesystemFileSize (s.CachedObjectSize objId)
        let cleanupMap := AMap.erase cleanupMap fileCache
        let r := s.ExpireCacheObject env objId
        let cleanedSize := if r.2 then cleanedSize + size else cleanedSize
        let cleanupMap :=
          if cleanedSize < neededSize then
            match r.1.GetFileCacheForType fileCache with
            | some c =>
              let candidate := c.GetCleanupCandidate
              if candidate ≠ 0 then AMap.insert (ptrLt env) cleanupMap fileCache candidate
              else cleanupMap
            | none => cleanupMap
          else cleanupMap
        CleanupAllTypes.loop env neededSize fuel r.1 cleanupMap cleanedSize
    else (s, cleanedSize)

/-- The member `CFileCacheSet::CleanupAllTypes` (FileCacheSet.cpp:229-282). -/
def CleanupAllTypes (env : Env) (s : CFileCacheSet) (neededSize : Int) : CFileCacheSet × Int :=
  let neededSize := GetFilesystemFileSize neededSize
  let cleanupMap := collectCandidates env s.m_cacheSet []
  CleanupAllTypes.loop env neededSize
    ((neededSize / (2 * s_blockSize)).toNat + 1 + s.m_idMap.length) s cleanupMap 0

end CFileCacheSet

namespace CFileCache

/-- The member `CFileCache::CheckForSize` (FileCache.cpp:393-416) of the
cache `typeName` of the set. -/
def CheckForSize (s : CFileCacheSet) (typeName : List Char) (size : Int) : Bool :=
  match s.GetFileCacheForType typeName with
  | some c =>
    let availSpace := s.m_totalCacheSpace - s.SumOfCacheSizes
    let availSpace := if availSpace < 0 then 0 else availSpace
    decide (c.m_cacheSize + size < c.m_hiWatermark) && decide (size ≤ availSpace)
  | none => false

/-- The loop of `CFileCache::CleanupCache` (FileCache.cpp:427-432) in the
cache `typeName` of the set; a round removes the last id of the LRU list, so
the length of the list bounds the number of rounds.  The result carries
`expired`, `objId` and `size` at the exit of the loop. -/
def CleanupCache.loop (env : Env) (typeName : List Char) :
    Nat → CFileCacheSet → Nat → Int → CFileCacheSet × Bool × Nat × Int
  | 0, s, objId, size => (s, false, objId, size)
  | fuel + 1, s, objId, size =>
    match s.GetFileCacheForType typeName with
    | none => (s, false, objId, size)
    | some c =>
      match c.m_cacheList.getLast? with
      | none => (s, false, objId, size)
      | some objId1 =>
        let c1 := { c with m_cacheList := c.m_cacheList.dropLast }
        let s1 := s.setCache typeName c1
        let size1 := c1.GetObjectSize objId1
        let r := s1.ExpireCacheObject env objId1
        if r.2 then (r.1, true, objId1, size1)
        else CleanupCache.loop env typeName fuel r.1 objId1 size1

/-- The member `CFileCache::CleanupCache` (FileCache.cpp:419-445) of the cache
`typeName` of the set: the state afterwards, the returned size (or -1) and
the value stored through `cleanedId`. -/
def CleanupCache (env : Env) (s : CFileCacheSet) (typeName : List Char) :
    CFileCacheSet × Int × Option Nat :=
  let fuel :=
    match s.GetFileCacheForType typeName with
    | some c => c.m_cacheList.length
    | none => 0
  let r := CleanupCache.loop env typeName fuel s 0 (-1)
  if r.2.1 then (r.1, r.2.2.2, some r.2.2.1) else (r.1, -1, none)

/-- The `while` loop of `CFileCache::Cleanup` (FileCache.cpp:455-457); every
round but the last shortens the LRU list. -/
def Cleanup.loop (env : Env) (typeName : List Char) (size : Int) :
    Nat → CFileCacheSet → CFileCacheSet
  | 0, s => s
  | fuel + 1, s =>
    match s.GetFileCacheForType typeName with
    | none => s
    | some c =>
      if c.m_cacheSize + size ≥ c.m_hiWatermark then
        let r := CleanupCache env s typeName
        if r.2.1 ≥ 0 then Cleanup.loop env typeName size fuel r.1 else r.1
      else s

/-- The member `CFileCache::Cleanup` (FileCache.cpp:448-470) of the cache
`typeName` of the set. -/
def Cleanup (env : Env) (s : CFileCacheSet) (typeName : List Char) (size : Int) :
    CFileCacheSet :=
  match s.GetFileCacheForType typeName with
  | none => s
  | some c =>
    if size < c.m_hiWatermark then
      let s1 := Cleanup.loop env typeName size (c.m_cacheList.length + 1) s
      let availSpace := s1.m_totalCacheSpace - s1.SumOfCacheSizes
      let availSpace := if availSpace < 0 then 0 else availSpace
      if size > availSpace then (s1.CleanupAllTypes env (size - availSpace)).1 else s1
    else s

/-- The member `CFileCache::Resize` (FileCache.cpp:189-229) of the cache
`typeName` of the set.  `none`: `Cleanup` has deleted the object that
`cachedObject` points to and the function goes on to use the pointer. -/
def Resize (env : Env) (s : CFileCacheSet) (typeName : List Char) (objId : Nat)
    (newSize : Int) : Option (CFileCacheSet × Int) :=
  match s.GetFileCacheForType typeName with
  | none => some (s, 0)
  | some c =>
    match c.GetCacheObjectForId objId with
    | none => some (s, 0)
    | some o =>
      let origSize := o.m_size
      let neededSpace := GetFilesystemFileSize newSize - GetFilesystemFileSize origSize
      let s1 := if !CheckForSize s typeName neededSpace then Cleanup env s typeName neededSpace
                else s
      if CheckForSize s1 typeName neededSpace then
        match s1.GetFileCacheForType typeName with
        | none => none
        | some c1 =>
          match c1.GetCacheObjectForId objId with
          | none => none
          | some o1 =>
            let r := o1.Resize env s1.m_baseDirName typeName newSize
            let finalSize := r.2
            let c2 := { c1 with m_cachedObjects := AMap.replace c1.m_cachedObjects objId r.1 }
            let c3 :=
              if finalSize ≠ origSize then
                ({ c2 with m_cacheSize := c2.m_cacheSize +
                    (GetFilesystemFileSize finalSize - GetFilesystemFileSize origSize) }
                  ).UpdateObject objId
              else c2
            some (s1.setCache typeName c3, finalSize)
      else some (s1, 0)

/-- The member `CFileCache::Expire` of the cache `typeName` of the set. -/
def ExpireIn (env : Env) (s : CFileCacheSet) (typeName : List Char) (objId : Nat) :
    CFileCacheSet × Bool :=
  match s.GetFileCacheForType typeName with
  | none => (s, true)
  | some c =>
    let r := c.Expire env s.m_baseDirName objId
    ({ s with
        m_cacheSet := AMap.replace s.m_cacheSet typeName r.1
        fsRemoved := s.fsRemoved ++ r.2.2.map (fun i => (typeName, i)) },
      r.2.1)

/-- The member `CFileCache::Insert` of the cache `typeName` of the set. -/
def InsertIn (s : CFileCacheSet) (typeName : List Char) (newObj : CCacheObject) :
    CFileCacheSet :=
  match s.GetFileCacheForType typeName with
  | none => s
  | some c => s.setCache typeName (c.Insert newObj).1

/-- The member `CFileCache::Subscribe` of the cache `typeName` of the set. -/
def SubscribeIn (env : Env) (s : CFileCacheSet) (typeName : List Char) (msgText : List Char)
    (objId : Nat) : CFileCacheSet × List Char × List Char :=
  match s.GetFileCacheForType typeName with
  | none => (s, [], msgText)
  | some c =>
    let r := c.Subscribe env s.m_baseDirName msgText objId
    (s.setCache typeName r.1, r.2.1, r.2.2)

/-- The member `CFileCache::UnSubscribe` (FileCache.cpp:320-344) of the cache
`typeName` of the set, with the call of `RemoveObjectFromIdMap` that
`CCacheObject::UnSubscribe` makes on failure. -/
def UnSubscribe (env : Env) (s : CFileCacheSet) (typeName : List Char) (objId : Nat) :
    CFileCacheSet :=
  match s.GetFileCacheForType typeName with
  | none => s
  | some c =>
    let r := c.UnSubscribeLocal env s.m_baseDirName objId
    let s1 := if r.2 then s.RemoveObjectFromIdMap objId else s
    s1.setCache typeName r.1

/-- The member `CFileCache::Touch` of the cache `typeName` of the set. -/
def TouchIn (env : Env) (s : CFileCacheSet) (typeName : List Char) (objId : Nat) :
    CFileCacheSet × Bool :=
  match s.GetFileCacheForType typeName with
  | none => (s, false)
  | some c =>
    let r := c.Touch env objId
    (s.setCache typeName r.1, r.2)

/-- The member `CFileCache::CleanupOrphanedObjects` (FileCache.cpp:508-527) of
the cache `typeName` of the set: the expired ids are collected in map order
and handed to `Expire` from the back. -/
def CleanupOrphanedObjects (env : Env) (s : CFileCacheSet) (typeName : List Char) :
    CFileCacheSet :=
  match s.GetFileCacheForType typeName with
  | none => s
  | some c =>
    let cleanups := (c.m_cachedObjects.filter (fun p => p.2.m_expired)).map Prod.fst
    cleanups.reverse.foldl (fun acc objId => (ExpireIn env acc typeName objId).1) s

/-- One round of the second loop of `CFileCache::CleanupDirType`
(FileCache.cpp:698-711) for the id `objId`.  The lookup
`m_cachedObjects[objId]` finds the object: the ids of `cleanups` are
distinct keys of the map and a round removes no other key. -/
def CleanupDirType.step (env : Env) (typeName : List Char) (s : CFileCacheSet) (objId : Nat) :
    CFileCacheSet :=
  match s.GetFileCacheForType typeName with
  | none => s
  | some c =>
    match c.GetCacheObjectForId objId with
    | none => s
    | some o =>
      if o.m_expired then (ExpireIn env s typeName objId).1
      else (s.ExpireCacheObject env objId).1

/-- The member `CFileCache::CleanupDirType` (FileCache.cpp:680-712) of the
cache `typeName` of the set. -/
def CleanupDirType (env : Env) (s : CFileCacheSet) (typeName : List Char) : CFileCacheSet :=
  match s.GetFileCacheForType typeName with
  | none => s
  | some c =>
    let cleanups :=
      (c.m_cachedObjects.filter (fun p => decide (p.2.m_subscriptionCount = 0))).map Prod.fst
    cleanups.reverse.foldl (CleanupDirType.step env typeName) s

end CFileCache

namespace CFileCacheSet

/-- The member `CFileCacheSet::CleanupOrphans` (FileCacheSet.cpp:909-920). -/
def CleanupOrphans (env : Env) (s : CFileCacheSet) : CFileCacheSet :=
  (AMap.keys s.m_cacheSet).foldl (CFileCache.CleanupOrphanedObjects env) s

/-- The member `CFileCacheSet::CleanupDirTypes` (FileCacheSet.cpp:987-1000). -/
def CleanupDirTypes (env : Env) (s : CFileCacheSet) : CFileCacheSet :=
  (AMap.keys s.m_cacheSet).foldl
    (fun acc typeName =>
      match acc.GetFileCacheForType typeName with
      | some c => if c.m_dirType then CFileCache.CleanupDirType env acc typeName else acc
      | none => acc)
    s

/-- The member `CFileCacheSet::DeleteType` (FileCacheSet.cpp:124-167): the
state afterwards and the returned size, -1 when nothing was deleted. -/
def DeleteType (env : Env) (s : CFileCacheSet) (typeName : List Char) : CFileCacheSet × Int :=
  match s.GetFileCacheForType typeName with
  | some c =>
    if c.isCleanable then
      let retVal := c.m_cacheSize
      let curObjs := c.GetCachedObjects
      let s1 := curObjs.reverse.foldl (fun acc objId => (acc.ExpireCacheObject env objId).1) s
      ({ s1 with m_cacheSet := AMap.erase s1.m_cacheSet typeName }, retVal)
    else (s, -1)
  | none => (s, -1)

/-- The member `CFileCacheSet::SubscribeCacheObject` (FileCacheSet.cpp:466-493). -/
def SubscribeCacheObject (env : Env) (s : CFileCacheSet) (msgText : List Char) (objId : Nat) :
    CFileCacheSet × List Char × List Char :=
  let typeName := s.GetTypeForObjectId objId
  if !typeName.isEmpty then CFileCache.SubscribeIn env s typeName msgText objId
  else (s, [], msgText)

/-- The member `CFileCacheSet::UnSubscribeCacheObject` (FileCacheSet.cpp:497-520). -/
def UnSubscribeCacheObject (env : Env) (s : CFileCacheSet) (typeName : List Char)
    (objId : Nat) : CFileCacheSet :=
  if !typeName.isEmpty then CFileCache.UnSubscribe env s typeName objId else s

end CFileCacheSet

/-! ## Type configuration, object insertion and resize through the set -/

/-- Modelled from the spec: `s_maxSeqBits` of the absent CacheBase.h, section 6
"Global constants": `seqBits=22` (TestObjects.h:64-68 masks "the lower 22
bits" to get the sequence number). -/
def s_maxSeqBits : Nat := 22

/-- Modelled from the spec: `s_maxId` of the absent CacheBase.h, section 2:
"Only IDs in `[1, 2^63)` are valid". -/
def s_maxId : Nat := 2 ^ 63 - 1

/-- Modelled from the spec: `s_typeConfigFilename` of the absent CacheBase.h,
section 4.4: the type defaults file `Type.defaults` (the literal of
FileCache.cpp:50). -/
def s_typeConfigFilename : List Char := "Type.defaults".toList

/-- The label `s_loWatermark` (FileCache.h:27). -/
def s_loWatermark : List Char := "loWatermark".toList

/-- The label `s_hiWatermark` (FileCache.h:28). -/
def s_hiWatermark : List Char := "hiWatermark".toList

/-- The label `s_defaultSize` (FileCache.h:29). -/
def s_defaultSize : List Char := "defaultSize".toList

/-- The label `s_defaultLifetime` (FileCache.h:30). -/
def s_defaultLifetime : List Char := "defaultLifetime".toList

/-- The label `s_defaultCost` (FileCache.h:31). -/
def s_defaultCost : List Char := "defaultCost".toList

/-- The label `s_dirType` (FileCache.h:32). -/
def s_dirType : List Char := "dirType".toList

/-- The constant `s_numLabels` (FileCache.h:33). -/
def s_numLabels : Nat := 6

/-- Modelled from the spec: the class `CCacheParamValues` of the absent
CacheBase.h, section 6: the five values `lo, hi, size, cost, lifetime` that
its constructor takes in this order (FileCacheSetTest.h:90) and its getters
return. -/
structure CCacheParamValues where
  loWatermark : Int
  hiWatermark : Int
  size : Int
  cost : Int
  lifetime : Int
  deriving DecidableEq, Repr

namespace CFileCache

/-- The member `CFileCache::WriteConfig` (FileCache.cpp:716-787): whether the
configuration reached the file `Type.defaults` of the type. -/
def WriteConfig (env : Env) (baseDirName : List Char) (c : CFileCache) : Bool :=
  let pathname := baseDirName ++ "/".toList ++ c.m_cacheType
  if env.mkdirOk pathname || env.mkdirExists pathname then
    let pathname := pathname ++ "/".toList ++ s_typeConfigFilename
    let tmpFile := pathname ++ ".tmp".toList
    if env.ofstreamOk tmpFile then
      if env.syncOk tmpFile then env.renameOk tmpFile pathname else false
    else false
  else false

/-- One round of the loop of `CFileCache::ReadConfig` (FileCache.cpp:808-835):
the cache and the set `labels` after the pair `e` was read. -/
def ReadConfig.step (r : CFileCache × List (List Char)) (e : List Char × Int) :
    CFileCache × List (List Char) :=
  if e.1 = s_loWatermark then ({ r.1 with m_loWatermark := e.2 }, r.2.insert s_loWatermark)
  else if e.1 = s_hiWatermark then ({ r.1 with m_hiWatermark := e.2 }, r.2.insert s_hiWatermark)
  else if e.1 = s_defaultSize then ({ r.1 with m_defaultSize := e.2 }, r.2.insert s_defaultSize)
  else if e.1 = s_defaultCost then ({ r.1 with m_defaultCost := e.2 }, r.2.insert s_defaultCost)
  else if e.1 = s_defaultLifetime then
    ({ r.1 with m_defaultLifetime := e.2 }, r.2.insert s_defaultLifetime)
  else if e.1 = s_dirType then
    ({ r.1 with m_dirType := if e.2 ≠ 0 then true else false }, r.2.insert s_dirType)
  else r

/-- The member `CFileCache::ReadConfig` (FileCache.cpp:791-850). -/
def ReadConfig (env : Env) (baseDirName : List Char) (c : CFileCache) : CFileCache × Bool :=
  let pathname := baseDirName ++ "/".toList ++ c.m_cacheType ++ "/".toList ++ s_typeConfigFilename
  match env.configFile pathname with
  | some entries =>
    let r := entries.foldl ReadConfig.step (c, [])
    (r.1, decide (r.2.length = s_numLabels))
  | none => (c, false)

/-- The assignments of `CFileCache::Configure` (FileCache.cpp:86-124) once the
parameters are admitted: the cache with the values of `p` that it takes. -/
def Configure.apply (c : CFileCache) (p : CCacheParamValues) (dirType : Bool) : CFileCache :=
  let c1 :=
    if p.loWatermark > 0 then { c with m_loWatermark := GetFilesystemFileSize p.loWatermark }
    else c
  let c2 :=
    if p.hiWatermark > 0 then { c1 with m_hiWatermark := GetFilesystemFileSize p.hiWatermark }
    else c1
  let c3 := if p.size > 0 then { c2 with m_defaultSize := p.size } else c2
  let c4 := if p.lifetime > 1 then { c3 with m_defaultLifetime := p.lifetime } else c3
  let c5 := if p.cost > 0 then { c4 with m_defaultCost := p.cost } else c4
  { c5 with m_dirType := dirType }

/-- The member `CFileCache::Configure` (FileCache.cpp:73-139) of a cache `c`
whose cache set is `s`; `params = none` is the `NULL` pointer. -/
def Configure (env : Env) (s : CFileCacheSet) (c : CFileCache)
    (params : Option CCacheParamValues) (dirType : Bool) : CFileCache × Bool :=
  match params with
  | none => c.ReadConfig env s.m_baseDirName
  | some p =>
    let availSpace := s.m_totalCacheSpace - s.SumOfLoWatermarks
    if GetFilesystemFileSize p.loWatermark < availSpace then
      ((Configure.apply c p dirType), (Configure.apply c p dirType).WriteConfig env s.m_baseDirName)
    else (c, false)

/-- The member `CFileCache::Describe` (FileCache.cpp:143-155): the parameter
object it fills and the returned cache size. -/
def Describe (c : CFileCache) : CCacheParamValues × Int :=
  ({ loWatermark := c.m_loWatermark
     hiWatermark := c.m_hiWatermark
     size := c.m_defaultSize
     cost := c.m_defaultCost
     lifetime := c.m_defaultLifetime },
   c.m_cacheSize)

end CFileCache

namespace CFileCacheSet

/-- The member `CFileCacheSet::DefineType` (FileCacheSet.cpp:61-94). -/
def DefineType (env : Env) (s : CFileCacheSet) (typeName : List Char)
    (params : Option CCacheParamValues) (dirType : Bool) : CFileCacheSet × Bool :=
  match s.GetFileCacheForType typeName with
  | none =>
    let r := (CFileCache.new typeName).Configure env s params dirType
    if r.2 then ({ s with m_cacheSet := AMap.insert nameLt s.m_cacheSet typeName r.1 }, true)
    else (s, false)
  | some _ => (s, false)

/-- The member `CFileCacheSet::ChangeType` (FileCacheSet.cpp:100-119); the
call `fileCache->Configure(params)` takes the default `dirType = false` of
FileCache.h:46. -/
def ChangeType (env : Env) (s : CFileCacheSet) (typeName : List Char)
    (params : Option CCacheParamValues) : CFileCacheSet × Bool :=
  match s.GetFileCacheForType typeName with
  | some c =>
    let r := c.Configure env s params false
    (s.setCache typeName r.1, r.2)
  | none => (s, false)

/-- The member `CFileCacheSet::TypeExists` (FileCacheSet.cpp:869-875). -/
def TypeExists (s : CFileCacheSet) (typeName : List Char) : Bool :=
  (AMap.find s.m_cacheSet typeName).isSome

/-- The member `CFileCacheSet::isTypeDirType` (FileCacheSet.cpp:878-890). -/
def isTypeDirType (s : CFileCacheSet) (typeName : List Char) : Bool :=
  match s.GetFileCacheForType typeName with
  | some c => c.m_dirType
  | none => false

/-- The loop of `CFileCacheSet::GetNextCachedObjectId`
(FileCacheSet.cpp:932-957) from its `k`-th round on, with the sequence number
`seq`: the id and the sequence number at the exit.  The call of
`WriteSequenceNumber` writes a file and leaves the engine state alone.
`none`: the rounds allowed by `fuel` are used up. -/
def GetNextCachedObjectId.loop (env : Env) : Nat → Nat → Int → Option (Nat × Int)
  | 0, _, _ => none
  | fuel + 1, k, seq =>
    let randVal := env.lrand48 k % 2 ^ 32
    let objId := ((((randVal <<< s_maxSeqBits : Nat) : Int) + seq) % 2 ^ 64).toNat
    let seq1 := seq + 1
    if objId < 1 || objId > s_maxId then GetNextCachedObjectId.loop env fuel (k + 1) seq1
    else some (objId, seq1)

/-- The member `CFileCacheSet::GetNextCachedObjectId` (FileCacheSet.cpp:924-960).
A round with a sequence number in `[1, 2 ^ 62)` yields a valid id, and every
round adds one to the sequence number, so a sequence number below `2 ^ 62`
needs at most `2 - m_sequenceNumber` rounds. -/
def GetNextCachedObjectId (env : Env) (s : CFileCacheSet) : Option (CFileCacheSet × Nat) :=
  match GetNextCachedObjectId.loop env ((1 - s.m_sequenceNumber).toNat + 1) 0
      s.m_sequenceNumber with
  | some r => some ({ s with m_sequenceNumber := r.2 }, r.1)
  | none => none

/-- The second overload of `CFileCacheSet::InsertCacheObject`
(FileCacheSet.cpp:358-397), which takes the id of the new object.  A new
object that fails to initialise is deleted, and its destructor hands its
path to `::unlink` or `CleanupDir`. -/
def InsertCacheObject.withId (env : Env) (s : CFileCacheSet) (typeName filename : List Char)
    (objectId : Nat) (size cost lifetime : Int) (written isNew : Bool) : CFileCacheSet × Nat :=
  match s.GetFileCacheForType typeName with
  | some c =>
    let newObj := CCacheObject.new env objectId filename size cost lifetime written c.m_dirType
    if newObj.Initialize env s.m_baseDirName c.m_cacheType isNew then
      ({ CFileCache.InsertIn s typeName newObj with
          m_idMap := AMap.insert idLt s.m_idMap objectId typeName },
        objectId)
    else
      ({ s with
          fsRemoved := s.fsRemoved ++
            (if newObj.destructorRemoves env s.m_baseDirName c.m_cacheType
              then [(typeName, objectId)] else []) },
        0)
  | none => (s, 0)

/-- The first overload of `CFileCacheSet::InsertCacheObject`
(FileCacheSet.cpp:291-351).  `none`: `GetNextCachedObjectId` gave no id. -/
def InsertCacheObject (env : Env) (s : CFileCacheSet) (typeName filename : List Char)
    (size cost lifetime : Int) : Option (CFileCacheSet × Nat) :=
  match s.GetFileCacheForType typeName with
  | some c =>
    let useDefaults := size == 0 || cost == 0 || lifetime == 0
    let params := c.Describe.1
    let size := if useDefaults && size == 0 then params.size else size
    let cost := if useDefaults && cost == 0 then params.cost else cost
    let lifetime := if useDefaults && lifetime == 0 then params.lifetime else lifetime
    let fsSize := GetFilesystemFileSize size
    let s1 :=
      if !CFileCache.CheckForSize s typeName fsSize then CFileCache.Cleanup env s typeName fsSize
      else s
    if CFileCache.CheckForSize s1 typeName fsSize then
      match s1.GetNextCachedObjectId env with
      | some r =>
        some (InsertCacheObject.withId env r.1 typeName filename r.2 size cost lifetime false true)
      | none => none
    else some (s1, 0)
  | none => some (s, 0)

/-- The member `CFileCacheSet::Resize` (FileCacheSet.cpp:403-425); `none` as
in `CFileCache::Resize`. -/
def Resize (env : Env) (s : CFileCacheSet) (objId : Nat) (newSize : Int) :
    Option (CFileCacheSet × Int) :=
  let retVal := s.CachedObjectSize objId
  let typeName := s.GetTypeForObjectId objId
  if !typeName.isEmpty then
    match s.GetFileCacheForType typeName with
    | some _ => CFileCache.Resize env s typeName objId newSize
    | none => some (s, retVal)
  else some (s, retVal)

end CFileCacheSet

/-! ## The parameter checks of the service (CategoryHandler.cpp) -/

/-- The parameter checks of `CategoryHandler::DefineType`
(CategoryHandler.cpp:111-136): whether `msgText` is still empty after them,
so that the request goes on to `CFileCacheSet::DefineType`.  `isPublic`
tells whether the message came over the public bus. -/
def CategoryHandler.DefineType.paramsOk (typeName : List Char) (p : CCacheParamValues)
    (dirType isPublic : Bool) : Bool :=
  if typeName.length > 64 then false
  else if typeName.head? = some '.' then false
  else if p.size < 0 then false
  else if p.cost < 0 || p.cost > 100 then false
  else if p.lifetime < 0 then false
  else if p.loWatermark ≤ 0 then false
  else if p.hiWatermark ≤ p.loWatermark then false
  else if dirType && isPublic then false
  else true

/-- The parameter checks of `CategoryHandler::ChangeType`
(CategoryHandler.cpp:223-239): whether `msgText` is still empty after them. -/
def CategoryHandler.ChangeType.paramsOk (p : CCacheParamValues) : Bool :=
  if p.size < 0 then false
  else if p.cost < 0 || p.cost > 100 then false
  else if p.lifetime < 0 then false
  else if p.loWatermark < 0 then false
  else if p.hiWatermark ≠ 0 && p.hiWatermark ≤ p.loWatermark then false
  else true

/-! ## Notions used in the statements about the engine -/

/-- The sum of `GetFilesystemFileSize(o.size)` over the objects of a map. -/
def sizeSum (m : List (Nat × CCacheObject)) : Int :=
  (m.map (fun p => GetFilesystemFileSize p.2.m_size)).sum

/-- The size accounting of one cache: the keys of the object map are pairwise
distinct (it is a `std::map`) and `m_cacheSize` is the sum of the filesystem
sizes of the objects in the map. -/
def CacheAccounted (c : CFileCache) : Prop :=
  (AMap.keys c.m_cachedObjects).Nodup ∧ c.m_cacheSize = sizeSum c.m_cachedObjects

/-- The size accounting holds in every cache of the set. -/
def SetAccounted (s : CFileCacheSet) : Prop :=
  ∀ p ∈ s.m_cacheSet, CacheAccounted p.2

/-- A cache without objects, as the constructor and `Configure` leave it. -/
def CFileCache.isEmptyType (c : CFileCache) : Prop :=
  c.m_cachedObjects = [] ∧ c.m_cacheList = [] ∧ c.m_cacheSize = 0 ∧ c.m_numObjects = 0

/-- The states a cache set runs through when only the expiry machinery acts:
`RemoveObjectFromIdMap`, `CFileCache::Expire` on some cache, and removals from
an LRU list.  Every cleanup operation of the engine is a sequence of these. -/
inductive Cleans (env : Env) : CFileCacheSet → CFileCacheSet → Prop where
  | done (s : CFileCacheSet) : Cleans env s s
  | unmap (s s1 : CFileCacheSet) (objId : Nat) :
      Cleans env (s.RemoveObjectFromIdMap objId) s1 → Cleans env s s1
  | expire (s s1 : CFileCacheSet) (typeName : List Char) (objId : Nat) :
      Cleans env (CFileCache.ExpireIn env s typeName objId).1 s1 → Cleans env s s1
  | relist (s s1 : CFileCacheSet) (typeName : List Char) (c : CFileCache) (l : List Nat) :
      s.GetFileCacheForType typeName = some c →
      Cleans env (s.setCache typeName { c with m_cacheList := l }) s1 → Cleans env s s1

/-- One call of a member function of `CFileCache` on the cache `typeName` of the
set, for the operations named in the size accounting claim.  `Insert` takes an
object whose id is not a key of the object map of that cache. -/
inductive TypeStep : CFileCacheSet → CFileCacheSet → Prop where
  | insert (s : CFileCacheSet) (typeName : List Char) (c : CFileCache) (newObj : CCacheObject) :
      s.GetFileCacheForType typeName = some c →
      c.GetCacheObjectForId newObj.m_id = none →
      TypeStep s (CFileCache.InsertIn s typeName newObj)
  | resize (env : Env) (s : CFileCacheSet) (typeName : List Char) (objId : Nat) (newSize : Int)
      (s1 : CFileCacheSet) (finalSize : Int) :
      CFileCache.Resize env s typeName objId newSize = some (s1, finalSize) →
      TypeStep s s1
  | subscribe (env : Env) (s : CFileCacheSet) (typeName msgText : List Char) (objId : Nat) :
      TypeStep s (CFileCache.SubscribeIn env s typeName msgText objId).1
  | unsubscribe (env : Env) (s : CFileCacheSet) (typeName : List Char) (objId : Nat) :
      TypeStep s (CFileCache.UnSubscribe env s typeName objId)
  | touch (env : Env) (s : CFileCacheSet) (typeName : List Char) (objId : Nat) :
      TypeStep s (CFileCache.TouchIn env s typeName objId).1
  | expire (env : Env) (s : CFileCacheSet) (typeName : List Char) (objId : Nat) :
      TypeStep s (CFileCache.ExpireIn env s typeName objId).1
  | cleanupOrphanedObjects (env : Env) (s : CFileCacheSet) (typeName : List Char) :
      TypeStep s (CFileCache.CleanupOrphanedObjects env s typeName)
  | cleanupDirType (env : Env) (s : CFileCacheSet) (typeName : List Char) :
      TypeStep s (CFileCache.CleanupDirType env s typeName)

/-- The states reachable from a set whose types are all empty through the
operations of `TypeStep`, with any outcomes of the system calls. -/
inductive TypeReachable : CFileCacheSet → Prop where
  | init (s : CFileCacheSet) : (∀ p ∈ s.m_cacheSet, p.2.isEmptyType) → TypeReachable s
  | step (s s1 : CFileCacheSet) : TypeReachable s → TypeStep s s1 → TypeReachable s1

/-- The object `objId` of the type `typeName` is in the object map of its type
and has a subscription. -/
def Pinned (s : CFileCacheSet) (typeName : List Char) (objId : Nat) : Prop :=
  ∃ c o, s.GetFileCacheForType typeName = some c ∧ c.GetCacheObjectForId objId = some o ∧
    o.m_subscriptionCount > 0

/-- From `s` to `s1` the pinned object `objId` of the type `typeName` stays in
the object map of its type with its subscriptions, and its backing file is not
handed to `::unlink` or `CleanupDir`. -/
def KeepsPinned (s s1 : CFileCacheSet) (typeName : List Char) (objId : Nat) : Prop :=
  Pinned s1 typeName objId ∧
    ∃ l, s1.fsRemoved = s.fsRemoved ++ l ∧ (typeName, objId) ∉ l

/-- Every object found in a cache of `s1` is found, under the same type and
id and with the same declared size, in `s`. -/
def SizesFrom (s s1 : CFileCacheSet) : Prop :=
  ∀ (typeName : List Char) (c1 : CFileCache) (objId : Nat) (o1 : CCacheObject),
    s1.GetFileCacheForType typeName = some c1 → c1.GetCacheObjectForId objId = some o1 →
    ∃ c o, s.GetFileCacheForType typeName = some c ∧ c.GetCacheObjectForId objId = some o ∧
      o1.m_size = o.m_size


/-- What no step of the expiry machinery touches: the base directory, the
sequence number, the total cache space and the names of the types. -/
def SameFrame (s s1 : CFileCacheSet) : Prop :=
  s1.m_baseDirName = s.m_baseDirName ∧ s1.m_sequenceNumber = s.m_sequenceNumber ∧
    s1.m_totalCacheSpace = s.m_totalCacheSpace ∧
    AMap.keys s1.m_cacheSet = AMap.keys s.m_cacheSet

/-- One step of a run of inserts and touches on a type: `CFileCache::Insert` of
an object or `CFileCache::Touch` of an id. -/
inductive LruOp where
  | insert (newObj : CCacheObject)
  | touch (objId : Nat)

/-- The id an insert or touch is about. -/
def LruOp.objId : LruOp → Nat
  | LruOp.insert newObj => newObj.m_id
  | LruOp.touch objId => objId

/-- The cache after one insert or touch. -/
def CFileCache.applyLruOp (env : Env) (c : CFileCache) : LruOp → CFileCache
  | LruOp.insert newObj => (c.Insert newObj).1
  | LruOp.touch objId => (c.Touch env objId).1

/-- The cache after a run of inserts and touches, in the order of the list. -/
def CFileCache.runLruOps (env : Env) (c : CFileCache) (ops : List LruOp) : CFileCache :=
  ops.foldl (CFileCache.applyLruOp env) c

/-- A run of inserts and touches of distinct live ids: every insert brings an
id that is not in the object map, every touch names an id of the object
map. -/
def LruOpsValid (env : Env) : CFileCache → List LruOp → Prop
  | _, [] => True
  | c, op :: rest =>
    (match op with
      | LruOp.insert newObj => c.GetCacheObjectForId newObj.m_id = none
      | LruOp.touch objId => c.GetCacheObjectForId objId ≠ none) ∧
    LruOpsValid env (c.applyLruOp env op) rest

/-- The position, in a run given by its ids, of the most recent step that is
about the id `x`; `none` when no step is. -/
def lastUse : List Nat → Nat → Option Nat
  | [], _ => none
  | y :: ids, x =>
    match lastUse ids x with
    | some t => some (t + 1)
    | none => if y = x then some 0 else none

/-- In the run `ids` the most recent step about `a` is later than the most
recent step about `b`. -/
def UsedAfter (ids : List Nat) (a b : Nat) : Prop :=
  ∃ ta tb, lastUse ids a = some ta ∧ lastUse ids b = some tb ∧ tb < ta

/-- The LRU list of the cache `c` after a run with the ids `ids`: it lists
every id of the run once, these are the ids of the object map, and an id
stands in front of every id whose most recent step is earlier. -/
def LruInv (ids : List Nat) (c : CFileCache) : Prop :=
  c.m_cacheList.Nodup ∧ (∀ y, y ∈ c.m_cacheList ↔ y ∈ ids) ∧
    (∀ y, y ∈ c.m_cacheList ↔ c.GetCacheObjectForId y ≠ none) ∧
    c.m_cacheList.Pairwise (UsedAfter ids)

/-- The sum of the low watermarks of the types of the set other than
`typeName`. -/
def SumOfOtherLoWatermarks (s : CFileCacheSet) (typeName : List Char) : Int :=
  ((s.m_cacheSet.filter (fun p => decide (p.1 ≠ typeName))).map (fun p => p.2.m_loWatermark)).sum

/-! ## Sample states for concrete runs -/

/-- An environment in which every system call succeeds, the clock reads 1000
and a backing file holds 4 bytes (the write of CacheObjectTest.h:340-343). -/
def sampleEnv : Env :=
  { charMapping := sampleCharMapping
    now := 1000
    mkdirOk := fun _ => true
    mkdirExists := fun _ => false
    fopenOk := fun _ => true
    chmodOk := fun _ _ => true
    setxattrOk := fun _ _ _ => true
    statSize := fun _ => some 4
    syncOk := fun _ => true
    unlinkOk := fun _ => true
    cleanupDirOk := fun _ => true
    cachePtr := fun name => name.length
    ofstreamOk := fun _ => true
    renameOk := fun _ _ => true
    configFile := fun _ => none
    lrand48 := fun _ => 0 }

/-- The type `type` of the unit tests, configured with the parameters
`(10000, 20000, ..)` of FileCacheSetTest.h:89-91 (the watermarks are stored as
filesystem sizes), without objects. -/
def sampleType : CFileCache :=
  { CFileCache.new "type".toList with m_loWatermark := 16384, m_hiWatermark := 24576 }

/-- A cache set that holds the empty type `type`; the total space is that of
TestObjects.h:33. -/
def sampleSet : CFileCacheSet :=
  { m_cacheSet := [("type".toList, sampleType)]
    m_idMap := []
    m_totalCacheSpace := 8388608
    m_baseDirName := "/tmp/test".toList
    m_sequenceNumber := 1
    fsRemoved := [] }

/-- A new object of 123 bytes with the id 1. -/
def sampleObject : CCacheObject :=
  CCacheObject.new sampleEnv 1 "testfile.ext".toList 123 0 0 false false

/-- The state after the second overload of `InsertCacheObject`
(FileCacheSet.cpp:376-380) has put `sampleObject` into the type `type`. -/
def sampleInserted : CFileCacheSet :=
  { CFileCache.InsertIn sampleSet "type".toList sampleObject with
    m_idMap := AMap.insert idLt sampleSet.m_idMap 1 "type".toList }

/-- The state after the writer has subscribed to the object 1. -/
def sampleWriting : CFileCacheSet :=
  (CFileCache.SubscribeIn sampleEnv sampleInserted "type".toList [] 1).1

/-- The state after the writer has written 4 bytes and unsubscribed. -/
def sampleWritten : CFileCacheSet :=
  CFileCache.UnSubscribe sampleEnv sampleWriting "type".toList 1

/-- The state after a reader has subscribed to the written object 1. -/
def sampleReading : CFileCacheSet :=
  (CFileCache.SubscribeIn sampleEnv sampleWritten "type".toList [] 1).1

/-- The state after `ExpireCacheObject(1)` while the reader is subscribed. -/
def sampleReadingExpired : CFileCacheSet :=
  (CFileCacheSet.ExpireCacheObject sampleEnv sampleReading 1).1

/-- The sample environment with a backing file of 200 bytes, more than the
123 bytes declared for the object 1. -/
def sampleEnvLarge : Env :=
  { sampleEnv with statSize := fun _ => some 200 }

/-- A new object of 123 bytes with the id `objId`. -/
def sampleObjectWithId (objId : Nat) : CCacheObject :=
  CCacheObject.new sampleEnv objId "testfile.ext".toList 123 0 0 false false

/-- The run of the unit test `testUpdateObject` (FileCacheTest.h:361-370) up
to its first touch: three inserts, then a touch of the object inserted
first. -/
def sampleLruOps : List LruOp :=
  [LruOp.insert (sampleObjectWithId 1), LruOp.insert (sampleObjectWithId 2),
    LruOp.insert (sampleObjectWithId 3), LruOp.touch 1]

/-- A cache set without types, with the total space and the base directory of
the unit tests. -/
def sampleEmptySet : CFileCacheSet :=
  { sampleSet with m_cacheSet := [] }

/-- The parameters `(10000, 20000, 100, 1, 1)` of the unit tests
(FileCacheSetTest.h:108). -/
def sampleParams : CCacheParamValues :=
  { loWatermark := 10000, hiWatermark := 20000, size := 100, cost := 1, lifetime := 1 }

/-- The set after `DefineType` has created the directory type `dir` with the
parameters of the unit tests. -/
def sampleDirSet : CFileCacheSet :=
  (sampleEmptySet.DefineType sampleEnv "dir".toList (some sampleParams) true).1

/-- An alphabet of 64 pairwise distinct characters, none of them `/` or `.`,
that holds the blank: the blank takes the place of the `A` of the sample
alphabet. -/
def blankCharMapping : List Char :=
  " BCDEFGHIJKLMNOPQRSTUVWXYZabcdefghijklmnopqrstuvwxyz0123456789_-".toList

/-- The sample environment one second later. -/
def sampleEnvLater : Env := { sampleEnv with now := sampleEnv.now + 1 }

/-- The state after `InsertCacheObject("type", "big.ext", 12289, cost 100,
lifetime 1)` on the sample set: the object takes 4 pages, so the size of the
type, 20480, is above its low watermark. -/
def sampleCostly : CFileCacheSet :=
  ((CFileCacheSet.InsertCacheObject sampleEnv sampleSet "type".toList "big.ext".toList
    12289 100 1).map Prod.fst).getD sampleSet

/-- The cost `SelectCandidateToExpire` computes for an entry of the candidate
map. -/
def CFileCacheSet.candidateCost (env : Env) (s : CFileCacheSet) (p : List Char × Nat) : Int :=
  match s.GetFileCacheForType p.1 with
  | some c => c.GetCacheCost env p.2
  | none => -1

/-! ## The sequence number file -/

/-- Modelled from the spec: `sequenceBumpCnt = 1000`, the number of ids
between two writes of the sequence file and the reserve added at startup
(the constant `s_sequenceBumpCnt` of the absent CacheBase.h). -/
def s_sequenceBumpCnt : Int := 1000

/-- Modelled from the spec: `maxAllowSeqNum = 2^seqBits - 1` (the constant
`s_maxAllowSeqNum` of the absent CacheBase.h). -/
def s_maxAllowSeqNum : Int := 2 ^ s_maxSeqBits - 1

/-- The constant `s_seqNumFilename` (FileCacheSet.h:28). -/
def s_seqNumFilename : List Char := ".sequenceNumber".toList

namespace CFileCacheSet

/-- The member `CFileCacheSet::WriteSequenceNumber` (FileCacheSet.cpp:760-808):
the number in the sequence file afterwards, `file` being the number in it
before (`none`: there is no readable file). -/
def WriteSequenceNumber (env : Env) (s : CFileCacheSet) (file : Option Int) : Option Int :=
  if s.m_baseDirName.isEmpty then file
  else
    let seqNumFile := s.m_baseDirName ++ "/".toList ++ s_seqNumFilename
    let tmpFile := seqNumFile ++ ".tmp".toList
    if env.ofstreamOk tmpFile then
      if env.syncOk tmpFile then
        if env.renameOk tmpFile seqNumFile then some s.m_sequenceNumber else file
      else file
    else file

/-- The member `CFileCacheSet::ReadSequenceNumber` (FileCacheSet.cpp:732-758),
run at startup: the set with its sequence number, and the number in the
sequence file afterwards. -/
def ReadSequenceNumber (env : Env) (s : CFileCacheSet) (file : Option Int) :
    CFileCacheSet × Option Int :=
  let seq :=
    match file with
    | some n =>
      let m := n + s_sequenceBumpCnt
      if m < 1 || m > s_maxAllowSeqNum then 1 else m
    | none => 1
  let s1 := { s with m_sequenceNumber := seq }
  (s1, s1.WriteSequenceNumber env file)

/-- The loop of `CFileCacheSet::GetNextCachedObjectId`
(FileCacheSet.cpp:932-957) as in `GetNextCachedObjectId.loop`, together with
the number in the sequence file, which `WriteSequenceNumber` rewrites when
the new sequence number is a multiple of `s_sequenceBumpCnt`. -/
def GetNextCachedObjectId.fileLoop (env : Env) (s : CFileCacheSet) :
    Nat → Nat → Int → Option Int → Option (Nat × Int × Option Int)
  | 0, _, _, _ => none
  | fuel + 1, k, seq, file =>
    let randVal := env.lrand48 k % 2 ^ 32
    let objId := ((((randVal <<< s_maxSeqBits : Nat) : Int) + seq) % 2 ^ 64).toNat
    let seq1 := seq + 1
    let file1 :=
      if Int.tmod seq1 s_sequenceBumpCnt = 0 then
        ({ s with m_sequenceNumber := seq1 }).WriteSequenceNumber env file
      else file
    if objId < 1 || objId > s_maxId then
      GetNextCachedObjectId.fileLoop env s fuel (k + 1) seq1 file1
    else some (objId, seq1, file1)

/-- The member `CFileCacheSet::GetNextCachedObjectId` (FileCacheSet.cpp:924-960)
with the sequence file: the set, the id and the number in the file
afterwards.  The fuel is that of `GetNextCachedObjectId`. -/
def GetNextCachedObjectId.withFile (env : Env) (s : CFileCacheSet) (file : Option Int) :
    Option (CFileCacheSet × Nat × Option Int) :=
  match GetNextCachedObjectId.fileLoop env s ((1 - s.m_sequenceNumber).toNat + 1) 0
      s.m_sequenceNumber file with
  | some r => some ({ s with m_sequenceNumber := r.2.1 }, r.1, r.2.2)
  | none => none

/-- A session of the service: successive calls of `GetNextCachedObjectId`, one
for each environment of the list; the set, the ids in the order of the calls
and the number in the sequence file at the end. -/
def idSession : List Env → CFileCacheSet → Option Int →
    Option (CFileCacheSet × List Nat × Option Int)
  | [], s, file => some (s, [], file)
  | env :: rest, s, file =>
    match GetNextCachedObjectId.withFile env s file with
    | none => none
    | some r =>
      match idSession rest r.1 r.2.2 with
      | none => none
      | some r1 => some (r1.1, r.2.1 :: r1.2.1, r1.2.2)

/-- The id the first round of `GetNextCachedObjectId` computes from the
sequence number `seq`. -/
def firstRoundId (env : Env) (seq : Int) : Nat :=
  (((((env.lrand48 0 % 2 ^ 32) <<< s_maxSeqBits : Nat) : Int) + seq) % 2 ^ 64).toNat

/-- Whether the steps of `WriteSequenceNumber` (open, sync, rename) succeed
under the base directory `baseDirName`. -/
def seqWriteOk (env : Env) (baseDirName : List Char) : Bool :=
  !baseDirName.isEmpty &&
  env.ofstreamOk (baseDirName ++ "/".toList ++ s_seqNumFilename ++ ".tmp".toList) &&
  env.syncOk (baseDirName ++ "/".toList ++ s_seqNumFilename ++ ".tmp".toList) &&
  env.renameOk (baseDirName ++ "/".toList ++ s_seqNumFilename ++ ".tmp".toList)
    (baseDirName ++ "/".toList ++ s_seqNumFilename)

/-- The ids of a session in which every call takes one round, from the
sequence number `seq` on. -/
def sessionIds : List Env → Int → List Nat
  | [], _ => []
  | env :: rest, seq => firstRoundId env seq :: sessionIds rest (seq + 1)

end CFileCacheSet

/-- The names of the types of the set with their stored low watermarks. -/
def CFileCacheSet.loWatermarks (s : CFileCacheSet) : List (List Char × Int) :=
  s.m_cacheSet.map (fun p => (p.1, p.2.m_loWatermark))

/-- One configuration request on the cache set: `DefineType` or `ChangeType`
with explicit parameters, or `DeleteType`, with any outcomes of the system
calls. -/
inductive ConfigStep : CFileCacheSet → CFileCacheSet → Prop where
  | defineType (env : Env) (s : CFileCacheSet) (typeName : List Char) (p : CCacheParamValues)
      (dirType : Bool) : ConfigStep s (s.DefineType env typeName (some p) dirType).1
  | changeType (env : Env) (s : CFileCacheSet) (typeName : List Char) (p : CCacheParamValues) :
      ConfigStep s (s.ChangeType env typeName (some p)).1
  | deleteType (env : Env) (s : CFileCacheSet) (typeName : List Char) :
      ConfigStep s (s.DeleteType env typeName).1

/-- The states reachable from `s0` through configuration requests. -/
inductive ConfigReachable (s0 : CFileCacheSet) : CFileCacheSet → Prop where
  | init : ConfigReachable s0 s0
  | step (s s1 : CFileCacheSet) : ConfigReachable s0 s → ConfigStep s s1 → ConfigReachable s0 s1

/-- The budget invariant with what its proof carries along: the types have
distinct names, no stored low watermark is negative, the sum of the low
watermarks is at most `m_totalCacheSpace`. -/
def BudgetInv (s : CFileCacheSet) : Prop :=
  (AMap.keys s.m_cacheSet).Nodup ∧ (∀ p ∈ s.m_cacheSet, 0 ≤ p.2.m_loWatermark) ∧
    s.SumOfLoWatermarks ≤ s.m_totalCacheSpace

/-- The state of the run of C16 (the writer of the object 1 overran its
declared size and unsubscribed, `CleanupOrphans` deleted the object and left
its id in the LRU list) after two more objects of 123 bytes, 2 and 3, were
inserted: the LRU list is `[3, 2, 1]`, the size of the type 16384. -/
def sampleStaleTail : CFileCacheSet :=
  (CFileCacheSet.InsertCacheObject.withId sampleEnv
    (CFileCacheSet.InsertCacheObject.withId sampleEnv
      ((CFileCache.UnSubscribe sampleEnvLarge sampleWriting "type".toList 1).CleanupOrphans
        sampleEnv)
      "type".toList "second.ext".toList 2 123 0 0 false true).1
    "type".toList "third.ext".toList 3 123 0 0 false true).1

/-- The set after `DefineType("", (10000, 20000, 100, 1, 1))` on the sample set
without types: the type with the empty name. -/
def sampleNamelessSet : CFileCacheSet :=
  (sampleEmptySet.DefineType sampleEnv [] (some sampleParams) false).1

/-- The set after `InsertCacheObject("", "a.ext", 123, 1, 1)` on
`sampleNamelessSet`. -/
def sampleNamelessObject : CFileCacheSet :=
  ((sampleNamelessSet.InsertCacheObject sampleEnv [] "a.ext".toList 123 1 1).map
    Prod.fst).getD sampleNamelessSet

/-- The state `s1` in the course of `CleanupDirType` on the type `typeName`
of `s`, whose cache is `c`, after the objects `done` were removed: the base
directory is that of `s`, the id map agrees with that of `s` on the other ids,
and the cache of the type holds the objects of `c` other than `done`. -/
structure DirCleaned (s : CFileCacheSet) (typeName : List Char) (c : CFileCache)
    (done : List Nat) (s1 : CFileCacheSet) : Prop where
  base : s1.m_baseDirName = s.m_baseDirName
  idMap : ∀ id, id ∉ done → AMap.find s1.m_idMap id = AMap.find s.m_idMap id
  cache : ∃ c1, s1.GetFileCacheForType typeName = some c1 ∧
    c1.m_cachedObjects = c.m_cachedObjects.filter (fun p => decide (p.1 ∉ done)) ∧
    c1.m_numObjects = c.m_numObjects - done.length ∧ c1.m_cacheType = c.m_cacheType

/-- The parameters `(12345, 67890, 123, 4, 5)` of the directory type of the
unit test `testCleanupDirType` (FileCacheTest.h:441-443). -/
def sampleDirParams : CCacheParamValues :=
  { loWatermark := 12345, hiWatermark := 67890, size := 123, cost := 4, lifetime := 5 }

/-- A run like that of `testCleanupDirType` up to its first unsubscribe: the
directory type `dir` with two objects of 10000 bytes, 1 and 2, entered through
`InsertCacheObject`, both subscribed. -/
def sampleDirSubscribed : CFileCacheSet :=
  (CFileCache.SubscribeIn sampleEnv
    (CFileCache.SubscribeIn sampleEnv
      (CFileCacheSet.InsertCacheObject.withId sampleEnv
        (CFileCacheSet.InsertCacheObject.withId sampleEnv
          (sampleEmptySet.DefineType sampleEnv "dir".toList (some sampleDirParams) true).1
          "dir".toList "a".toList 1 10000 4 5 false true).1
        "dir".toList "b".toList 2 10000 4 5 false true).1
      "dir".toList [] 1).1
    "dir".toList [] 2).1

/-- The state after the subscriber of the object 1 has unsubscribed. -/
def sampleDirUnsubscribed : CFileCacheSet :=
  CFileCache.UnSubscribe sampleEnv sampleDirSubscribed "dir".toList 1

/-- The cache of the type `dir` in `sampleDirSubscribed`. -/
def sampleDirCacheSubscribed : CFileCache :=
  (sampleDirSubscribed.GetFileCacheForType "dir".toList).getD (CFileCache.new [])

/-- The cache of the type `dir` in `sampleDirUnsubscribed`. -/
def sampleDirCache : CFileCache :=
  (sampleDirUnsubscribed.GetFileCacheForType "dir".toList).getD (CFileCache.new [])

/-- The sample environment in which `CleanupDir` fails. -/
def sampleEnvNoCleanup : Env :=
  { sampleEnv with cleanupDirOk := fun _ => false }

namespace CFileCacheSet

/-- One round of the second loop of `CFileCacheSet::CleanupAllTypes`
(FileCacheSet.cpp:257-279), as in `CleanupAllTypes.loop`: `none` when the loop
is left (enough was cleaned, or `SelectCandidateToExpire` returned `NULL`),
else the state, the candidate map and `cleanedSize` after the round. -/
def CleanupAllTypes.round (env : Env) (neededSize : Int) (s : CFileCacheSet)
    (cleanupMap : List (List Char × Nat)) (cleanedSize : Int) :
    Option (CFileCacheSet × List (List Char × Nat) × Int) :=
  if cleanedSize < neededSize then
    match SelectCandidateToExpire env s cleanupMap none s_maxCost with
    | none => none
    | some fileCache =>
      let objId := (AMap.find cleanupMap fileCache).getD 0
      let size := GetFilesystemFileSize (s.CachedObjectSize objId)
      let cleanupMap := AMap.erase cleanupMap fileCache
      let r := s.ExpireCacheObject env objId
      let cleanedSize := if r.2 then cleanedSize + size else cleanedSize
      let cleanupMap :=
        if cleanedSize < neededSize then
          match r.1.GetFileCacheForType fileCache with
          | some c =>
            let candidate := c.GetCleanupCandidate
            if candidate ≠ 0 then AMap.insert (ptrLt env) cleanupMap fileCache candidate
            else cleanupMap
          | none => cleanupMap
        else cleanupMap
      some (r.1, cleanupMap, cleanedSize)
  else none

/-- The second loop of `CFileCacheSet::CleanupAllTypes` run for at most `fuel`
rounds and one more test of the loop condition: `none` when the loop has not
been left by then, else the state and `cleanedSize` at the exit. -/
def CleanupAllTypes.run (env : Env) (neededSize : Int) :
    Nat → CFileCacheSet → List (List Char × Nat) → Int → Option (CFileCacheSet × Int)
  | 0, _, _, _ => none
  | fuel + 1, s, cleanupMap, cleanedSize =>
    match CleanupAllTypes.round env neededSize s cleanupMap cleanedSize with
    | none => some (s, cleanedSize)
    | some x => CleanupAllTypes.run env neededSize fuel x.1 x.2.1 x.2.2

/-- The bound on the rounds still to come: the blocks of `2 * s_blockSize`
bytes still to clean, and the entries of `m_idMap`. -/
def CleanupAllTypes.roundsLeft (neededSize : Int) (s : CFileCacheSet) (cleanedSize : Int) : Nat :=
  ((neededSize - cleanedSize + (2 * s_blockSize - 1)) / (2 * s_blockSize)).toNat +
    s.m_idMap.length

end CFileCacheSet

/-! ## Lemmas on the string primitives -/

theorem rindex_eq_none {s : List Char} {c : Char} : rindex s c = none ↔ c ∉ s := by
  induction s with
  | nil => simp [rindex]
  | cons x xs ih =>
    simp only [rindex, List.mem_cons, not_or]
    cases h : rindex xs c with
    | some k =>
      have : ¬ (c ∉ xs) := fun hc => by rw [ih.mpr hc] at h; exact Option.noConfusion h
      simp [this]
    | none =>
      have hc := ih.mp h
      by_cases hx : x = c
      · simp [hx]
      · simp [hx, hc, Ne.symm hx]

theorem rindex_append (a b : List Char) (c : Char) :
    rindex (a ++ b) c =
      match rindex b c with
      | some k => some (a.length + k)
      | none => rindex a c := by
  induction a with
  | nil => cases h : rindex b c <;> simp [rindex, h]
  | cons x xs ih =>
    have hstep : rindex (x :: xs ++ b) c =
        match rindex (xs ++ b) c with
        | some k => some (k + 1)
        | none => if x = c then some 0 else none := rfl
    rw [hstep, ih]
    cases h : rindex b c with
    | some k => simp only [Option.some.injEq, List.length_cons]; omega
    | none => simp only [rindex]

theorem rindex_cons_self_of_not_mem {s : List Char} {c : Char} (h : c ∉ s) :
    rindex (c :: s) c = some 0 := by
  simp [rindex, rindex_eq_none.mpr h]

theorem find_last_of_eq_none {s set : List Char} :
    find_last_of s set = none ↔ ∀ c ∈ s, c ∉ set := by
  induction s with
  | nil => simp [find_last_of]
  | cons x xs ih =>
    simp only [find_last_of, List.mem_cons, forall_eq_or_imp]
    cases h : find_last_of xs set with
    | some k =>
      have : ¬ (∀ c ∈ xs, c ∉ set) := fun hc => by rw [ih.mpr hc] at h; exact Option.noConfusion h
      simp [this]
    | none =>
      have hc := ih.mp h
      by_cases hx : x ∈ set
      · simp [hx]
      · simpa [hx] using hc

theorem GetFileExtension_cons_of_some {x : Char} {xs : List Char} {k : Nat}
    (h : find_last_of xs ['.', '/'] = some k) :
    GetFileExtension (x :: xs) = GetFileExtension xs := by
  simp [GetFileExtension, find_last_of, h]

/-- `GetFileExtension` is the part from the last `.`, unless a `/` follows. -/
theorem GetFileExtension_eq (fileName : List Char) :
    GetFileExtension fileName = extUnlessSlash fileName := by
  induction fileName with
  | nil => simp [GetFileExtension, find_last_of, extUnlessSlash, extFromLastDot, rindex]
  | cons x xs ih =>
    cases h : find_last_of xs ['.', '/'] with
    | some k =>
      rw [GetFileExtension_cons_of_some h, ih]
      cases hr : rindex xs '.' with
      | some p => simp [extUnlessSlash, extFromLastDot, rindex, hr]
      | none =>
        have hdot : '.' ∉ xs := rindex_eq_none.mp hr
        have hslash : '/' ∈ xs := by
          by_contra hs
          have : find_last_of xs ['.', '/'] = none := by
            rw [find_last_of_eq_none]
            intro c hc hmem
            simp only [List.mem_cons, List.mem_singleton, List.not_mem_nil, or_false] at hmem
            rcases hmem with rfl | rfl
            · exact hdot hc
            · exact hs hc
          rw [this] at h; exact Option.noConfusion h
        by_cases hx : x = '.'
        · subst hx
          simp [extUnlessSlash, extFromLastDot, rindex, hr, hslash]
        · simp [extUnlessSlash, extFromLastDot, rindex, hr, hx]
    | none =>
      have hnone := find_last_of_eq_none.mp h
      have hdot : '.' ∉ xs := fun hc => hnone _ hc (by simp)
      have hslash : '/' ∉ xs := fun hc => hnone _ hc (by simp)
      have hr : rindex xs '.' = none := rindex_eq_none.mpr hdot
      by_cases hx : x = '.'
      · subst hx
        simp [GetFileExtension, find_last_of, h, extUnlessSlash, extFromLastDot, rindex, hr, hslash]
      · by_cases hx2 : x = '/'
        · subst hx2
          simp [GetFileExtension, find_last_of, h, extUnlessSlash, extFromLastDot, rindex, hr]
        · simp [GetFileExtension, find_last_of, h, extUnlessSlash, extFromLastDot, rindex, hr, hx, hx2]

/-- Shape of the extension of a file name without `/`: empty, or a `.`
followed by characters that are neither `.` nor `/`. -/
theorem extFromLastDot_shape (fileName : List Char) :
    extFromLastDot fileName = [] ∧ '.' ∉ fileName ∨
      ∃ rest, extFromLastDot fileName = '.' :: rest ∧ '.' ∉ rest ∧ '.' ∈ fileName ∧
        (∀ c ∈ rest, c ∈ fileName) := by
  induction fileName with
  | nil => left; simp [extFromLastDot, rindex]
  | cons x xs ih =>
    cases hr : rindex xs '.' with
    | some p =>
      have hne : ¬ ('.' ∉ xs) := fun hc => by
        rw [rindex_eq_none.mpr hc] at hr; exact Option.noConfusion hr
      rcases ih with ⟨_, h2⟩ | ⟨rest, h1, h2, h3, h4⟩
      · exact absurd h2 hne
      · right
        refine ⟨rest, ?_, h2, List.mem_cons_of_mem _ h3, fun c hc => List.mem_cons_of_mem _ (h4 c hc)⟩
        simpa [extFromLastDot, rindex, hr] using h1
    | none =>
      have hdot : '.' ∉ xs := rindex_eq_none.mp hr
      by_cases hx : x = '.'
      · subst hx
        right
        exact ⟨xs, by simp [extFromLastDot, rindex, hr], hdot, by simp, fun c hc => List.mem_cons_of_mem _ hc⟩
      · left
        refine ⟨by simp [extFromLastDot, rindex, hr, hx], ?_⟩
        simp [hdot, Ne.symm hx]

theorem rindex_lt {s : List Char} {c : Char} {p : Nat} (h : rindex s c = some p) :
    p < s.length := by
  induction s generalizing p with
  | nil => simp [rindex] at h
  | cons x xs ih =>
    simp only [rindex] at h
    cases hr : rindex xs c with
    | some k =>
      rw [hr] at h
      simp only [Option.some.injEq] at h
      have := ih hr
      simp only [List.length_cons]; omega
    | none =>
      rw [hr] at h
      by_cases hx : x = c
      · simp only [hx, if_true, Option.some.injEq] at h
        simp only [List.length_cons]; omega
      · simp [hx] at h

theorem endPosition_le (filePath : List Char) : endPosition filePath ≤ filePath.length := by
  unfold endPosition
  cases h : rindex filePath '.' with
  | none => exact Nat.le_refl _
  | some p => exact Nat.le_of_lt (rindex_lt h)

/-! ## Encoding lemmas -/

theorem and_shiftLeft_shiftRight (a m k : Nat) :
    (a &&& (m <<< k)) >>> k = (a >>> k) &&& m := by
  apply Nat.eq_of_testBit_eq
  intro j
  simp [Nat.testBit_shiftRight, Nat.testBit_and, Nat.testBit_shiftLeft]

theorem idSymbol_index_lt (objectId i : Nat) : (objectId >>> (6 * i)) &&& 63 < 64 := by
  have := Nat.and_pow_two_sub_one_eq_mod (objectId >>> (6 * i)) 6
  norm_num at this
  rw [this]
  exact Nat.mod_lt _ (by norm_num)

theorem GetCharNFromObjectId_eq (cm : List Char) (hlen : cm.length = 64)
    (objectId n : Nat) (hn : n ≤ 8) :
    GetCharNFromObjectId cm objectId n = idSymbol cm objectId n := by
  have hmask : (s_mask <<< (6 * n)) % 2 ^ 64 = 63 <<< (6 * n) := by
    apply Nat.mod_eq_of_lt
    simp only [s_mask, Nat.shiftLeft_eq]
    calc 63 * 2 ^ (6 * n) ≤ 63 * 2 ^ 48 :=
          Nat.mul_le_mul_left _ (Nat.pow_le_pow_right (by norm_num) (by omega))
      _ < 2 ^ 64 := by norm_num
  have h6 : n * s_maskSize = 6 * n := by simp [s_maskSize, Nat.mul_comm]
  have hlt := idSymbol_index_lt objectId n
  simp only [GetCharNFromObjectId, h6, hmask, and_shiftLeft_shiftRight, hlen, idSymbol]
  rw [if_neg (by omega)]

theorem idSymbol_mem (cm : List Char) (hlen : cm.length = 64) (objectId i : Nat) :
    idSymbol cm objectId i ∈ cm := by
  have hlt : (objectId >>> (6 * i)) &&& 63 < cm.length := by
    rw [hlen]; exact idSymbol_index_lt objectId i
  simp only [idSymbol]
  rw [List.getD_eq_getElem _ _ hlt]
  exact List.getElem_mem hlt

theorem appendChars_eq (cm : List Char) (hlen : cm.length = 64) (hblank : ' ' ∉ cm)
    (objectId : Nat) (is : List Nat) (his : ∀ i ∈ is, i ≤ 8) (pathname : List Char) :
    BuildPathname.appendChars cm objectId is pathname =
      pathname ++ is.map (idSymbol cm objectId) := by
  induction is generalizing pathname with
  | nil => simp [BuildPathname.appendChars]
  | cons i is ih =>
    have hi : i ≤ 8 := his i (by simp)
    have hne : idSymbol cm objectId i ≠ ' ' := fun h =>
      hblank (h ▸ idSymbol_mem cm hlen objectId i)
    simp only [BuildPathname.appendChars, GetCharNFromObjectId_eq cm hlen objectId i hi]
    rw [if_pos hne, ih (fun j hj => his j (by simp [hj]))]
    simp

/-- The path `BuildPathname` builds for a nonzero id, without creating the
directory. -/
theorem BuildPathname_eq (cm : List Char) (hlen : cm.length = 64) (hblank : ' ' ∉ cm)
    (mkdirOk : List Char → Bool) (objectId : Nat) (hid : objectId ≠ 0)
    (basePath typeName fileName : List Char) :
    BuildPathname cm mkdirOk objectId basePath typeName fileName false =
      basePath ++ ['/'] ++ typeName ++ ['/'] ++ idDirSymbols cm objectId ++ ['/'] ++
        idStemSymbols cm objectId ++ GetFileExtension fileName := by
  have h1 : ∀ i ∈ (List.range s_dirChars).map (fun k => s_numChars - 1 - k), i ≤ 8 := by
    decide
  have h2 : ∀ i ∈ (List.range (s_numChars - s_dirChars)).reverse, i ≤ 8 := by decide
  have hext : fileName = [] → GetFileExtension fileName = [] := by
    intro h; subst h; rfl
  simp only [BuildPathname, if_neg hid, appendChars_eq cm hlen hblank objectId _ h1,
    appendChars_eq cm hlen hblank objectId _ h2]
  by_cases hf : fileName = []
  · simp [hf, hext, idDirSymbols, idStemSymbols, s_dirChars, s_numChars, List.range, List.range.loop,
      GetFileExtension, find_last_of]
  · simp [hf, idDirSymbols, idStemSymbols, s_dirChars, s_numChars, List.range, List.range.loop]

theorem buildPathname_shape (cm : List Char) (hlen : cm.length = 64) (hblank : ' ' ∉ cm)
    (mkdirOk : List Char → Bool) (objectId : Nat) (basePath typeName fileName : List Char) :
    objectId ≠ 0 →
      BuildPathname cm mkdirOk objectId basePath typeName fileName false =
        basePath ++ ['/'] ++ typeName ++ ['/'] ++ idDirSymbols cm objectId ++ ['/'] ++
          idStemSymbols cm objectId ++ GetFileExtension fileName ∧
      BuildPathname cm mkdirOk objectId basePath typeName fileName false ≠ [] := by
  intro hid
  rw [BuildPathname_eq cm hlen hblank mkdirOk objectId hid]
  exact ⟨rfl, by simp⟩

/-! ## Decoding lemmas -/

theorem charAt_of_lt (s : List Char) (k : Nat) (h : k < s.length) :
    charAt s (k : Int) = some (s.getD k NUL) := by
  simp [charAt, h]

theorem loop_eq_decodeChars (cm filePath : List Char) (e : Nat) (he : e ≤ filePath.length) :
    ∀ (n : Nat), n ≤ e → ∀ (i : Int) (found : Bool) (acc : Nat),
      GetObjectIdFromPath.loop cm filePath (e : Int) n i found acc =
        some (decodeChars cm ((filePath.drop (e - n)).take n) i found acc) := by
  intro n
  induction n with
  | zero => intro _ i found acc; simp [GetObjectIdFromPath.loop, decodeChars]
  | succ n ih =>
    intro hn i found acc
    have hk : e - (n + 1) < filePath.length := by omega
    have hpos : (e : Int) - ((n + 1 : Nat) : Int) = ((e - (n + 1) : Nat) : Int) := by omega
    have hdrop : (filePath.drop (e - (n + 1))).take (n + 1) =
        filePath.getD (e - (n + 1)) NUL :: (filePath.drop (e - n)).take n := by
      rw [List.drop_eq_getElem_cons hk, List.take_succ_cons, List.getD_eq_getElem _ _ hk]
      have : e - (n + 1) + 1 = e - n := by omega
      rw [this]
    have ih' := ih (by omega)
    simp only [GetObjectIdFromPath.loop, hpos, charAt_of_lt _ _ hk, hdrop, decodeChars]
    split_ifs <;> simp [ih']

theorem loop_succ_of_neg (cm filePath : List Char) (endPos : Int) (n : Nat)
    (hneg : endPos - ((n + 1 : Nat) : Int) < 0) (i : Int) (found : Bool) (acc : Nat) :
    GetObjectIdFromPath.loop cm filePath endPos (n + 1) i found acc = none := by
  simp only [GetObjectIdFromPath.loop, charAt, if_pos hneg]

/-- Inside the string, `GetObjectIdFromPath` decodes the ten characters in
front of the end position. -/
theorem GetObjectIdFromPath_eq_decodeChars (cm pre mid post : List Char)
    (hmid : mid.length = 10)
    (hend : rindex (pre ++ mid ++ post) '.' = some (pre.length + 10) ∨
      (rindex (pre ++ mid ++ post) '.' = none ∧ post = [])) :
    GetObjectIdFromPath cm (pre ++ mid ++ post) = some (decodeChars cm mid 0 false 0) := by
  have key : ∀ e : Nat, e = pre.length + 10 →
      GetObjectIdFromPath.loop cm (pre ++ mid ++ post) (e : Int)
        (((e : Int) - ((e : Int) - (s_numChars : Int) - 1)).toNat) 0 false 0 =
      some (decodeChars cm mid 0 false 0) := by
    intro e he
    have h10 : (((e : Int) - ((e : Int) - (s_numChars : Int) - 1)).toNat) = 10 := by
      simp [s_numChars]; omega
    rw [h10, loop_eq_decodeChars cm _ e (by simp [hmid]; omega) 10 (by omega)]
    have : e - 10 = pre.length := by omega
    rw [this, List.append_assoc, List.drop_left, ← hmid, List.take_left]
  rcases hend with h | ⟨h, hp⟩
  · simp only [GetObjectIdFromPath, h]
    exact key _ rfl
  · subst hp
    simp only [GetObjectIdFromPath, h]
    have hl : (pre ++ mid ++ []).length = pre.length + 10 := by simp [hmid]
    rw [hl]
    exact key _ rfl

theorem GetValueForChar_idSymbol (cm : List Char) (hcm : ValidCharMapping cm)
    (objectId i : Nat) :
    GetValueForChar cm (idSymbol cm objectId i) = (((objectId >>> (6 * i)) &&& 63 : Nat) : Int) := by
  have hlt : (objectId >>> (6 * i)) &&& 63 < cm.length := by
    rw [hcm.length_eq]; exact idSymbol_index_lt objectId i
  have hidx : cm.indexOf (idSymbol cm objectId i) = (objectId >>> (6 * i)) &&& 63 := by
    simp only [idSymbol]
    rw [List.getD_eq_getElem _ _ hlt]
    exact List.indexOf_getElem hcm.nodup _ hlt
  simp only [GetValueForChar, hidx, if_pos hlt]

theorem idSymbol_ne_slash (cm : List Char) (hcm : ValidCharMapping cm) (objectId i : Nat) :
    idSymbol cm objectId i ≠ '/' := fun h =>
  hcm.no_slash (h ▸ idSymbol_mem cm hcm.length_eq objectId i)

theorem idSymbol_ne_dot (cm : List Char) (hcm : ValidCharMapping cm) (objectId i : Nat) :
    idSymbol cm objectId i ≠ '.' := fun h =>
  hcm.no_dot (h ▸ idSymbol_mem cm hcm.length_eq objectId i)

theorem shl64_small (v k : Nat) (hv : v < 64) (hk : k ≤ 8) :
    shl64 v (((s_numChars : Int) - ((8 - k : Nat) : Int) - 1) * (s_maskSize : Int)) = v * 2 ^ (6 * k) := by
  have hc : (((s_numChars : Int) - ((8 - k : Nat) : Int) - 1) * (s_maskSize : Int)) = ((6 * k : Nat) : Int) := by
    simp [s_numChars, s_maskSize]; omega
  have hmod : ((6 * k : Nat) : Int) % 64 = ((6 * k : Nat) : Int) := by omega
  rw [hc]
  simp only [shl64, hmod, Int.toNat_ofNat, Nat.shiftLeft_eq]
  apply Nat.mod_eq_of_lt
  calc v * 2 ^ (6 * k) < 64 * 2 ^ (6 * k) :=
        Nat.mul_lt_mul_of_pos_right hv (by positivity)
    _ ≤ 64 * 2 ^ 48 := Nat.mul_le_mul_left _ (Nat.pow_le_pow_right (by norm_num) (by omega))
    _ < 2 ^ 64 := by norm_num

theorem idSymbol_index_eq (objectId i : Nat) :
    (objectId >>> (6 * i)) &&& 63 = objectId / 2 ^ (6 * i) % 64 := by
  have := Nat.and_pow_two_sub_one_eq_mod (objectId >>> (6 * i)) 6
  norm_num at this
  rw [this, Nat.shiftRight_eq_div_pow]

theorem decodeChars_step_symbol (cm : List Char) (hcm : ValidCharMapping cm)
    (objectId k : Nat) (cs : List Char) (i : Int) (found : Bool) (acc : Nat) :
    decodeChars cm (idSymbol cm objectId k :: cs) i found acc =
      decodeChars cm cs (i + 1) found
        ((acc + shl64 (objectId / 2 ^ (6 * k) % 64)
          (((s_numChars : Int) - i - 1) * (s_maskSize : Int))) % 2 ^ 64) := by
  have hv := GetValueForChar_idSymbol cm hcm objectId k
  rw [idSymbol_index_eq] at hv
  simp only [decodeChars, idSymbol_ne_slash cm hcm objectId k, ne_eq, not_false_eq_true,
    if_true, hv]
  rw [if_neg (by omega)]
  simp only [Int.toNat_ofNat]

theorem shl64_lit (v : Nat) (hv : v < 64) (s : Nat) (hs : s ≤ 48) :
    shl64 v (s : Int) = v * 2 ^ s := by
  have hmod : (s : Int) % 64 = (s : Int) := by omega
  simp only [shl64, hmod, Int.toNat_ofNat, Nat.shiftLeft_eq]
  apply Nat.mod_eq_of_lt
  calc v * 2 ^ s < 64 * 2 ^ s := Nat.mul_lt_mul_of_pos_right hv (by positivity)
    _ ≤ 64 * 2 ^ 48 := Nat.mul_le_mul_left _ (Nat.pow_le_pow_right (by norm_num) hs)
    _ < 2 ^ 64 := by norm_num

/-- Decoding the ten characters `c8 / c7 .. c0` of an id below `2 ^ 54` gives
the id back. -/
theorem decodeChars_symbols (cm : List Char) (hcm : ValidCharMapping cm)
    (objectId : Nat) (hid : objectId < 2 ^ 54) :
    decodeChars cm (idDirSymbols cm objectId ++ ['/'] ++ idStemSymbols cm objectId) 0 false 0 =
      objectId := by
  have hm : ∀ k, objectId / 2 ^ (6 * k) % 64 < 64 := fun k => Nat.mod_lt _ (by norm_num)
  have e8 : ((s_numChars : Int) - 0 - 1) * (s_maskSize : Int) = ((48 : Nat) : Int) := by decide
  have e7 : ((s_numChars : Int) - (0 + 1) - 1) * (s_maskSize : Int) = ((42 : Nat) : Int) := by decide
  have e6 : ((s_numChars : Int) - (0 + 1 + 1) - 1) * (s_maskSize : Int) = ((36 : Nat) : Int) := by decide
  have e5 : ((s_numChars : Int) - (0 + 1 + 1 + 1) - 1) * (s_maskSize : Int) = ((30 : Nat) : Int) := by decide
  have e4 : ((s_numChars : Int) - (0 + 1 + 1 + 1 + 1) - 1) * (s_maskSize : Int) = ((24 : Nat) : Int) := by decide
  have e3 : ((s_numChars : Int) - (0 + 1 + 1 + 1 + 1 + 1) - 1) * (s_maskSize : Int) = ((18 : Nat) : Int) := by decide
  have e2 : ((s_numChars : Int) - (0 + 1 + 1 + 1 + 1 + 1 + 1) - 1) * (s_maskSize : Int) = ((12 : Nat) : Int) := by decide
  have e1 : ((s_numChars : Int) - (0 + 1 + 1 + 1 + 1 + 1 + 1 + 1) - 1) * (s_maskSize : Int) = ((6 : Nat) : Int) := by decide
  have e0 : ((s_numChars : Int) - (0 + 1 + 1 + 1 + 1 + 1 + 1 + 1 + 1) - 1) * (s_maskSize : Int) = ((0 : Nat) : Int) := by decide
  have hdir : (0 : Int) + 1 = (s_dirChars : Int) := by decide
  have hfin : (0 : Int) + 1 + 1 + 1 + 1 + 1 + 1 + 1 + 1 + 1 = (s_numChars : Int) := by decide
  simp only [idDirSymbols, idStemSymbols, List.cons_append, List.nil_append, List.singleton_append]
  rw [decodeChars_step_symbol cm hcm, e8, shl64_lit _ (hm 8) 48 (by norm_num)]
  rw [decodeChars]
  rw [if_neg (by simp), if_pos hdir]
  rw [decodeChars_step_symbol cm hcm, e7, shl64_lit _ (hm 7) 42 (by norm_num)]
  rw [decodeChars_step_symbol cm hcm, e6, shl64_lit _ (hm 6) 36 (by norm_num)]
  rw [decodeChars_step_symbol cm hcm, e5, shl64_lit _ (hm 5) 30 (by norm_num)]
  rw [decodeChars_step_symbol cm hcm, e4, shl64_lit _ (hm 4) 24 (by norm_num)]
  rw [decodeChars_step_symbol cm hcm, e3, shl64_lit _ (hm 3) 18 (by norm_num)]
  rw [decodeChars_step_symbol cm hcm, e2, shl64_lit _ (hm 2) 12 (by norm_num)]
  rw [decodeChars_step_symbol cm hcm, e1, shl64_lit _ (hm 1) 6 (by norm_num)]
  rw [decodeChars_step_symbol cm hcm, e0, shl64_lit _ (hm 0) 0 (by norm_num)]
  rw [decodeChars, GetObjectIdFromPath.finish, hfin]
  simp only [Bool.not_true, ne_eq, not_true_eq_false, decide_False, Bool.or_self, Bool.false_eq_true,
    if_false]
  norm_num
  omega

/-! ## Claims C1 - C4: the path codec and the filesystem size -/

theorem extFromLastDot_no_slash {fileName : List Char} (h : '/' ∉ fileName) :
    '/' ∉ extFromLastDot fileName := by
  unfold extFromLastDot
  cases rindex fileName '.' with
  | none => simp
  | some p => exact fun hm => h (List.mem_of_mem_drop hm)

theorem idStemSymbols_length (cm : List Char) (objectId : Nat) :
    (idDirSymbols cm objectId ++ ['/'] ++ idStemSymbols cm objectId).length = 10 := rfl

theorem not_dot_mem_symbols (cm : List Char) (hcm : ValidCharMapping cm) (objectId : Nat) :
    '.' ∉ idDirSymbols cm objectId ++ ['/'] ++ idStemSymbols cm objectId := by
  have h := fun i => (idSymbol_ne_dot cm hcm objectId i).symm
  simp [idDirSymbols, idStemSymbols, h]

/-- C1 (amended).  Path round trip: for a valid alphabet, every id in
`[1, 2^54)`, every base directory, every type name and every file name
without `/`, the path `p = BuildPathname(id, base, type, filename, false)`
decodes to the id whenever the file name has an extension or neither the base
directory nor the type name contains a `.`, and `GetTypeNameFromPath(base, p)`
is the type name whenever the type name contains no `/`. -/
theorem path_roundtrip (cm : List Char) (hcm : ValidCharMapping cm)
    (mkdirOk : List Char → Bool) (objectId : Nat) (hlo : 1 ≤ objectId)
    (hhi : objectId < 2 ^ 54) (basePath typeName fileName : List Char)
    (hfile : '/' ∉ fileName) :
    (('.' ∈ fileName ∨ ('.' ∉ basePath ∧ '.' ∉ typeName)) →
      GetObjectIdFromPath cm
        (BuildPathname cm mkdirOk objectId basePath typeName fileName false) = some objectId) ∧
    ('/' ∉ typeName →
      GetTypeNameFromPath basePath
        (BuildPathname cm mkdirOk objectId basePath typeName fileName false) = typeName) := by
  have hid : objectId ≠ 0 := by omega
  rw [BuildPathname_eq cm hcm.length_eq hcm.no_blank mkdirOk objectId hid]
  constructor
  · intro hdot
    have hext : GetFileExtension fileName = extFromLastDot fileName := by
      rw [GetFileExtension_eq, extUnlessSlash, if_neg (extFromLastDot_no_slash hfile)]
    have hassoc : basePath ++ ['/'] ++ typeName ++ ['/'] ++ idDirSymbols cm objectId ++ ['/'] ++
        idStemSymbols cm objectId ++ GetFileExtension fileName =
        (basePath ++ ['/'] ++ typeName ++ ['/']) ++
          (idDirSymbols cm objectId ++ ['/'] ++ idStemSymbols cm objectId) ++
          GetFileExtension fileName := by simp
    rw [hassoc, GetObjectIdFromPath_eq_decodeChars cm _ _ _ (idStemSymbols_length cm objectId),
      decodeChars_symbols cm hcm objectId hhi]
    rw [hext]
    rcases extFromLastDot_shape fileName with ⟨he, hnd⟩ | ⟨rest, he, hrest, _, _⟩
    · right
      refine ⟨?_, he⟩
      rcases hdot with h | ⟨hb, ht⟩
      · exact absurd h hnd
      · rw [he, rindex_eq_none]
        have hs := not_dot_mem_symbols cm hcm objectId
        have hsl : '.' ∉ ['/'] := by decide
        intro hmem
        simp only [List.append_nil, List.mem_append] at hmem hs
        rcases hmem with (((h | h) | h) | h) | h
        · exact hb h
        · exact hsl h
        · exact ht h
        · exact hsl h
        · exact hs h
    · left
      rw [he, rindex_append, rindex_cons_self_of_not_mem hrest]
      simp only [List.length_append, Nat.add_zero]
      rfl
  · intro hslash
    have hshape : basePath ++ ['/'] ++ typeName ++ ['/'] ++ idDirSymbols cm objectId ++ ['/'] ++
        idStemSymbols cm objectId ++ GetFileExtension fileName =
        basePath ++ ('/' :: (typeName ++ '/' :: (idDirSymbols cm objectId ++ ['/'] ++
          idStemSymbols cm objectId ++ GetFileExtension fileName))) := by simp
    rw [hshape]
    generalize idDirSymbols cm objectId ++ ['/'] ++ idStemSymbols cm objectId ++
      GetFileExtension fileName = tail
    have hdrop : List.drop (basePath.length + 1) (basePath ++ '/' :: (typeName ++ '/' :: tail)) =
        typeName ++ '/' :: tail := by
      rw [List.drop_append]; rfl
    have hidx : List.indexOf '/' (typeName ++ '/' :: tail) = typeName.length := by
      rw [List.indexOf_append_of_not_mem hslash, List.indexOf_cons_self]; rfl
    simp only [GetTypeNameFromPath, substr, List.drop_zero, List.take_left, if_true, str_find,
      hdrop, hidx]
    rw [if_pos (by simp)]
    by_cases ht : typeName = []
    · simp [ht]
    · have hpos : 0 < typeName.length := List.length_pos.mpr ht
      simp [hpos, List.take_left]

/-- C1, the instance of the unit tests (CacheBaseTest.h:45-109): the id
4538775134664, the type `type` and a file name with the extension `.ext`. -/
theorem path_roundtrip_witness :
    ValidCharMapping sampleCharMapping ∧ 1 ≤ 4538775134664 ∧ 4538775134664 < 2 ^ 54 ∧
    '/' ∉ "foo.ext".toList ∧
    (('.' ∈ "foo.ext".toList ∨ ('.' ∉ "/tmp/test".toList ∧ '.' ∉ "type".toList)) →
      GetObjectIdFromPath sampleCharMapping
        (BuildPathname sampleCharMapping (fun _ => true) 4538775134664 "/tmp/test".toList
          "type".toList "foo.ext".toList false) = some 4538775134664) ∧
    ('/' ∉ "type".toList →
      GetTypeNameFromPath "/tmp/test".toList
        (BuildPathname sampleCharMapping (fun _ => true) 4538775134664 "/tmp/test".toList
          "type".toList "foo.ext".toList false) = "type".toList) :=
  ⟨⟨by decide, by decide, by decide, by decide, by decide, by decide⟩, by decide, by decide,
    by decide,
    path_roundtrip sampleCharMapping
      ⟨by decide, by decide, by decide, by decide, by decide, by decide⟩ (fun _ => true)
      4538775134664 (by decide) (by decide) "/tmp/test".toList "type".toList "foo.ext".toList
      (by decide)⟩

/-- C1 as stated fails: (1) the id `2^54` lies in `[1, 2^63)` but its path
decodes to 0; (2) the type name `a/b` passes the validator (at most 64 bytes,
no leading `.`) but `GetTypeNameFromPath` gives `a`; (3) with the base
directory `/var/lib/file.cache` and the file name `foo` (no extension) the
path of 4538775134664 decodes to 0. -/
theorem path_roundtrip_counterexample :
    ¬ (GetObjectIdFromPath sampleCharMapping
        (BuildPathname sampleCharMapping (fun _ => true) (2 ^ 54) "/tmp/test".toList
          "type".toList "foo.ext".toList false) = some (2 ^ 54)) ∧
    ¬ (GetTypeNameFromPath "/tmp/test".toList
        (BuildPathname sampleCharMapping (fun _ => true) 4538775134664 "/tmp/test".toList
          "a/b".toList "foo.ext".toList false) = "a/b".toList) ∧
    ¬ (GetObjectIdFromPath sampleCharMapping
        (BuildPathname sampleCharMapping (fun _ => true) 4538775134664
          "/var/lib/file.cache".toList "type".toList "foo".toList false) = some 4538775134664) := by
  refine ⟨?_, ?_, ?_⟩ <;> decide

/-- C2 (the code at the failing inputs).  `GetObjectIdFromPath` reads outside
the string it is given exactly when fewer than ten characters stand in front
of the last `.` (or of the end of the string when it has no `.`): its first
round reads `filePath[endPos - 10]`. -/
theorem GetObjectIdFromPath_reads_outside (cm filePath : List Char) :
    GetObjectIdFromPath cm filePath = none ↔ endPosition filePath < 10 := by
  have hle : endPosition filePath ≤ filePath.length := endPosition_le filePath
  have hend : (match rindex filePath '.' with
      | none => (filePath.length : Int)
      | some p => (p : Int)) = ((endPosition filePath : Nat) : Int) := by
    unfold endPosition
    cases rindex filePath '.' <;> rfl
  have h10 : ∀ e : Int, (e - (e - (s_numChars : Int) - 1)).toNat = 10 := by
    intro e; simp [s_numChars]; omega
  simp only [GetObjectIdFromPath, hend, h10]
  constructor
  · intro h
    by_contra hge
    rw [loop_eq_decodeChars cm filePath _ hle 10 (by omega)] at h
    exact Option.noConfusion h
  · intro h
    exact loop_succ_of_neg cm filePath _ 9 (by omega) 0 false 0

/-- C2, failing inputs: the path names `A/BCDEFG.ext` and `a.b`, which a
client may hand to any request that names a path, make the decoder read
in front of the string, whatever the alphabet. -/
theorem GetObjectIdFromPath_short_path (cm : List Char) :
    GetObjectIdFromPath cm "A/BCDEFG.ext".toList = none ∧
    GetObjectIdFromPath cm "a.b".toList = none := by
  constructor <;> rw [GetObjectIdFromPath_reads_outside] <;> decide

/-- C3 (amended).  Canonical encoding: without directory creation,
`BuildPathname` returns the empty string for the id 0, and for a nonzero id
exactly `base / type / c8 / c7 c6 c5 c4 c3 c2 c1 c0 ext` with
`ci = alphabet[(id >> 6*i) & 63]`, where `ext` is the part of the file name
from its last `.` when no `/` follows that `.`, and is empty otherwise; the
result is not empty for a nonzero id.  The alphabet has 64 symbols, none of
them the blank. -/
theorem BuildPathname_canonical (cm : List Char) (hlen : cm.length = 64) (hblank : ' ' ∉ cm)
    (mkdirOk : List Char → Bool) (objectId : Nat) (basePath typeName fileName : List Char) :
    BuildPathname cm mkdirOk 0 basePath typeName fileName false = [] ∧
    (objectId ≠ 0 →
      BuildPathname cm mkdirOk objectId basePath typeName fileName false =
        basePath ++ ['/'] ++ typeName ++ ['/'] ++ [idSymbol cm objectId 8] ++ ['/'] ++
          [idSymbol cm objectId 7, idSymbol cm objectId 6, idSymbol cm objectId 5,
            idSymbol cm objectId 4, idSymbol cm objectId 3, idSymbol cm objectId 2,
            idSymbol cm objectId 1, idSymbol cm objectId 0] ++ extUnlessSlash fileName ∧
      BuildPathname cm mkdirOk objectId basePath typeName fileName false ≠ []) := by
  refine ⟨by simp [BuildPathname], fun hid => ?_⟩
  rw [BuildPathname_eq cm hlen hblank mkdirOk objectId hid, GetFileExtension_eq]
  exact ⟨rfl, by simp⟩

/-- C3, an instance: the path of the unit test (CacheBaseTest.h:99-109). -/
theorem BuildPathname_canonical_witness :
    sampleCharMapping.length = 64 ∧ ' ' ∉ sampleCharMapping ∧
    (BuildPathname sampleCharMapping (fun _ => true) 0 "/tmp/test".toList "type".toList
        "foo.ext".toList false = [] ∧
      ((4538775134664 : Nat) ≠ 0 →
        BuildPathname sampleCharMapping (fun _ => true) 4538775134664 "/tmp/test".toList
            "type".toList "foo.ext".toList false =
          "/tmp/test".toList ++ ['/'] ++ "type".toList ++ ['/'] ++
            [idSymbol sampleCharMapping 4538775134664 8] ++ ['/'] ++
            [idSymbol sampleCharMapping 4538775134664 7, idSymbol sampleCharMapping 4538775134664 6,
              idSymbol sampleCharMapping 4538775134664 5, idSymbol sampleCharMapping 4538775134664 4,
              idSymbol sampleCharMapping 4538775134664 3, idSymbol sampleCharMapping 4538775134664 2,
              idSymbol sampleCharMapping 4538775134664 1, idSymbol sampleCharMapping 4538775134664 0] ++
            extUnlessSlash "foo.ext".toList ∧
        BuildPathname sampleCharMapping (fun _ => true) 4538775134664 "/tmp/test".toList
            "type".toList "foo.ext".toList false ≠ [])) :=
  ⟨by decide, by decide,
    BuildPathname_canonical sampleCharMapping (by decide) (by decide) (fun _ => true)
      4538775134664 "/tmp/test".toList "type".toList "foo.ext".toList⟩

/-- C3 as stated fails for the file name `a.b/c`: the part from its last `.`
is `.b/c`, but `BuildPathname` appends no extension and returns
`/b/t/A/AAAAAAAF`. -/
theorem BuildPathname_canonical_counterexample :
    BuildPathname sampleCharMapping (fun _ => true) 5 "/b".toList "t".toList "a.b/c".toList false =
      "/b/t/A/AAAAAAAF".toList ∧
    "/b".toList ++ ['/'] ++ "t".toList ++ ['/'] ++ [idSymbol sampleCharMapping 5 8] ++ ['/'] ++
        [idSymbol sampleCharMapping 5 7, idSymbol sampleCharMapping 5 6,
          idSymbol sampleCharMapping 5 5, idSymbol sampleCharMapping 5 4,
          idSymbol sampleCharMapping 5 3, idSymbol sampleCharMapping 5 2,
          idSymbol sampleCharMapping 5 1, idSymbol sampleCharMapping 5 0] ++
        extFromLastDot "a.b/c".toList = "/b/t/A/AAAAAAAF.b/c".toList := by
  constructor <;> decide

/-- C4.  Filesystem size: for every size above 0,
`GetFilesystemFileSize(size) = ceil(size / 4096) * 4096 + 4096` (the quotient
taken in the rationals), and `GetFilesystemFileSize(0) = 2 * 4096 = 8192`. -/
theorem GetFilesystemFileSize_spec (size : Int) (hsize : 0 < size) :
    GetFilesystemFileSize size = ⌈(size : ℚ) / 4096⌉ * 4096 + 4096 ∧
    GetFilesystemFileSize 0 = 2 * 4096 ∧ GetFilesystemFileSize 0 = 8192 := by
  refine ⟨?_, by decide, by decide⟩
  have hceil : ⌈(size : ℚ) / 4096⌉ = (size + 4096 - 1) / 4096 := by
    rw [Int.ceil_eq_iff]
    constructor
    · rw [lt_div_iff₀ (by norm_num : (0 : ℚ) < 4096)]
      have : ((size + 4096 - 1) / 4096 - 1) * 4096 < size := by omega
      exact_mod_cast this
    · rw [div_le_iff₀ (by norm_num : (0 : ℚ) < 4096)]
      have : size ≤ ((size + 4096 - 1) / 4096) * 4096 := by omega
      exact_mod_cast this
  simp only [GetFilesystemFileSize, s_blockSize, if_pos hsize, hceil]

/-- C4, instances: the sizes of the unit test (FileCacheSetTest.h:89-105). -/
theorem GetFilesystemFileSize_spec_witness :
    (0 : Int) < 4097 ∧
    (GetFilesystemFileSize 4097 = ⌈((4097 : Int) : ℚ) / 4096⌉ * 4096 + 4096 ∧
      GetFilesystemFileSize 0 = 2 * 4096 ∧ GetFilesystemFileSize 0 = 8192) :=
  ⟨by decide, GetFilesystemFileSize_spec 4097 (by decide)⟩


/-! ## The decoder on the reads inside the string -/

theorem decodeChars_too_few (cm : List Char) :
    ∀ (l : List Char) (i : Int) (found : Bool) (acc : Nat),
      i + (l.length : Int) < 9 → decodeChars cm l i found acc = 0 := by
  intro l
  induction l with
  | nil =>
    intro i found acc h
    have hi : i ≠ 9 := by simp at h; omega
    simp [decodeChars, GetObjectIdFromPath.finish, s_numChars, hi]
  | cons c cs ih =>
    intro i found acc h
    have hlen : ((c :: cs).length : Int) = (cs.length : Int) + 1 := by simp
    rw [hlen] at h
    unfold decodeChars
    by_cases hc : c = '/'
    · rw [if_neg (by simpa using hc)]
      by_cases hi : i = (s_dirChars : Int)
      · rw [if_pos hi]; exact ih i true acc (by omega)
      · rw [if_neg hi]
        have hi9 : i ≠ 9 := by omega
        simp [GetObjectIdFromPath.finish, s_numChars, hi9]
    · rw [if_pos hc]
      simp only
      split_ifs
      · rfl
      · exact ih (i + 1) found _ (by omega)

theorem decodeChars_no_delimiter (cm : List Char) :
    ∀ (l : List Char) (i : Int) (acc : Nat), 2 ≤ i → decodeChars cm l i false acc = 0 := by
  intro l
  induction l with
  | nil => intro i acc _; simp [decodeChars, GetObjectIdFromPath.finish]
  | cons c cs ih =>
    intro i acc h
    unfold decodeChars
    by_cases hc : c = '/'
    · rw [if_neg (by simpa using hc)]
      have hi : i ≠ (s_dirChars : Int) := by simp [s_dirChars]; omega
      rw [if_neg hi]
      simp [GetObjectIdFromPath.finish]
    · rw [if_pos hc]
      simp only
      split_ifs
      · rfl
      · exact ih (i + 1) _ (by omega)

theorem decodeChars_stem (cm : List Char) :
    ∀ (l : List Char) (i : Int) (acc : Nat), i + (l.length : Int) ≤ 9 →
      decodeChars cm l i true acc ≠ 0 →
      ∀ c ∈ l, c ≠ '/' ∧ 0 ≤ GetValueForChar cm c := by
  intro l
  induction l with
  | nil => intro _ _ _ _ c hc; exact absurd hc (List.not_mem_nil c)
  | cons x xs ih =>
    intro i acc hlen h
    have hl : ((x :: xs).length : Int) = (xs.length : Int) + 1 := by simp
    rw [hl] at hlen
    unfold decodeChars at h
    by_cases hx : x = '/'
    · exfalso
      rw [if_neg (by simpa using hx)] at h
      by_cases hi : i = (s_dirChars : Int)
      · rw [if_pos hi] at h
        exact h (decodeChars_too_few cm xs i true acc (by simp [s_dirChars] at hi; omega))
      · rw [if_neg hi] at h
        have hi9 : i ≠ 9 := by omega
        simp [GetObjectIdFromPath.finish, s_numChars, hi9] at h
    · rw [if_pos hx] at h
      simp only at h
      by_cases ht : GetValueForChar cm x < 0
      · rw [if_pos ht] at h; exact absurd rfl h
      · rw [if_neg ht] at h
        intro c hc
        rcases List.mem_cons.mp hc with rfl | hc
        · exact ⟨hx, by omega⟩
        · exact ih (i + 1) _ (by omega) h c hc

theorem decodeChars_canonical (cm l : List Char) (hl : l.length = 10)
    (h : decodeChars cm l 0 false 0 ≠ 0) : CanonicalTen cm l := by
  match l, hl with
  | a :: d :: b, hl =>
    have hb : b.length = 8 := by simpa using hl
    unfold decodeChars at h
    by_cases ha : a = '/'
    · rw [if_neg (by simpa using ha)] at h
      simp [s_dirChars, GetObjectIdFromPath.finish] at h
    · rw [if_pos ha] at h
      simp only at h
      by_cases ht : GetValueForChar cm a < 0
      · rw [if_pos ht] at h; exact absurd rfl h
      · rw [if_neg ht] at h
        unfold decodeChars at h
        by_cases hd : d = '/'
        · rw [if_neg (by simpa using hd)] at h
          rw [if_pos (by simp [s_dirChars])] at h
          subst hd
          refine ⟨a, b, rfl, hb, ?_⟩
          intro c hc
          rcases List.mem_cons.mp hc with rfl | hc
          · exact ⟨ha, by omega⟩
          · exact decodeChars_stem cm b _ _ (by rw [hb]; norm_num) h c hc
        · exfalso
          rw [if_pos hd] at h
          simp only at h
          by_cases htd : GetValueForChar cm d < 0
          · rw [if_pos htd] at h; exact absurd rfl h
          · rw [if_neg htd] at h
            exact h (decodeChars_no_delimiter cm b _ _ (by norm_num))

/-- On every string with at least ten characters in front of the end position
`GetObjectIdFromPath` returns a value, and the value is 0 unless the ten
characters in front of the end position are one character with a value in the
alphabet, `/`, and eight characters with a value in the alphabet. -/
theorem GetObjectIdFromPath_in_bounds (cm filePath : List Char)
    (h : 10 ≤ endPosition filePath) :
    ∃ v, GetObjectIdFromPath cm filePath = some v ∧
      (¬ CanonicalTen cm (visitedChars filePath) → v = 0) := by
  have hle : endPosition filePath ≤ filePath.length := endPosition_le filePath
  have hend : (match rindex filePath '.' with
      | none => (filePath.length : Int)
      | some p => (p : Int)) = ((endPosition filePath : Nat) : Int) := by
    unfold endPosition
    cases rindex filePath '.' <;> rfl
  have h10 : ∀ e : Int, (e - (e - (s_numChars : Int) - 1)).toNat = 10 := by
    intro e; simp [s_numChars]; omega
  refine ⟨decodeChars cm (visitedChars filePath) 0 false 0, ?_, ?_⟩
  · unfold GetObjectIdFromPath
    simp only [hend, h10]
    exact loop_eq_decodeChars cm filePath _ hle 10 h 0 false 0
  · intro hnot
    by_contra hv
    refine hnot (decodeChars_canonical cm _ ?_ hv)
    unfold visitedChars
    rw [List.length_take, List.length_drop]
    omega

/-! ## Lemmas on association lists -/

namespace AMap

variable {κ α : Type} [DecidableEq κ]

theorem replace_cons (p : κ × α) (m : List (κ × α)) (k : κ) (v : α) :
    replace (p :: m) k v = (if p.1 = k then (p.1, v) else p) :: replace m k v := rfl

theorem erase_cons (p : κ × α) (m : List (κ × α)) (k : κ) :
    erase (p :: m) k = if p.1 = k then erase m k else p :: erase m k := by
  by_cases h : p.1 = k <;> simp [erase, List.filter_cons, h]

theorem find_cons (p : κ × α) (m : List (κ × α)) (k : κ) :
    find (p :: m) k = if p.1 = k then some p.2 else find m k := rfl

theorem find_replace (m : List (κ × α)) (k k1 : κ) (v : α) :
    find (replace m k v) k1 = if k1 = k then (find m k).map (fun _ => v) else find m k1 := by
  induction m with
  | nil => simp [replace, find]
  | cons p m ih =>
    rw [replace_cons, find_cons, find_cons, find_cons, ih]
    by_cases hp : p.1 = k
    · by_cases hk : k1 = k
      · subst hk; simp [hp]
      · have : ¬ p.1 = k1 := fun h => hk (h ▸ hp)
        have h2 : ¬ k = k1 := fun h => hk h.symm
        simp [hp, hk, this, h2]
    · by_cases hk : k1 = k
      · subst hk; simp [hp]
      · by_cases hpk : p.1 = k1
        · simp [hp, hk, hpk]
        · simp [hp, hk, hpk]

theorem find_replace_self (m : List (κ × α)) (k : κ) (v w : α) (h : find m k = some w) :
    find (replace m k v) k = some v := by
  rw [find_replace, if_pos rfl, h]; rfl

theorem find_replace_ne (m : List (κ × α)) (k k1 : κ) (v : α) (h : k1 ≠ k) :
    find (replace m k v) k1 = find m k1 := by
  rw [find_replace, if_neg h]

theorem find_erase (m : List (κ × α)) (k k1 : κ) :
    find (erase m k) k1 = if k1 = k then none else find m k1 := by
  induction m with
  | nil => simp [erase, find]
  | cons p m ih =>
    rw [erase_cons, find_cons]
    by_cases hp : p.1 = k
    · rw [if_pos hp, ih]
      by_cases hk : k1 = k
      · simp [hk]
      · have : ¬ p.1 = k1 := fun h => hk (h ▸ hp)
        simp [hk, this]
    · rw [if_neg hp, find_cons, ih]
      by_cases hk : k1 = k
      · subst hk; simp [hp]
      · simp [hk]

theorem mem_of_find (m : List (κ × α)) (k : κ) (v : α) (h : find m k = some v) :
    (k, v) ∈ m := by
  induction m with
  | nil => simp [find] at h
  | cons p m ih =>
    simp only [find] at h
    by_cases hp : p.1 = k
    · simp only [hp, if_true, Option.some.injEq] at h
      have : p = (k, v) := by cases p; simp_all
      simp [this]
    · simp only [hp, if_false] at h
      exact List.mem_cons_of_mem _ (ih h)

theorem keys_replace (m : List (κ × α)) (k : κ) (v : α) : keys (replace m k v) = keys m := by
  induction m with
  | nil => rfl
  | cons p m ih =>
    have ih1 : List.map Prod.fst (List.map (fun p => if p.1 = k then (p.1, v) else p) m) =
        List.map Prod.fst m := ih
    simp only [keys, replace, List.map_cons, List.cons.injEq]
    refine ⟨?_, ih1⟩
    by_cases hp : p.1 = k <;> simp [hp]

theorem mem_replace (m : List (κ × α)) (k : κ) (v : α) (q : κ × α)
    (h : q ∈ replace m k v) : q ∈ m ∨ q.2 = v := by
  simp only [replace, List.mem_map] at h
  obtain ⟨p, hp, rfl⟩ := h
  by_cases hk : p.1 = k
  · right; simp [hk]
  · left; simpa [hk] using hp

theorem mem_erase (m : List (κ × α)) (k : κ) (q : κ × α) (h : q ∈ erase m k) : q ∈ m := by
  simp only [erase, List.mem_filter] at h
  exact h.1

theorem keys_erase_nodup (m : List (κ × α)) (k : κ) (h : (keys m).Nodup) :
    (keys (erase m k)).Nodup := by
  simp only [keys, erase] at *
  exact (List.Nodup.sublist (List.Sublist.map _ (List.filter_sublist _)) h)

theorem find_eq_none_of_not_mem_keys (m : List (κ × α)) (k : κ) (h : k ∉ keys m) :
    find m k = none := by
  induction m with
  | nil => rfl
  | cons p m ih =>
    simp only [keys, List.map_cons, List.mem_cons, not_or] at h
    simp only [find]
    rw [if_neg (fun hp => h.1 hp.symm)]
    exact ih h.2

theorem not_mem_keys_of_find (m : List (κ × α)) (k : κ) (h : find m k = none) :
    k ∉ keys m := by
  induction m with
  | nil => simp [keys]
  | cons p m ih =>
    simp only [find] at h
    by_cases hp : p.1 = k
    · simp [hp] at h
    · simp only [hp, if_false] at h
      simp only [keys, List.map_cons, List.mem_cons, not_or]
      exact ⟨fun hk => hp hk.symm, ih h⟩

omit [DecidableEq κ] in
theorem keys_orderedInsert_perm (lt : κ → κ → Bool) (k : κ) (v : α) (m : List (κ × α)) :
    (keys (orderedInsert lt k v m)).Perm (k :: keys m) := by
  induction m with
  | nil => simp [orderedInsert, keys]
  | cons p m ih =>
    simp only [orderedInsert]
    by_cases h : lt k p.1 = true
    · simp [h, keys]
    · simp only [h, Bool.false_eq_true, if_false, keys, List.map_cons]
      exact (List.Perm.cons _ ih).trans (List.Perm.swap _ _ _)

theorem find_orderedInsert (lt : κ → κ → Bool) (k : κ) (v : α) (m : List (κ × α))
    (hk : find m k = none) (k1 : κ) :
    find (orderedInsert lt k v m) k1 = if k1 = k then some v else find m k1 := by
  induction m with
  | nil =>
    by_cases h : k1 = k
    · subst h; simp [orderedInsert, find]
    · have : ¬ k = k1 := fun e => h e.symm
      simp [orderedInsert, find, h, this]
  | cons p m ih =>
    simp only [find] at hk
    by_cases hp : p.1 = k
    · simp [hp] at hk
    · simp only [hp, if_false] at hk
      simp only [orderedInsert]
      by_cases hlt : lt k p.1 = true
      · by_cases h : k1 = k
        · subst h; simp [hlt, find]
        · have : ¬ k = k1 := fun e => h e.symm
          simp [hlt, find, h, this]
      · simp only [hlt, Bool.false_eq_true, if_false, find, ih hk]
        by_cases h : k1 = k
        · subst h; simp [hp]
        · simp [h]

end AMap

/-! ## Size accounting: lemmas -/

theorem AMap.replace_of_not_mem_keys {κ α : Type} [DecidableEq κ] (m : List (κ × α)) (k : κ)
    (v : α) (h : k ∉ AMap.keys m) : AMap.replace m k v = m := by
  induction m with
  | nil => rfl
  | cons p m ih =>
    simp only [AMap.keys, List.map_cons, List.mem_cons, not_or] at h
    rw [AMap.replace_cons, if_neg (fun hp => h.1 hp.symm), ih h.2]

theorem AMap.erase_of_not_mem_keys {κ α : Type} [DecidableEq κ] (m : List (κ × α)) (k : κ)
    (h : k ∉ AMap.keys m) : AMap.erase m k = m := by
  induction m with
  | nil => rfl
  | cons p m ih =>
    simp only [AMap.keys, List.map_cons, List.mem_cons, not_or] at h
    rw [AMap.erase_cons, if_neg (fun hp => h.1 hp.symm), ih h.2]

theorem sizeSum_cons (p : Nat × CCacheObject) (m : List (Nat × CCacheObject)) :
    sizeSum (p :: m) = GetFilesystemFileSize p.2.m_size + sizeSum m := by
  simp [sizeSum]

theorem sizeSum_replace (m : List (Nat × CCacheObject)) (k : Nat) (o o1 : CCacheObject)
    (hnd : (AMap.keys m).Nodup) (hf : AMap.find m k = some o) :
    sizeSum (AMap.replace m k o1) =
      sizeSum m - GetFilesystemFileSize o.m_size + GetFilesystemFileSize o1.m_size := by
  induction m with
  | nil => simp [AMap.find] at hf
  | cons p m ih =>
    simp only [AMap.keys, List.map_cons, List.nodup_cons] at hnd
    rw [AMap.find_cons] at hf
    rw [AMap.replace_cons]
    by_cases hp : p.1 = k
    · rw [if_pos hp] at hf
      rw [if_pos hp]
      have hk : k ∉ AMap.keys m := hp ▸ hnd.1
      have ho : p.2 = o := by simpa using hf
      rw [AMap.replace_of_not_mem_keys m k o1 hk, sizeSum_cons, sizeSum_cons, ho]
      simp only
      omega
    · rw [if_neg hp] at hf
      rw [if_neg hp, sizeSum_cons, sizeSum_cons, ih hnd.2 hf]
      omega

theorem sizeSum_erase (m : List (Nat × CCacheObject)) (k : Nat) (o : CCacheObject)
    (hnd : (AMap.keys m).Nodup) (hf : AMap.find m k = some o) :
    sizeSum (AMap.erase m k) = sizeSum m - GetFilesystemFileSize o.m_size := by
  induction m with
  | nil => simp [AMap.find] at hf
  | cons p m ih =>
    simp only [AMap.keys, List.map_cons, List.nodup_cons] at hnd
    rw [AMap.find_cons] at hf
    rw [AMap.erase_cons]
    by_cases hp : p.1 = k
    · rw [if_pos hp] at hf
      rw [if_pos hp]
      have hk : k ∉ AMap.keys m := hp ▸ hnd.1
      have ho : p.2 = o := by simpa using hf
      rw [AMap.erase_of_not_mem_keys m k hk, sizeSum_cons, ho]
      omega
    · rw [if_neg hp] at hf
      rw [if_neg hp, sizeSum_cons, sizeSum_cons, ih hnd.2 hf]
      omega

theorem sizeSum_orderedInsert (lt : Nat → Nat → Bool) (k : Nat) (o : CCacheObject)
    (m : List (Nat × CCacheObject)) :
    sizeSum (AMap.orderedInsert lt k o m) = sizeSum m + GetFilesystemFileSize o.m_size := by
  induction m with
  | nil => simp [AMap.orderedInsert, sizeSum]
  | cons p m ih =>
    simp only [AMap.orderedInsert]
    by_cases h : lt k p.1 = true
    · simp only [h, if_true, sizeSum_cons]; omega
    · simp only [h, Bool.false_eq_true, if_false, sizeSum_cons, ih]; omega

theorem CacheAccounted.of_eq {c c1 : CFileCache} (h : CacheAccounted c)
    (h1 : c1.m_cachedObjects = c.m_cachedObjects) (h2 : c1.m_cacheSize = c.m_cacheSize) :
    CacheAccounted c1 := by
  unfold CacheAccounted at *
  rw [h1, h2]; exact h

theorem CacheAccounted.replace_object {c : CFileCache} (h : CacheAccounted c) (objId : Nat)
    (o o1 : CCacheObject) (hf : c.GetCacheObjectForId objId = some o) (c1 : CFileCache)
    (h1 : c1.m_cachedObjects = AMap.replace c.m_cachedObjects objId o1)
    (h2 : c1.m_cacheSize = c.m_cacheSize +
      (GetFilesystemFileSize o1.m_size - GetFilesystemFileSize o.m_size)) :
    CacheAccounted c1 := by
  unfold CacheAccounted at *
  rw [h1, h2, AMap.keys_replace, sizeSum_replace _ _ _ _ h.1 hf, h.2]
  exact ⟨h.1, by omega⟩

theorem CacheAccounted.replace_same {c : CFileCache} (h : CacheAccounted c) (objId : Nat)
    (o o1 : CCacheObject) (hf : c.GetCacheObjectForId objId = some o)
    (hs : o1.m_size = o.m_size) (c1 : CFileCache)
    (h1 : c1.m_cachedObjects = AMap.replace c.m_cachedObjects objId o1)
    (h2 : c1.m_cacheSize = c.m_cacheSize) :
    CacheAccounted c1 :=
  h.replace_object objId o o1 hf c1 h1 (by rw [h2, hs]; omega)

theorem CCacheObject.Expire_size (env : Env) (b t : List Char) (o : CCacheObject) :
    (o.Expire env b t).1.m_size = o.m_size := by
  unfold CCacheObject.Expire
  simp only
  split_ifs <;> rfl

theorem CCacheObject.Subscribe_size (env : Env) (b t msg : List Char) (o : CCacheObject) :
    (o.Subscribe env b t msg).1.m_size = o.m_size := by
  unfold CCacheObject.Subscribe CCacheObject.UpdateAccessTime
  simp only
  split_ifs <;> rfl

theorem CCacheObject.Resize_result (env : Env) (b t : List Char) (o : CCacheObject)
    (newSize : Int) : (o.Resize env b t newSize).2 = (o.Resize env b t newSize).1.m_size := by
  unfold CCacheObject.Resize
  simp only
  split_ifs <;> rfl

theorem CFileCache.UpdateObject_objects (c : CFileCache) (objId : Nat) :
    (c.UpdateObject objId).m_cachedObjects = c.m_cachedObjects ∧
      (c.UpdateObject objId).m_cacheSize = c.m_cacheSize := by
  unfold CFileCache.UpdateObject
  split_ifs <;> exact ⟨rfl, rfl⟩

/-- The cache `CFileCache::Expire` works on after it has taken the id off the
LRU list. -/
theorem CFileCache.Expire_fst (env : Env) (b : List Char) (c : CFileCache) (objId : Nat)
    (o : CCacheObject) (hf : c.GetCacheObjectForId objId = some o) :
    ∃ l : List Nat,
      ((o.Expire env b c.m_cacheType).2.1 = true ∧
        (c.Expire env b objId).2.1 = true ∧
        (c.Expire env b objId).1 =
          { c with
            m_cacheList := l
            m_cachedObjects := AMap.erase c.m_cachedObjects objId
            m_numObjects := c.m_numObjects - 1
            m_cacheSize := c.m_cacheSize - GetFilesystemFileSize o.m_size }) ∨
      ((o.Expire env b c.m_cacheType).2.1 = false ∧
        (c.Expire env b objId).2.1 = false ∧
        (c.Expire env b objId).1 =
          { c with
            m_cacheList := l
            m_cachedObjects :=
              AMap.replace c.m_cachedObjects objId (o.Expire env b c.m_cacheType).1 }) := by
  unfold CFileCache.Expire
  rw [hf]
  simp only
  cases hr : (o.Expire env b c.m_cacheType).2.1
  · by_cases he : o.m_expired = true
    · exact ⟨c.m_cacheList, Or.inr ⟨rfl, by simp, by simp [he]⟩⟩
    · exact ⟨c.m_cacheList.erase objId, Or.inr ⟨rfl, by simp, by simp [he]⟩⟩
  · by_cases he : o.m_expired = true
    · exact ⟨c.m_cacheList, Or.inl ⟨rfl, by simp, by simp [he]⟩⟩
    · exact ⟨c.m_cacheList.erase objId, Or.inl ⟨rfl, by simp, by simp [he]⟩⟩

theorem CFileCache.Expire_none (env : Env) (b : List Char) (c : CFileCache) (objId : Nat)
    (hf : c.GetCacheObjectForId objId = none) : c.Expire env b objId = (c, true, []) := by
  unfold CFileCache.Expire
  rw [hf]

theorem CFileCache.Expire_accounted (env : Env) (b : List Char) (c : CFileCache)
    (objId : Nat) (h : CacheAccounted c) : CacheAccounted (c.Expire env b objId).1 := by
  cases hf : c.GetCacheObjectForId objId with
  | none => rw [CFileCache.Expire_none env b c objId hf]; exact h
  | some o =>
    obtain ⟨l, ⟨_, _, h3⟩ | ⟨_, _, h3⟩⟩ := CFileCache.Expire_fst env b c objId o hf
    · rw [h3]
      unfold CacheAccounted
      simp only
      refine ⟨AMap.keys_erase_nodup _ _ h.1, ?_⟩
      rw [sizeSum_erase _ _ _ h.1 hf, h.2]
    · rw [h3]
      exact h.replace_same objId o _ hf (CCacheObject.Expire_size env b _ o) _ rfl rfl

theorem CFileCache.Subscribe_accounted (env : Env) (b msg : List Char) (c : CFileCache)
    (objId : Nat) (h : CacheAccounted c) : CacheAccounted (c.Subscribe env b msg objId).1 := by
  unfold CFileCache.Subscribe
  cases hf : c.GetCacheObjectForId objId with
  | none => exact h
  | some o =>
    simp only
    have hbase := h.replace_same objId o _ hf (CCacheObject.Subscribe_size env b c.m_cacheType msg o)
      { c with m_cachedObjects := (AMap.replace c.m_cachedObjects objId
          (o.Subscribe env b c.m_cacheType msg).1) } rfl rfl
    split_ifs
    · exact hbase.of_eq (CFileCache.UpdateObject_objects _ _).1 (CFileCache.UpdateObject_objects _ _).2
    · exact hbase

theorem CFileCache.UnSubscribeLocal_accounted (env : Env) (b : List Char) (c : CFileCache)
    (objId : Nat) (h : CacheAccounted c) :
    CacheAccounted (c.UnSubscribeLocal env b objId).1 := by
  unfold CFileCache.UnSubscribeLocal
  cases hf : c.GetCacheObjectForId objId with
  | none => exact h
  | some o =>
    simp only
    have hbase : CacheAccounted
        (if (o.UnSubscribe env b c.m_cacheType).1.m_size ≠ o.m_size then
          { c with
            m_cachedObjects := (AMap.replace c.m_cachedObjects objId
              (o.UnSubscribe env b c.m_cacheType).1)
            m_cacheSize := c.m_cacheSize +
              (GetFilesystemFileSize (o.UnSubscribe env b c.m_cacheType).1.m_size -
                GetFilesystemFileSize o.m_size) }
        else
          { c with m_cachedObjects := (AMap.replace c.m_cachedObjects objId
              (o.UnSubscribe env b c.m_cacheType).1) }) := by
      split_ifs with hne
      · exact h.replace_object objId o _ hf _ rfl rfl
      · have hs : (o.UnSubscribe env b c.m_cacheType).1.m_size = o.m_size := by
          by_contra hc; exact hne hc
        exact h.replace_same objId o _ hf hs _ rfl rfl
    exact hbase.of_eq (CFileCache.UpdateObject_objects _ _).1 (CFileCache.UpdateObject_objects _ _).2

theorem CFileCache.Touch_accounted (env : Env) (c : CFileCache) (objId : Nat)
    (h : CacheAccounted c) : CacheAccounted (c.Touch env objId).1 := by
  unfold CFileCache.Touch
  cases hf : c.GetCacheObjectForId objId with
  | none => exact h
  | some o =>
    simp only
    have hbase := h.replace_same objId o (o.Touch env).1 hf rfl
      { c with m_cachedObjects := (AMap.replace c.m_cachedObjects objId (o.Touch env).1) } rfl rfl
    exact hbase.of_eq (CFileCache.UpdateObject_objects _ _).1 (CFileCache.UpdateObject_objects _ _).2

theorem CFileCache.Insert_accounted (c : CFileCache) (newObj : CCacheObject)
    (hfresh : c.GetCacheObjectForId newObj.m_id = none) (h : CacheAccounted c) :
    CacheAccounted (c.Insert newObj).1 := by
  unfold CFileCache.GetCacheObjectForId at hfresh
  unfold CFileCache.Insert CacheAccounted
  simp only [AMap.insert, hfresh]
  constructor
  · have hp := AMap.keys_orderedInsert_perm idLt newObj.m_id newObj c.m_cachedObjects
    rw [hp.nodup_iff, List.nodup_cons]
    exact ⟨AMap.not_mem_keys_of_find _ _ hfresh, h.1⟩
  · rw [sizeSum_orderedInsert, h.2]

/-! ## The expiry machinery: every cleanup operation is a run of `Cleans` -/

theorem Cleans.trans {env : Env} {s s1 s2 : CFileCacheSet} (h1 : Cleans env s s1)
    (h2 : Cleans env s1 s2) : Cleans env s s2 := by
  induction h1 with
  | done s => exact h2
  | unmap s s1 objId _ ih => exact Cleans.unmap s _ objId (ih h2)
  | expire s s1 typeName objId _ ih => exact Cleans.expire s _ typeName objId (ih h2)
  | relist s s1 typeName c l hc _ ih => exact Cleans.relist s _ typeName c l hc (ih h2)

theorem Cleans.foldl {env : Env} {β : Type} (f : CFileCacheSet → β → CFileCacheSet)
    (hf : ∀ a x, Cleans env a (f a x)) (l : List β) (s : CFileCacheSet) :
    Cleans env s (l.foldl f s) := by
  induction l generalizing s with
  | nil => exact Cleans.done s
  | cons x l ih => exact (hf s x).trans (ih (f s x))

theorem CFileCache.ExpireIn_cleans (env : Env) (s : CFileCacheSet) (typeName : List Char)
    (objId : Nat) : Cleans env s (CFileCache.ExpireIn env s typeName objId).1 :=
  Cleans.expire s _ typeName objId (Cleans.done _)

theorem CFileCacheSet.ExpireCacheObject_eq (env : Env) (s : CFileCacheSet) (objId : Nat) :
    s.ExpireCacheObject env objId =
      if (s.GetTypeForObjectId objId).isEmpty then (s, true)
      else
        match s.GetFileCacheForType (s.GetTypeForObjectId objId) with
        | some _ =>
          CFileCache.ExpireIn env (s.RemoveObjectFromIdMap objId) (s.GetTypeForObjectId objId) objId
        | none => (s, true) := by
  unfold CFileCacheSet.ExpireCacheObject CFileCache.ExpireIn
  by_cases ht : (s.GetTypeForObjectId objId).isEmpty = true
  · simp [ht]
  · simp only [ht, Bool.not_false, if_true, Bool.false_eq_true, if_false]
    cases hc : s.GetFileCacheForType (s.GetTypeForObjectId objId) with
    | none => rfl
    | some c =>
      have : (s.RemoveObjectFromIdMap objId).GetFileCacheForType (s.GetTypeForObjectId objId) =
          some c := hc
      simp only [this]
      rfl

theorem CFileCacheSet.ExpireCacheObject_cleans (env : Env) (s : CFileCacheSet) (objId : Nat) :
    Cleans env s (s.ExpireCacheObject env objId).1 := by
  rw [CFileCacheSet.ExpireCacheObject_eq]
  split_ifs
  · exact Cleans.done s
  · cases hc : s.GetFileCacheForType (s.GetTypeForObjectId objId) with
    | none => exact Cleans.done s
    | some c => exact Cleans.unmap s _ objId (CFileCache.ExpireIn_cleans env _ _ _)

theorem CFileCache.CleanupCache_loop_cleans (env : Env) (typeName : List Char) (fuel : Nat) :
    ∀ (s : CFileCacheSet) (objId : Nat) (size : Int),
      Cleans env s (CFileCache.CleanupCache.loop env typeName fuel s objId size).1 := by
  induction fuel with
  | zero => intro s objId size; exact Cleans.done s
  | succ fuel ih =>
    intro s objId size
    unfold CFileCache.CleanupCache.loop
    cases hc : s.GetFileCacheForType typeName with
    | none => exact Cleans.done s
    | some c =>
      simp only
      cases hl : c.m_cacheList.getLast? with
      | none => exact Cleans.done s
      | some objId1 =>
        simp only
        have h1 : Cleans env s (s.setCache typeName { c with m_cacheList := c.m_cacheList.dropLast }) :=
          Cleans.relist s _ typeName c _ hc (Cleans.done _)
        have h2 := CFileCacheSet.ExpireCacheObject_cleans env
          (s.setCache typeName { c with m_cacheList := c.m_cacheList.dropLast }) objId1
        split_ifs
        · exact h1.trans h2
        · exact (h1.trans h2).trans (ih _ _ _)

theorem CFileCache.CleanupCache_cleans (env : Env) (s : CFileCacheSet) (typeName : List Char) :
    Cleans env s (CFileCache.CleanupCache env s typeName).1 := by
  unfold CFileCache.CleanupCache
  simp only
  split_ifs <;> exact CFileCache.CleanupCache_loop_cleans env typeName _ s 0 (-1)

theorem CFileCache.Cleanup_loop_cleans (env : Env) (typeName : List Char) (size : Int)
    (fuel : Nat) : ∀ s : CFileCacheSet,
      Cleans env s (CFileCache.Cleanup.loop env typeName size fuel s) := by
  induction fuel with
  | zero => intro s; exact Cleans.done s
  | succ fuel ih =>
    intro s
    unfold CFileCache.Cleanup.loop
    cases hc : s.GetFileCacheForType typeName with
    | none => exact Cleans.done s
    | some c =>
      simp only
      split_ifs
      · exact (CFileCache.CleanupCache_cleans env s typeName).trans (ih _)
      · exact CFileCache.CleanupCache_cleans env s typeName
      · exact Cleans.done s

theorem CFileCacheSet.CleanupAllTypes_loop_cleans (env : Env) (neededSize : Int) (fuel : Nat) :
    ∀ (s : CFileCacheSet) (cleanupMap : List (List Char × Nat)) (cleanedSize : Int),
      Cleans env s
        (CFileCacheSet.CleanupAllTypes.loop env neededSize fuel s cleanupMap cleanedSize).1 := by
  induction fuel with
  | zero => intro s _ _; exact Cleans.done s
  | succ fuel ih =>
    intro s cleanupMap cleanedSize
    unfold CFileCacheSet.CleanupAllTypes.loop
    split_ifs
    · cases hsel : CFileCacheSet.SelectCandidateToExpire env s cleanupMap none s_maxCost with
      | none => exact Cleans.done s
      | some fileCache =>
        simp only
        exact (CFileCacheSet.ExpireCacheObject_cleans env s _).trans (ih _ _ _)
    · exact Cleans.done s

theorem CFileCacheSet.CleanupAllTypes_cleans (env : Env) (s : CFileCacheSet) (neededSize : Int) :
    Cleans env s (s.CleanupAllTypes env neededSize).1 :=
  CFileCacheSet.CleanupAllTypes_loop_cleans env _ _ s _ _

theorem CFileCache.Cleanup_cleans (env : Env) (s : CFileCacheSet) (typeName : List Char)
    (size : Int) : Cleans env s (CFileCache.Cleanup env s typeName size) := by
  unfold CFileCache.Cleanup
  cases hc : s.GetFileCacheForType typeName with
  | none => exact Cleans.done s
  | some c =>
    simp only
    split_ifs
    all_goals first
      | exact Cleans.done s
      | exact CFileCache.Cleanup_loop_cleans env typeName size _ s
      | exact (CFileCache.Cleanup_loop_cleans env typeName size _ s).trans
          (CFileCacheSet.CleanupAllTypes_cleans env _ _)

theorem CFileCache.CleanupOrphanedObjects_cleans (env : Env) (s : CFileCacheSet)
    (typeName : List Char) : Cleans env s (CFileCache.CleanupOrphanedObjects env s typeName) := by
  unfold CFileCache.CleanupOrphanedObjects
  cases hc : s.GetFileCacheForType typeName with
  | none => exact Cleans.done s
  | some c =>
    exact Cleans.foldl _ (fun a x => CFileCache.ExpireIn_cleans env a typeName x) _ s

theorem CFileCache.CleanupDirType_step_cleans (env : Env) (typeName : List Char)
    (s : CFileCacheSet) (objId : Nat) :
    Cleans env s (CFileCache.CleanupDirType.step env typeName s objId) := by
  unfold CFileCache.CleanupDirType.step
  cases hc : s.GetFileCacheForType typeName with
  | none => exact Cleans.done s
  | some c =>
    simp only
    cases ho : c.GetCacheObjectForId objId with
    | none => exact Cleans.done s
    | some o =>
      simp only
      split_ifs
      · exact CFileCache.ExpireIn_cleans env s typeName objId
      · exact CFileCacheSet.ExpireCacheObject_cleans env s objId

theorem CFileCache.CleanupDirType_cleans (env : Env) (s : CFileCacheSet) (typeName : List Char) :
    Cleans env s (CFileCache.CleanupDirType env s typeName) := by
  unfold CFileCache.CleanupDirType
  cases hc : s.GetFileCacheForType typeName with
  | none => exact Cleans.done s
  | some c => exact Cleans.foldl _ (CFileCache.CleanupDirType_step_cleans env typeName) _ s

theorem CFileCacheSet.CleanupOrphans_cleans (env : Env) (s : CFileCacheSet) :
    Cleans env s (s.CleanupOrphans env) :=
  Cleans.foldl _ (CFileCache.CleanupOrphanedObjects_cleans env) _ s

theorem CFileCacheSet.CleanupDirTypes_cleans (env : Env) (s : CFileCacheSet) :
    Cleans env s (s.CleanupDirTypes env) := by
  unfold CFileCacheSet.CleanupDirTypes
  apply Cleans.foldl
  intro a typeName
  cases hc : a.GetFileCacheForType typeName with
  | none => exact Cleans.done a
  | some c =>
    simp only
    split_ifs
    · exact CFileCache.CleanupDirType_cleans env a typeName
    · exact Cleans.done a

/-! ## Invariants of the expiry machinery -/

theorem SetAccounted.find {s : CFileCacheSet} (h : SetAccounted s) {typeName : List Char}
    {c : CFileCache} (hc : s.GetFileCacheForType typeName = some c) : CacheAccounted c :=
  h (typeName, c) (AMap.mem_of_find _ _ _ hc)

theorem SetAccounted.replace_cache {s s1 : CFileCacheSet} (h : SetAccounted s) (typeName : List Char)
    (c1 : CFileCache) (hc1 : CacheAccounted c1)
    (hs : s1.m_cacheSet = AMap.replace s.m_cacheSet typeName c1) : SetAccounted s1 := by
  intro p hp
  rw [hs] at hp
  rcases AMap.mem_replace _ _ _ _ hp with hm | hv
  · exact h p hm
  · rw [hv]; exact hc1

theorem CFileCache.ExpireIn_cacheSet (env : Env) (s : CFileCacheSet) (typeName : List Char)
    (objId : Nat) (c : CFileCache) (hc : s.GetFileCacheForType typeName = some c) :
    (CFileCache.ExpireIn env s typeName objId).1.m_cacheSet =
        AMap.replace s.m_cacheSet typeName (c.Expire env s.m_baseDirName objId).1 ∧
      (CFileCache.ExpireIn env s typeName objId).1.fsRemoved =
        s.fsRemoved ++ (c.Expire env s.m_baseDirName objId).2.2.map (fun i => (typeName, i)) ∧
      (CFileCache.ExpireIn env s typeName objId).2 = (c.Expire env s.m_baseDirName objId).2.1 := by
  unfold CFileCache.ExpireIn
  rw [hc]
  exact ⟨rfl, rfl, rfl⟩

theorem CFileCache.ExpireIn_none (env : Env) (s : CFileCacheSet) (typeName : List Char)
    (objId : Nat) (hc : s.GetFileCacheForType typeName = none) :
    CFileCache.ExpireIn env s typeName objId = (s, true) := by
  unfold CFileCache.ExpireIn
  rw [hc]

theorem CFileCache.ExpireIn_accounted (env : Env) (s : CFileCacheSet) (typeName : List Char)
    (objId : Nat) (h : SetAccounted s) :
    SetAccounted (CFileCache.ExpireIn env s typeName objId).1 := by
  cases hc : s.GetFileCacheForType typeName with
  | none => rw [CFileCache.ExpireIn_none env s typeName objId hc]; exact h
  | some c =>
    exact h.replace_cache typeName _ (CFileCache.Expire_accounted env _ c objId (h.find hc))
      (CFileCache.ExpireIn_cacheSet env s typeName objId c hc).1

theorem Cleans.setAccounted {env : Env} {s s1 : CFileCacheSet} (hcl : Cleans env s s1)
    (h : SetAccounted s) : SetAccounted s1 := by
  induction hcl with
  | done s => exact h
  | unmap s s1 objId _ ih => exact ih h
  | expire s s1 typeName objId _ ih =>
    exact ih (CFileCache.ExpireIn_accounted env s typeName objId h)
  | relist s s1 typeName c l hc _ ih =>
    exact ih (h.replace_cache typeName { c with m_cacheList := l } ((h.find hc).of_eq rfl rfl) rfl)

theorem SizesFrom.self (s : CFileCacheSet) : SizesFrom s s :=
  fun _ c1 _ o1 hc ho => ⟨c1, o1, hc, ho, rfl⟩

theorem SizesFrom.comp {s s1 s2 : CFileCacheSet} (h1 : SizesFrom s s1) (h2 : SizesFrom s1 s2) :
    SizesFrom s s2 := by
  intro t c2 i o2 hc ho
  obtain ⟨c1, o1, hc1, ho1, e1⟩ := h2 t c2 i o2 hc ho
  obtain ⟨c, o, hc0, ho0, e0⟩ := h1 t c1 i o1 hc1 ho1
  exact ⟨c, o, hc0, ho0, e1.trans e0⟩

theorem CFileCacheSet.find_replace_cache (s : CFileCacheSet) (typeName t : List Char)
    (c1 : CFileCache) (m : List (List Char × CFileCache))
    (hm : m = AMap.replace s.m_cacheSet typeName c1) :
    AMap.find m t =
      if t = typeName then (s.GetFileCacheForType typeName).map (fun _ => c1)
      else s.GetFileCacheForType t := by
  rw [hm, AMap.find_replace]; rfl

theorem CFileCache.Expire_find (env : Env) (b : List Char) (c : CFileCache) (objId i : Nat)
    (o1 : CCacheObject) (h : (c.Expire env b objId).1.GetCacheObjectForId i = some o1) :
    ∃ o, c.GetCacheObjectForId i = some o ∧
      (i ≠ objId → o1 = o) ∧ (i = objId → o1 = (o.Expire env b c.m_cacheType).1) := by
  cases hf : c.GetCacheObjectForId objId with
  | none =>
    rw [CFileCache.Expire_none env b c objId hf] at h
    exact ⟨o1, h, fun _ => rfl, fun e => by rw [e, hf] at h; exact Option.noConfusion h⟩
  | some o =>
    obtain ⟨l, ⟨_, _, h3⟩ | ⟨_, _, h3⟩⟩ := CFileCache.Expire_fst env b c objId o hf
    · rw [h3] at h
      simp only [CFileCache.GetCacheObjectForId, AMap.find_erase] at h
      by_cases e : i = objId
      · simp [e] at h
      · rw [if_neg e] at h
        exact ⟨o1, h, fun _ => rfl, fun e1 => absurd e1 e⟩
    · rw [h3] at h
      simp only [CFileCache.GetCacheObjectForId, AMap.find_replace] at h
      by_cases e : i = objId
      · subst e
        have hf1 : AMap.find c.m_cachedObjects i = some o := hf
        rw [if_pos rfl, hf1] at h
        exact ⟨o, hf, fun ne => absurd rfl ne, fun _ => by simpa using h.symm⟩
      · rw [if_neg e] at h
        exact ⟨o1, h, fun _ => rfl, fun e1 => absurd e1 e⟩

theorem CFileCache.ExpireIn_sizesFrom (env : Env) (s : CFileCacheSet) (typeName : List Char)
    (objId : Nat) : SizesFrom s (CFileCache.ExpireIn env s typeName objId).1 := by
  cases hc : s.GetFileCacheForType typeName with
  | none => rw [CFileCache.ExpireIn_none env s typeName objId hc]; exact SizesFrom.self s
  | some c =>
    intro t c1 i o1 hc1 ho1
    have hset := (CFileCache.ExpireIn_cacheSet env s typeName objId c hc).1
    unfold CFileCacheSet.GetFileCacheForType at hc1
    rw [CFileCacheSet.find_replace_cache s typeName t _ _ hset] at hc1
    by_cases ht : t = typeName
    · subst ht
      rw [if_pos rfl, hc] at hc1
      have hc1' : (c.Expire env s.m_baseDirName objId).1 = c1 := by simpa using hc1
      rw [← hc1'] at ho1
      obtain ⟨o, ho, hne, heq⟩ := CFileCache.Expire_find env _ c objId i o1 ho1
      refine ⟨c, o, hc, ho, ?_⟩
      by_cases e : i = objId
      · rw [heq e, CCacheObject.Expire_size]
      · rw [hne e]
    · rw [if_neg ht] at hc1
      exact ⟨c1, o1, hc1, ho1, rfl⟩

theorem CFileCacheSet.setCache_relist_find (s : CFileCacheSet) (typeName : List Char)
    (c : CFileCache) (l : List Nat) (hc : s.GetFileCacheForType typeName = some c)
    (t : List Char) (c1 : CFileCache)
    (h : (s.setCache typeName { c with m_cacheList := l }).GetFileCacheForType t = some c1) :
    ∃ c0, s.GetFileCacheForType t = some c0 ∧ c1.m_cachedObjects = c0.m_cachedObjects ∧
      c1.m_cacheSize = c0.m_cacheSize := by
  unfold CFileCacheSet.GetFileCacheForType CFileCacheSet.setCache at h
  rw [CFileCacheSet.find_replace_cache s typeName t _ _ rfl] at h
  by_cases ht : t = typeName
  · subst ht
    rw [if_pos rfl, hc] at h
    have : c1 = { c with m_cacheList := l } := by simpa using h.symm
    exact ⟨c, hc, by rw [this], by rw [this]⟩
  · rw [if_neg ht] at h
    exact ⟨c1, h, rfl, rfl⟩

theorem Cleans.sizesFrom {env : Env} {s s1 : CFileCacheSet} (hcl : Cleans env s s1) :
    SizesFrom s s1 := by
  induction hcl with
  | done s => exact SizesFrom.self s
  | unmap s s1 objId _ ih =>
    exact SizesFrom.comp (fun _ c1 _ o1 hc ho => ⟨c1, o1, hc, ho, rfl⟩) ih
  | expire s s1 typeName objId _ ih =>
    exact SizesFrom.comp (CFileCache.ExpireIn_sizesFrom env s typeName objId) ih
  | relist s s1 typeName c l hc _ ih =>
    refine SizesFrom.comp ?_ ih
    intro t c1 i o1 hc1 ho1
    obtain ⟨c0, h0, hobj, _⟩ := CFileCacheSet.setCache_relist_find s typeName c l hc t c1 hc1
    refine ⟨c0, o1, h0, ?_, rfl⟩
    unfold CFileCache.GetCacheObjectForId at ho1 ⊢
    rw [← hobj]; exact ho1

/-! ## Claim C5: size accounting -/

theorem CFileCache.Resize_accounted (env : Env) (s : CFileCacheSet) (typeName : List Char)
    (objId : Nat) (newSize : Int) (s1 : CFileCacheSet) (finalSize : Int)
    (h : CFileCache.Resize env s typeName objId newSize = some (s1, finalSize))
    (hacc : SetAccounted s) : SetAccounted s1 := by
  unfold CFileCache.Resize at h
  cases hc : s.GetFileCacheForType typeName with
  | none =>
    rw [hc] at h
    simp only [Option.some.injEq, Prod.mk.injEq] at h
    rw [← h.1]; exact hacc
  | some c =>
    rw [hc] at h
    simp only at h
    cases ho : c.GetCacheObjectForId objId with
    | none =>
      rw [ho] at h
      simp only [Option.some.injEq, Prod.mk.injEq] at h
      rw [← h.1]; exact hacc
    | some o =>
      rw [ho] at h
      simp only at h
      have hcl : Cleans env s
          (if (!CFileCache.CheckForSize s typeName
              (GetFilesystemFileSize newSize - GetFilesystemFileSize o.m_size)) = true
            then CFileCache.Cleanup env s typeName
              (GetFilesystemFileSize newSize - GetFilesystemFileSize o.m_size)
            else s) := by
        split_ifs
        · exact CFileCache.Cleanup_cleans env s typeName _
        · exact Cleans.done s
      generalize (if (!CFileCache.CheckForSize s typeName
              (GetFilesystemFileSize newSize - GetFilesystemFileSize o.m_size)) = true
            then CFileCache.Cleanup env s typeName
              (GetFilesystemFileSize newSize - GetFilesystemFileSize o.m_size)
            else s) = sC at h hcl
      have haccC : SetAccounted sC := hcl.setAccounted hacc
      by_cases hchk : CFileCache.CheckForSize sC typeName
          (GetFilesystemFileSize newSize - GetFilesystemFileSize o.m_size) = true
      · rw [if_pos hchk] at h
        cases hc1 : sC.GetFileCacheForType typeName with
        | none => rw [hc1] at h; exact Option.noConfusion h
        | some c1 =>
          rw [hc1] at h
          simp only at h
          cases ho1 : c1.GetCacheObjectForId objId with
          | none => rw [ho1] at h; exact Option.noConfusion h
          | some o1 =>
            rw [ho1] at h
            simp only [Option.some.injEq, Prod.mk.injEq] at h
            obtain ⟨c0, o0, hc0, ho0, hsz⟩ := hcl.sizesFrom typeName c1 objId o1 hc1 ho1
            rw [hc] at hc0
            have ec : c0 = c := by simpa using hc0.symm
            subst ec
            rw [ho] at ho0
            have eo : o0 = o := by simpa using ho0.symm
            subst eo
            have hres := CCacheObject.Resize_result env sC.m_baseDirName typeName o1 newSize
            have hc1acc : CacheAccounted c1 := haccC.find hc1
            rw [← h.1]
            refine haccC.replace_cache typeName _ ?_ rfl
            split_ifs with hne
            · have hb := hc1acc.replace_object objId o1
                (o1.Resize env sC.m_baseDirName typeName newSize).1 ho1
                { c1 with
                  m_cachedObjects := (AMap.replace c1.m_cachedObjects objId
                    (o1.Resize env sC.m_baseDirName typeName newSize).1)
                  m_cacheSize := c1.m_cacheSize +
                    (GetFilesystemFileSize (o1.Resize env sC.m_baseDirName typeName newSize).2 -
                      GetFilesystemFileSize o0.m_size) } rfl (by simp only [hres, hsz])
              exact hb.of_eq (CFileCache.UpdateObject_objects _ _).1
                (CFileCache.UpdateObject_objects _ _).2
            · have hs : (o1.Resize env sC.m_baseDirName typeName newSize).1.m_size = o1.m_size := by
                rw [← hres, hsz]
                by_contra hcon; exact hne hcon
              exact hc1acc.replace_same objId o1 _ ho1 hs _ rfl rfl
      · rw [if_neg hchk] at h
        simp only [Option.some.injEq, Prod.mk.injEq] at h
        rw [← h.1]; exact haccC

theorem TypeStep.stepAccounted {s s1 : CFileCacheSet} (hstep : TypeStep s s1)
    (h : SetAccounted s) : SetAccounted s1 := by
  cases hstep with
  | insert _ typeName c newObj hc hfresh =>
    unfold CFileCache.InsertIn
    rw [hc]
    exact h.replace_cache typeName _ (CFileCache.Insert_accounted c newObj hfresh (h.find hc)) rfl
  | resize env _ typeName objId newSize _ finalSize hr =>
    exact CFileCache.Resize_accounted env s typeName objId newSize s1 finalSize hr h
  | subscribe env _ typeName msgText objId =>
    unfold CFileCache.SubscribeIn
    cases hc : s.GetFileCacheForType typeName with
    | none => exact h
    | some c =>
      exact h.replace_cache typeName _ (CFileCache.Subscribe_accounted env _ msgText c objId (h.find hc)) rfl
  | unsubscribe env _ typeName objId =>
    unfold CFileCache.UnSubscribe
    cases hc : s.GetFileCacheForType typeName with
    | none => exact h
    | some c =>
      simp only
      refine @SetAccounted.replace_cache (if (c.UnSubscribeLocal env s.m_baseDirName objId).2 = true
        then s.RemoveObjectFromIdMap objId else s) _ ?_ typeName _
        (CFileCache.UnSubscribeLocal_accounted env _ c objId (h.find hc)) rfl
      split_ifs
      · exact h
      · exact h
  | touch env _ typeName objId =>
    unfold CFileCache.TouchIn
    cases hc : s.GetFileCacheForType typeName with
    | none => exact h
    | some c =>
      exact h.replace_cache typeName _ (CFileCache.Touch_accounted env c objId (h.find hc)) rfl
  | expire env _ typeName objId => exact CFileCache.ExpireIn_accounted env s typeName objId h
  | cleanupOrphanedObjects env _ typeName =>
    exact (CFileCache.CleanupOrphanedObjects_cleans env s typeName).setAccounted h
  | cleanupDirType env _ typeName =>
    exact (CFileCache.CleanupDirType_cleans env s typeName).setAccounted h

theorem TypeReachable.accounted {s : CFileCacheSet} (hr : TypeReachable s) : SetAccounted s := by
  induction hr with
  | init s hempty =>
    intro p hp
    obtain ⟨h1, _, h3, _⟩ := hempty p hp
    unfold CacheAccounted
    rw [h1, h3]
    exact ⟨List.nodup_nil, rfl⟩
  | step s s1 _ hstep ih => exact hstep.stepAccounted ih

/-- Size accounting: in every state reachable from a set of empty types
through `Insert` (of an object whose id is not yet a key of the object map),
`Subscribe`, `UnSubscribe`, `Touch`, `Expire`, `CleanupOrphanedObjects`,
`CleanupDirType` and those calls of `Resize` that have a result (the object is
still in the map when `Resize` uses its pointer), with arbitrary outcomes of
the filesystem calls, the `m_cacheSize` of every type equals the sum of
`GetFilesystemFileSize(o.size)` over the objects in the object map of the
type. -/
theorem size_accounting_invariant (s : CFileCacheSet) (hr : TypeReachable s)
    (typeName : List Char) (c : CFileCache) (hc : s.GetFileCacheForType typeName = some c) :
    c.m_cacheSize = (c.m_cachedObjects.map (fun p => GetFilesystemFileSize p.2.m_size)).sum :=
  (hr.accounted.find hc).2

/-! ## Claim C7: pinning -/

theorem KeepsPinned.of_pinned {s : CFileCacheSet} {typeName : List Char} {objId : Nat}
    (h : Pinned s typeName objId) : KeepsPinned s s typeName objId :=
  ⟨h, [], by simp, by simp⟩

theorem KeepsPinned.andThen {s s1 s2 : CFileCacheSet} {typeName : List Char} {objId : Nat}
    (h1 : KeepsPinned s s1 typeName objId) (h2 : KeepsPinned s1 s2 typeName objId) :
    KeepsPinned s s2 typeName objId := by
  obtain ⟨_, l1, e1, n1⟩ := h1
  obtain ⟨p2, l2, e2, n2⟩ := h2
  refine ⟨p2, l1 ++ l2, by rw [e2, e1, List.append_assoc], ?_⟩
  simp only [List.mem_append, not_or]
  exact ⟨n1, n2⟩

theorem CCacheObject.Expire_subscribed (env : Env) (b t : List Char) (o : CCacheObject)
    (h : o.m_subscriptionCount > 0) :
    o.Expire env b t = ({ o with m_expired := true }, false, false) := by
  unfold CCacheObject.Expire
  simp only [h, if_true]

theorem CFileCache.Expire_pinned (env : Env) (b : List Char) (c : CFileCache) (objId : Nat)
    (o : CCacheObject) (hf : c.GetCacheObjectForId objId = some o)
    (h : o.m_subscriptionCount > 0) :
    (c.Expire env b objId).2.1 = false ∧ (c.Expire env b objId).2.2 = [] ∧
      (c.Expire env b objId).1.GetCacheObjectForId objId = some { o with m_expired := true } := by
  have hexp := CCacheObject.Expire_subscribed env b c.m_cacheType o h
  obtain ⟨l, ⟨h1, _, _⟩ | ⟨_, h2, h3⟩⟩ := CFileCache.Expire_fst env b c objId o hf
  · rw [hexp] at h1; exact absurd h1 (by simp)
  · refine ⟨h2, ?_, ?_⟩
    · unfold CFileCache.Expire
      rw [hf]
      simp only [hexp, Bool.false_eq_true, if_false]
    · rw [h3, hexp]
      exact AMap.find_replace_self _ _ _ _ hf

theorem CFileCache.Expire_log (env : Env) (b : List Char) (c : CFileCache) (objId : Nat) :
    ∀ i ∈ (c.Expire env b objId).2.2, i = objId := by
  unfold CFileCache.Expire
  cases hf : c.GetCacheObjectForId objId with
  | none => simp
  | some o =>
    simp only
    intro i hi
    split_ifs at hi <;> simp at hi <;> exact hi

theorem CFileCache.ExpireIn_keeps (env : Env) (s : CFileCacheSet) (t : List Char) (x : Nat)
    (typeName : List Char) (objId : Nat) (h : Pinned s typeName objId) :
    KeepsPinned s (CFileCache.ExpireIn env s t x).1 typeName objId := by
  cases hc0 : s.GetFileCacheForType t with
  | none => rw [CFileCache.ExpireIn_none env s t x hc0]; exact KeepsPinned.of_pinned h
  | some c0 =>
    obtain ⟨hset, hlog, _⟩ := CFileCache.ExpireIn_cacheSet env s t x c0 hc0
    obtain ⟨c, o, hc, ho, hcount⟩ := h
    have hfind := CFileCacheSet.find_replace_cache s t typeName _ _ hset
    by_cases ht : typeName = t
    · subst ht
      rw [hc] at hc0
      have ec : c0 = c := by simpa using hc0.symm
      subst ec
      rw [if_pos rfl, hc] at hfind
      by_cases hx : x = objId
      · subst hx
        obtain ⟨_, h2, h3⟩ := CFileCache.Expire_pinned env s.m_baseDirName c0 x o ho hcount
        refine ⟨⟨_, _, hfind, h3, hcount⟩, [], ?_, by simp⟩
        rw [hlog, h2]; rfl
      · refine ⟨⟨_, o, hfind, ?_, hcount⟩, _, hlog, ?_⟩
        · cases hfx : c0.GetCacheObjectForId x with
          | none => rw [CFileCache.Expire_none env _ c0 x hfx]; exact ho
          | some ox =>
            have hne : objId ≠ x := fun e => hx e.symm
            obtain ⟨l, ⟨_, _, h3⟩ | ⟨_, _, h3⟩⟩ :=
              CFileCache.Expire_fst env s.m_baseDirName c0 x ox hfx
            · rw [h3]
              simp only [CFileCache.GetCacheObjectForId, AMap.find_erase, if_neg hne]
              exact ho
            · rw [h3]
              simp only [CFileCache.GetCacheObjectForId, AMap.find_replace, if_neg hne]
              exact ho
        · intro hmem
          simp only [List.mem_map, Prod.mk.injEq] at hmem
          obtain ⟨i, hi, _, e⟩ := hmem
          exact hx ((CFileCache.Expire_log env _ c0 x i hi).symm.trans e)
    · rw [if_neg ht] at hfind
      refine ⟨⟨c, o, hfind.trans hc, ho, hcount⟩, _, hlog, ?_⟩
      intro hmem
      simp only [List.mem_map, Prod.mk.injEq] at hmem
      obtain ⟨i, _, e, _⟩ := hmem
      exact ht e.symm

theorem Cleans.keepsPinned {env : Env} {s s1 : CFileCacheSet} (hcl : Cleans env s s1)
    (typeName : List Char) (objId : Nat) (h : Pinned s typeName objId) :
    KeepsPinned s s1 typeName objId := by
  induction hcl with
  | done s => exact KeepsPinned.of_pinned h
  | unmap s s1 x _ ih =>
    have h1 : KeepsPinned s (s.RemoveObjectFromIdMap x) typeName objId := KeepsPinned.of_pinned h
    exact h1.andThen (ih h1.1)
  | expire s s1 t x _ ih =>
    have h1 := CFileCache.ExpireIn_keeps env s t x typeName objId h
    exact h1.andThen (ih h1.1)
  | relist s s1 t c l hc _ ih =>
    have h1 : KeepsPinned s (s.setCache t { c with m_cacheList := l }) typeName objId := by
      obtain ⟨c0, o, hc0, ho, hcount⟩ := h
      have hfind := CFileCacheSet.find_replace_cache s t typeName { c with m_cacheList := l } _ rfl
      refine ⟨?_, [], by simp [CFileCacheSet.setCache], by simp⟩
      by_cases ht : typeName = t
      · subst ht
        rw [if_pos rfl, hc] at hfind
        rw [hc] at hc0
        have ec : c0 = c := by simpa using hc0.symm
        subst ec
        exact ⟨_, o, hfind, ho, hcount⟩
      · rw [if_neg ht] at hfind
        exact ⟨c0, o, hfind.trans hc0, ho, hcount⟩
    exact h1.andThen (ih h1.1)

theorem CFileCache.isCleanable_pinned (c : CFileCache) (objId : Nat) (o : CCacheObject)
    (hf : c.GetCacheObjectForId objId = some o) (h : o.m_subscriptionCount > 0) :
    c.isCleanable = false := by
  unfold CFileCache.isCleanable
  rw [Bool.eq_false_iff]
  intro hall
  rw [List.all_eq_true] at hall
  have := hall (objId, o) (AMap.mem_of_find _ _ _ hf)
  simp [h] at this

theorem CFileCacheSet.DeleteType_keeps (env : Env) (s : CFileCacheSet) (t : List Char)
    (typeName : List Char) (objId : Nat) (h : Pinned s typeName objId) :
    KeepsPinned s (s.DeleteType env t).1 typeName objId := by
  unfold CFileCacheSet.DeleteType
  cases hc0 : s.GetFileCacheForType t with
  | none => exact KeepsPinned.of_pinned h
  | some c0 =>
    simp only
    by_cases hcl : c0.isCleanable = true
    · rw [if_pos hcl]
      have hne : typeName ≠ t := by
        intro e
        subst e
        obtain ⟨c, o, hc, ho, hcount⟩ := h
        rw [hc] at hc0
        have ec : c0 = c := by simpa using hc0.symm
        subst ec
        rw [CFileCache.isCleanable_pinned c0 objId o ho hcount] at hcl
        exact Bool.noConfusion hcl
      have hk := (@Cleans.foldl env Nat
        (fun acc objId => (CFileCacheSet.ExpireCacheObject env acc objId).1)
        (fun a x => CFileCacheSet.ExpireCacheObject_cleans env a x)
        c0.GetCachedObjects.reverse s).keepsPinned typeName objId h
      obtain ⟨⟨c, o, hc, ho, hcount⟩, l, hl, hn⟩ := hk
      refine ⟨⟨c, o, ?_, ho, hcount⟩, l, hl, hn⟩
      simp only [CFileCacheSet.GetFileCacheForType, AMap.find_erase, if_neg hne]
      exact hc
    · rw [if_neg hcl]
      exact KeepsPinned.of_pinned h

/-! ## Claims C5 (instance) to C10 -/

/-- Size accounting, an instance: after `Insert` of the object 1 (123 bytes)
into the empty type `type`, the size of the type is
`GetFilesystemFileSize(123)`, the sum over its single object. -/
theorem size_accounting_invariant_witness :
    TypeReachable (CFileCache.InsertIn sampleSet "type".toList sampleObject) ∧
    (CFileCache.InsertIn sampleSet "type".toList sampleObject).GetFileCacheForType "type".toList =
      some (sampleType.Insert sampleObject).1 ∧
    (sampleType.Insert sampleObject).1.m_cacheSize =
      ((sampleType.Insert sampleObject).1.m_cachedObjects.map
        (fun p => GetFilesystemFileSize p.2.m_size)).sum :=
  have hr : TypeReachable (CFileCache.InsertIn sampleSet "type".toList sampleObject) :=
    TypeReachable.step sampleSet _
      (TypeReachable.init sampleSet (by
        intro p hp
        have : p = ("type".toList, sampleType) := by simpa [sampleSet] using hp
        subst this
        exact ⟨rfl, rfl, rfl, rfl⟩))
      (TypeStep.insert sampleSet "type".toList sampleType sampleObject (by decide) (by decide))
  ⟨hr, by decide,
    size_accounting_invariant _ hr "type".toList (sampleType.Insert sampleObject).1 (by decide)⟩

/-- C5, the failing run: the state after `InsertCacheObject` of the object 1
is reachable; there `Resize(1, 17000)` needs 16384 bytes, the admission test
fails, `Cleanup` pops the id 1 and deletes the unsubscribed object, the second
test passes, and the function goes on to use `cachedObject`: the object map of
the type has no object 1 any more, and the call has no defined result. -/
theorem Resize_uses_deleted_object :
    TypeReachable sampleInserted ∧
    CFileCache.CheckForSize sampleInserted "type".toList 16384 = false ∧
    ((CFileCache.Cleanup sampleEnv sampleInserted "type".toList 16384).GetFileCacheForType
        "type".toList).bind (fun c => c.GetCacheObjectForId 1) = none ∧
    CFileCache.CheckForSize (CFileCache.Cleanup sampleEnv sampleInserted "type".toList 16384)
      "type".toList 16384 = true ∧
    CFileCache.Resize sampleEnv sampleInserted "type".toList 1 17000 = none ∧
    sampleInserted.Resize sampleEnv 1 17000 = none := by
  refine ⟨?_, by decide, by decide, by decide, by decide, by decide⟩
  have hr : TypeReachable { sampleSet with m_idMap := [(1, "type".toList)] } :=
    TypeReachable.init _ (by
      intro p hp
      have : p = ("type".toList, sampleType) := by simpa [sampleSet] using hp
      subst this
      exact ⟨rfl, rfl, rfl, rfl⟩)
  have hs : sampleInserted =
      CFileCache.InsertIn { sampleSet with m_idMap := [(1, "type".toList)] } "type".toList
        sampleObject := by decide
  rw [hs]
  exact TypeReachable.step _ _ hr
    (TypeStep.insert _ "type".toList sampleType sampleObject (by decide) (by decide))

/-- C6.  Subscription exclusivity in the write window: for a non-expired
object `o1` with `written = false` and `subscriptionCount = 1`, `Subscribe`
returns the empty path, sets the reason text to "Failed, only one writer
allowed" and leaves the subscription count at 1; for a non-expired object `o2`
with `written = true` (and a valid, nonzero id, the alphabet having 64 symbols
without the blank) `Subscribe` returns the path of the object and increments
the subscription count by one. -/
theorem subscribe_exclusive (env : Env) (baseDirName typeName msgText : List Char)
    (o1 o2 : CCacheObject)
    (h1e : o1.m_expired = false) (h1w : o1.m_written = false)
    (h1c : o1.m_subscriptionCount = 1)
    (h2e : o2.m_expired = false) (h2w : o2.m_written = true) (h2id : o2.m_id ≠ 0)
    (hlen : env.charMapping.length = 64) (hblank : ' ' ∉ env.charMapping) :
    ((o1.Subscribe env baseDirName typeName msgText).2.1 = [] ∧
      "only one writer allowed".toList <:+:
        (o1.Subscribe env baseDirName typeName msgText).2.2 ∧
      (o1.Subscribe env baseDirName typeName msgText).1.m_subscriptionCount = 1) ∧
    ((o2.Subscribe env baseDirName typeName msgText).2.1 =
        o2.GetPathname env baseDirName typeName false ∧
      (o2.Subscribe env baseDirName typeName msgText).2.1 ≠ [] ∧
      (o2.Subscribe env baseDirName typeName msgText).1.m_subscriptionCount =
        o2.m_subscriptionCount + 1) := by
  constructor
  · have hsub : o1.Subscribe env baseDirName typeName msgText =
        (o1.UpdateAccessTime env, [], CCacheObject.onlyOneWriterText) := by
      unfold CCacheObject.Subscribe
      simp [h1e, h1w, h1c]
    rw [hsub]
    have htext : "Failed, ".toList ++ "only one writer allowed".toList ++ [] =
        CCacheObject.onlyOneWriterText := by decide
    exact ⟨rfl, ⟨"Failed, ".toList, [], htext⟩, h1c⟩
  · have hpath : o2.GetPathname env baseDirName typeName false ≠ [] := by
      unfold CCacheObject.GetPathname
      exact ((buildPathname_shape env.charMapping hlen hblank _ o2.m_id baseDirName
        typeName o2.m_filename) h2id).2
    have hne : (o2.GetPathname env baseDirName typeName false).isEmpty = false := by
      cases h : o2.GetPathname env baseDirName typeName false with
      | nil => exact absurd h hpath
      | cons _ _ => rfl
    have hsub : o2.Subscribe env baseDirName typeName msgText =
        (({ o2 with m_subscriptionCount := o2.m_subscriptionCount + 1 }).UpdateAccessTime env,
          o2.GetPathname env baseDirName typeName false, msgText) := by
      unfold CCacheObject.Subscribe
      simp [h2e, h2w, hne]
    rw [hsub]
    exact ⟨rfl, hpath, rfl⟩

/-- C6, an instance: the new object 1 after its first subscription, and the
same object once written. -/
theorem subscribe_exclusive_witness :
    (({ sampleObject with m_subscriptionCount := 1 } : CCacheObject).Subscribe sampleEnv
        "/tmp/test".toList "type".toList []).2.1 = [] ∧
    ((({ sampleObject with m_written := true } : CCacheObject).Subscribe sampleEnv
        "/tmp/test".toList "type".toList []).1.m_subscriptionCount = 0 + 1) :=
  have h := subscribe_exclusive sampleEnv "/tmp/test".toList "type".toList []
    { sampleObject with m_subscriptionCount := 1 } { sampleObject with m_written := true }
    (by decide) (by decide) (by decide) (by decide) (by decide) (by decide) (by decide)
    (by decide)
  ⟨h.1.1, h.2.2.2⟩

/-- C7.  Pinning: while the object `objId` of the type `typeName` has a
subscription count above 0, none of `ExpireCacheObject`, `CFileCache::Expire`,
`CleanupCache`, `Cleanup`, `CleanupAllTypes`, `CleanupOrphans`,
`CleanupDirTypes` and `DeleteType` (with any arguments and any outcomes of the
system calls) removes it from the object map of its type or hands its backing
file to `::unlink` or `CleanupDir`; `Expire` on the object returns false (in
`CCacheObject`, in `CFileCache`, and in `ExpireCacheObject` when the id map
names its type), and `DeleteType` of its type returns -1 and leaves the state
as it is. -/
theorem pinning (env : Env) (s : CFileCacheSet) (typeName : List Char) (objId : Nat)
    (c : CFileCache) (o : CCacheObject)
    (hc : s.GetFileCacheForType typeName = some c)
    (ho : c.GetCacheObjectForId objId = some o)
    (hcount : o.m_subscriptionCount > 0) :
    (∀ x, KeepsPinned s (s.ExpireCacheObject env x).1 typeName objId) ∧
    (∀ t x, KeepsPinned s (CFileCache.ExpireIn env s t x).1 typeName objId) ∧
    (∀ t, KeepsPinned s (CFileCache.CleanupCache env s t).1 typeName objId) ∧
    (∀ t size, KeepsPinned s (CFileCache.Cleanup env s t size) typeName objId) ∧
    (∀ neededSize, KeepsPinned s (s.CleanupAllTypes env neededSize).1 typeName objId) ∧
    KeepsPinned s (s.CleanupOrphans env) typeName objId ∧
    KeepsPinned s (s.CleanupDirTypes env) typeName objId ∧
    (∀ t, KeepsPinned s (s.DeleteType env t).1 typeName objId) ∧
    (o.Expire env s.m_baseDirName c.m_cacheType).2.1 = false ∧
    (c.Expire env s.m_baseDirName objId).2.1 = false ∧
    (CFileCache.ExpireIn env s typeName objId).2 = false ∧
    (s.GetTypeForObjectId objId = typeName → typeName ≠ [] →
      (s.ExpireCacheObject env objId).2 = false) ∧
    s.DeleteType env typeName = (s, -1) := by
  have hp : Pinned s typeName objId := ⟨c, o, hc, ho, hcount⟩
  have hexp := CFileCache.Expire_pinned env s.m_baseDirName c objId o ho hcount
  have hin : (CFileCache.ExpireIn env s typeName objId).2 = false := by
    rw [(CFileCache.ExpireIn_cacheSet env s typeName objId c hc).2.2]; exact hexp.1
  refine ⟨fun x => (CFileCacheSet.ExpireCacheObject_cleans env s x).keepsPinned _ _ hp,
    fun t x => CFileCache.ExpireIn_keeps env s t x _ _ hp,
    fun t => (CFileCache.CleanupCache_cleans env s t).keepsPinned _ _ hp,
    fun t size => (CFileCache.Cleanup_cleans env s t size).keepsPinned _ _ hp,
    fun n => (CFileCacheSet.CleanupAllTypes_cleans env s n).keepsPinned _ _ hp,
    (CFileCacheSet.CleanupOrphans_cleans env s).keepsPinned _ _ hp,
    (CFileCacheSet.CleanupDirTypes_cleans env s).keepsPinned _ _ hp,
    fun t => CFileCacheSet.DeleteType_keeps env s t _ _ hp, ?_, hexp.1, hin, ?_, ?_⟩
  · rw [CCacheObject.Expire_subscribed env _ _ o hcount]
  · intro hmap hne
    rw [CFileCacheSet.ExpireCacheObject_eq, hmap]
    have hemp : typeName.isEmpty = false := by
      cases typeName with
      | nil => exact absurd rfl hne
      | cons _ _ => rfl
    rw [hemp, hc]
    simp only [Bool.false_eq_true, if_false]
    have hc1 : (s.RemoveObjectFromIdMap objId).GetFileCacheForType typeName = some c := hc
    rw [(CFileCache.ExpireIn_cacheSet env _ typeName objId c hc1).2.2]
    exact hexp.1
  · unfold CFileCacheSet.DeleteType
    rw [hc]
    simp only [CFileCache.isCleanable_pinned c objId o ho hcount, Bool.false_eq_true, if_false]

/-- C7, an instance: the object 1 of the type `type` while its writer is
subscribed. -/
theorem pinning_witness :
    sampleWriting.GetFileCacheForType "type".toList =
      some { sampleType with
        m_numObjects := 1, m_cacheSize := 8192, m_cacheList := [1],
        m_cachedObjects := [(1, { sampleObject with m_subscriptionCount := 1 })] } ∧
    Pinned (sampleWriting.ExpireCacheObject sampleEnv 1).1 "type".toList 1 ∧
    (sampleWriting.ExpireCacheObject sampleEnv 1).1.fsRemoved = [] ∧
    sampleWriting.DeleteType sampleEnv "type".toList = (sampleWriting, -1) :=
  have h := pinning sampleEnv sampleWriting "type".toList 1
    { sampleType with
      m_numObjects := 1, m_cacheSize := 8192, m_cacheList := [1],
      m_cachedObjects := [(1, { sampleObject with m_subscriptionCount := 1 })] }
    { sampleObject with m_subscriptionCount := 1 } (by decide) (by decide) (by decide)
  ⟨by decide, (h.1 1).1, by decide, h.2.2.2.2.2.2.2.2.2.2.2.2⟩

/-- C8, the code on the failing run: the written object 1 is expired while a
reader is subscribed (`ExpireCacheObject` returns false); after the reader,
the last subscriber, has unsubscribed the object is still in the object map
of its type and still counts in `m_cacheSize` and `m_numObjects`; it is
deleted by the next `CleanupOrphans`. -/
theorem deferred_deletion_waits_for_cleanup :
    (sampleReading.ExpireCacheObject sampleEnv 1).2 = false ∧
    ((CFileCache.UnSubscribe sampleEnv sampleReadingExpired "type".toList 1).GetFileCacheForType
        "type".toList).map
      (fun c => ((c.GetCacheObjectForId 1).map
        (fun o => (o.m_subscriptionCount, o.m_expired)), c.m_cacheSize, c.m_numObjects)) =
      some (some (0, true), 8192, 1) ∧
    (((CFileCache.UnSubscribe sampleEnv sampleReadingExpired "type".toList 1).CleanupOrphans
        sampleEnv).GetFileCacheForType "type".toList).map
      (fun c => ((c.GetCacheObjectForId 1).map
        (fun o => (o.m_subscriptionCount, o.m_expired)), c.m_cacheSize, c.m_numObjects)) =
      some (none, 0, 0) := by
  refine ⟨?_, ?_, ?_⟩ <;> decide

/-- C10.  Resize legality on an object: `CCacheObject::Resize(newSize)` sets
the declared size to `newSize` and returns `newSize` when `written = false`,
`subscriptionCount = 1` and the size attribute is persisted; in every other
case it returns the previous size and leaves the object as it was. -/
theorem resize_legality (env : Env) (baseDirName typeName : List Char) (o : CCacheObject)
    (newSize : Int) :
    o.Resize env baseDirName typeName newSize =
      if o.m_written = false ∧ o.m_subscriptionCount = 1 ∧
          CCacheObject.SetSizeAttribute env (o.GetPathname env baseDirName typeName false) true = true
      then ({ o with m_size := newSize }, newSize)
      else (o, o.m_size) := by
  unfold CCacheObject.Resize
  have hpath : ∀ sz : Int, ({ o with m_size := sz } : CCacheObject).GetPathname env baseDirName
      typeName false = o.GetPathname env baseDirName typeName false := fun _ => rfl
  by_cases hw : o.m_written = true
  · simp [hw]
  · by_cases hc : o.m_subscriptionCount = 1
    · by_cases hx : CCacheObject.SetSizeAttribute env
          (o.GetPathname env baseDirName typeName false) true = true
      · simp [hw, hc, hx, hpath]
      · simp [hw, hc, hx, hpath]
        cases o
        simp_all
    · simp [hw, hc]

/-! ## Claim C9: finalising the write window -/

theorem CCacheObject.UnSubscribe_checkSize_count (env : Env) (p : List Char) (o : CCacheObject) :
    (CCacheObject.UnSubscribe.checkSize env p o).1.m_subscriptionCount = o.m_subscriptionCount := by
  unfold CCacheObject.UnSubscribe.checkSize
  split_ifs
  · cases env.statSize p with
    | none => rfl
    | some size => simp only; split_ifs <;> rfl
  · rfl

theorem CCacheObject.UnSubscribe_persist_count (env : Env) (p : List Char)
    (r : CCacheObject × Bool) :
    (CCacheObject.UnSubscribe.persist env p r).1.m_subscriptionCount = r.1.m_subscriptionCount := by
  unfold CCacheObject.UnSubscribe.persist
  simp only
  split_ifs <;> rfl

theorem CCacheObject.UnSubscribe_count (env : Env) (b t : List Char) (o : CCacheObject) :
    (o.UnSubscribe env b t).1.m_subscriptionCount = o.m_subscriptionCount - 1 := by
  unfold CCacheObject.UnSubscribe CCacheObject.UpdateAccessTime
  simp only
  split_ifs <;>
    simp only [CCacheObject.UnSubscribe_persist_count, CCacheObject.UnSubscribe_checkSize_count]

theorem CCacheObject.checkSize_too_large (env : Env) (p : List Char) (o : CCacheObject)
    (r : Int) (hne : p ≠ []) (hstat : env.statSize p = some r) (hr : o.m_size < r) :
    CCacheObject.UnSubscribe.checkSize env p o = (o, false) := by
  have he : p.isEmpty = false := by
    cases p with
    | nil => exact absurd rfl hne
    | cons _ _ => rfl
  unfold CCacheObject.UnSubscribe.checkSize
  simp [he, hstat, hr]

theorem CCacheObject.checkSize_fits (env : Env) (p : List Char) (o : CCacheObject)
    (r : Int) (hne : p ≠ []) (hstat : env.statSize p = some r) (hr : r ≤ o.m_size)
    (hxs : r < o.m_size → CCacheObject.SetSizeAttribute env p true = true) :
    CCacheObject.UnSubscribe.checkSize env p o = ({ o with m_size := r }, true) := by
  have he : p.isEmpty = false := by
    cases p with
    | nil => exact absurd rfl hne
    | cons _ _ => rfl
  have hnot : ¬ o.m_size < r := by omega
  unfold CCacheObject.UnSubscribe.checkSize
  by_cases hlt : r < o.m_size
  · simp [he, hstat, hnot, hlt, hxs hlt]
  · have heq : r = o.m_size := by omega
    subst heq
    simp [he, hstat]

theorem CCacheObject.UnSubscribe_regular (env : Env) (b t : List Char) (o : CCacheObject)
    (hdir : o.m_dirType = false) (hw : o.m_written = false) :
    o.UnSubscribe env b t =
      if (CCacheObject.UnSubscribe.persist env (o.GetPathname env b t false)
          (CCacheObject.UnSubscribe.checkSize env (o.GetPathname env b t false)
            { o with m_subscriptionCount := o.m_subscriptionCount - 1 })).2 = true
      then
        ((CCacheObject.UnSubscribe.persist env (o.GetPathname env b t false)
          (CCacheObject.UnSubscribe.checkSize env (o.GetPathname env b t false)
            { o with m_subscriptionCount := o.m_subscriptionCount - 1 })).1.UpdateAccessTime env,
          false)
      else
        ({ (CCacheObject.UnSubscribe.persist env (o.GetPathname env b t false)
            (CCacheObject.UnSubscribe.checkSize env (o.GetPathname env b t false)
              { o with m_subscriptionCount := o.m_subscriptionCount - 1 })).1 with
            m_expired := true }, true) := by
  obtain ⟨id, size, cost, life, cnt, fn, wr, ex, dt, ct, lat⟩ := o
  simp only at hdir hw
  subst hdir hw
  unfold CCacheObject.UnSubscribe
  simp only [CCacheObject.GetPathname, Bool.false_eq_true, if_false, Bool.not_false, if_true]
  generalize CCacheObject.UnSubscribe.persist env _ _ = X
  cases hX : X.2 <;> simp

theorem CCacheObject.UnSubscribe_too_large (env : Env) (b t : List Char) (o : CCacheObject)
    (r : Int) (hdir : o.m_dirType = false) (hw : o.m_written = false)
    (hpath : o.GetPathname env b t false ≠ [])
    (hstat : env.statSize (o.GetPathname env b t false) = some r) (hr : o.m_size < r) :
    o.UnSubscribe env b t =
      ({ o with m_subscriptionCount := o.m_subscriptionCount - 1, m_expired := true }, true) := by
  rw [CCacheObject.UnSubscribe_regular env b t o hdir hw,
    CCacheObject.checkSize_too_large env _
      { o with m_subscriptionCount := o.m_subscriptionCount - 1 } r hpath hstat hr]
  simp [CCacheObject.UnSubscribe.persist]

theorem CCacheObject.UnSubscribe_finalised (env : Env) (b t : List Char) (o : CCacheObject)
    (r : Int) (hdir : o.m_dirType = false) (hw : o.m_written = false)
    (hpath : o.GetPathname env b t false ≠ [])
    (hstat : env.statSize (o.GetPathname env b t false) = some r) (hr : r ≤ o.m_size)
    (hxs : r < o.m_size →
      CCacheObject.SetSizeAttribute env (o.GetPathname env b t false) true = true)
    (hsync : env.syncOk (o.GetPathname env b t false) = true)
    (hxw : CCacheObject.SetWrittenAttribute env (o.GetPathname env b t false) true = true) :
    o.UnSubscribe env b t =
      ({ o with
          m_subscriptionCount := o.m_subscriptionCount - 1
          m_size := r
          m_written := true
          m_lastAccessTime := env.now }, false) := by
  rw [CCacheObject.UnSubscribe_regular env b t o hdir hw,
    CCacheObject.checkSize_fits env _
      { o with m_subscriptionCount := o.m_subscriptionCount - 1 } r hpath hstat hr hxs]
  simp [CCacheObject.UnSubscribe.persist, hsync, hxw, CCacheObject.UpdateAccessTime]

theorem CFileCache.UnSubscribe_find (env : Env) (s : CFileCacheSet) (typeName : List Char)
    (objId : Nat) (c : CFileCache) (o : CCacheObject)
    (hc : s.GetFileCacheForType typeName = some c)
    (ho : c.GetCacheObjectForId objId = some o) :
    ∃ c1,
      (CFileCache.UnSubscribe env s typeName objId).GetFileCacheForType typeName = some c1 ∧
      c1.GetCacheObjectForId objId = some (o.UnSubscribe env s.m_baseDirName c.m_cacheType).1 ∧
      c1.m_cacheSize = c.m_cacheSize +
        (GetFilesystemFileSize (o.UnSubscribe env s.m_baseDirName c.m_cacheType).1.m_size -
          GetFilesystemFileSize o.m_size) ∧
      c1.m_numObjects = c.m_numObjects ∧
      (CFileCache.UnSubscribe env s typeName objId).m_idMap =
        if (o.UnSubscribe env s.m_baseDirName c.m_cacheType).2 = true
        then AMap.erase s.m_idMap objId else s.m_idMap := by
  have hloc : c.UnSubscribeLocal env s.m_baseDirName objId =
      ((if (o.UnSubscribe env s.m_baseDirName c.m_cacheType).1.m_size ≠ o.m_size then
          { c with
            m_cachedObjects := (AMap.replace c.m_cachedObjects objId
              (o.UnSubscribe env s.m_baseDirName c.m_cacheType).1)
            m_cacheSize := c.m_cacheSize +
              (GetFilesystemFileSize (o.UnSubscribe env s.m_baseDirName c.m_cacheType).1.m_size -
                GetFilesystemFileSize o.m_size) }
        else
          { c with m_cachedObjects := (AMap.replace c.m_cachedObjects objId
              (o.UnSubscribe env s.m_baseDirName c.m_cacheType).1) }).UpdateObject objId,
        (o.UnSubscribe env s.m_baseDirName c.m_cacheType).2) := by
    unfold CFileCache.UnSubscribeLocal
    rw [ho]
  refine ⟨(c.UnSubscribeLocal env s.m_baseDirName objId).1, ?_, ?_, ?_, ?_, ?_⟩
  · unfold CFileCache.UnSubscribe
    rw [hc]
    simp only [CFileCacheSet.GetFileCacheForType, CFileCacheSet.setCache]
    have hfind : ∀ s0 : CFileCacheSet, s0.m_cacheSet = s.m_cacheSet →
        AMap.find (AMap.replace s0.m_cacheSet typeName
          (c.UnSubscribeLocal env s.m_baseDirName objId).1) typeName =
        some (c.UnSubscribeLocal env s.m_baseDirName objId).1 := by
      intro s0 h0
      rw [h0]
      exact AMap.find_replace_self _ _ _ _ hc
    split_ifs
    · exact hfind _ rfl
    · exact hfind _ rfl
  · rw [hloc]
    simp only [CFileCache.GetCacheObjectForId, (CFileCache.UpdateObject_objects _ _).1]
    split_ifs <;> exact AMap.find_replace_self _ _ _ _ ho
  · rw [hloc]
    simp only [(CFileCache.UpdateObject_objects _ _).2]
    split_ifs with hne
    · rfl
    · have : (o.UnSubscribe env s.m_baseDirName c.m_cacheType).1.m_size = o.m_size := by
        by_contra hcon; exact hne hcon
      simp only [this]; omega
  · rw [hloc]
    unfold CFileCache.UpdateObject
    split_ifs <;> rfl
  · unfold CFileCache.UnSubscribe
    rw [hc]
    simp only [hloc, CFileCacheSet.setCache]
    split_ifs <;> rfl

/-- The member `CFileCache::UnSubscribe` deletes nothing: whatever the state of
the object and the outcomes of the system calls, the object is in the object
map of its type afterwards, with one subscription less, and `m_numObjects` is
what it was. -/
theorem CFileCache.UnSubscribe_keeps_object (env : Env) (s : CFileCacheSet)
    (typeName : List Char) (objId : Nat) (c : CFileCache) (o : CCacheObject)
    (hc : s.GetFileCacheForType typeName = some c)
    (ho : c.GetCacheObjectForId objId = some o) :
    ∃ c1 o1,
      (CFileCache.UnSubscribe env s typeName objId).GetFileCacheForType typeName = some c1 ∧
      c1.GetCacheObjectForId objId = some o1 ∧
      o1.m_subscriptionCount = o.m_subscriptionCount - 1 ∧
      c1.m_numObjects = c.m_numObjects := by
  obtain ⟨c1, h1, h2, _, h4, _⟩ := CFileCache.UnSubscribe_find env s typeName objId c o hc ho
  exact ⟨c1, _, h1, h2, CCacheObject.UnSubscribe_count env _ _ o, h4⟩

/-- The write window is closed by `UnSubscribe`: when the single writer of a
regular object (`dirType = false`, `written = false`, `subscriptionCount = 1`,
valid id) unsubscribes and `stat` gives the real size `r` of the backing file
while the declared size is `d`: if `r > d` the object becomes expired, is
removed from `m_idMap` and stays `written = false`; if `r <= d` and the size
attribute (written only when `r < d`), the sync and the written attribute
with its `chmod` succeed, the declared size becomes `r`, `written` becomes
true, `UnSubscribe` does not touch the expired flag (an object that was not
expired is not expired afterwards), `m_idMap` is unchanged, and the
`m_cacheSize` of the type changes by
`GetFilesystemFileSize(r) - GetFilesystemFileSize(d)`. -/
theorem finalise_write_window (env : Env) (s : CFileCacheSet) (typeName : List Char)
    (objId : Nat) (c : CFileCache) (o : CCacheObject) (r : Int)
    (hc : s.GetFileCacheForType typeName = some c)
    (ho : c.GetCacheObjectForId objId = some o)
    (hdir : o.m_dirType = false) (hw : o.m_written = false)
    (hcount : o.m_subscriptionCount = 1) (hid : o.m_id ≠ 0)
    (hlen : env.charMapping.length = 64) (hblank : ' ' ∉ env.charMapping)
    (hstat : env.statSize (o.GetPathname env s.m_baseDirName c.m_cacheType false) = some r) :
    ∃ c1 o1,
      (CFileCache.UnSubscribe env s typeName objId).GetFileCacheForType typeName = some c1 ∧
      c1.GetCacheObjectForId objId = some o1 ∧ o1.m_subscriptionCount = 0 ∧
      (o.m_size < r →
        o1.m_expired = true ∧ o1.m_written = false ∧
        AMap.find (CFileCache.UnSubscribe env s typeName objId).m_idMap objId = none) ∧
      (r ≤ o.m_size →
        (r < o.m_size → CCacheObject.SetSizeAttribute env
          (o.GetPathname env s.m_baseDirName c.m_cacheType false) true = true) →
        env.syncOk (o.GetPathname env s.m_baseDirName c.m_cacheType false) = true →
        CCacheObject.SetWrittenAttribute env
          (o.GetPathname env s.m_baseDirName c.m_cacheType false) true = true →
        o1.m_size = r ∧ o1.m_written = true ∧ o1.m_expired = o.m_expired ∧
        (CFileCache.UnSubscribe env s typeName objId).m_idMap = s.m_idMap ∧
        c1.m_cacheSize = c.m_cacheSize +
          (GetFilesystemFileSize r - GetFilesystemFileSize o.m_size)) := by
  have hpath : o.GetPathname env s.m_baseDirName c.m_cacheType false ≠ [] := by
    unfold CCacheObject.GetPathname
    exact ((buildPathname_shape env.charMapping hlen hblank _ o.m_id s.m_baseDirName
      c.m_cacheType o.m_filename) hid).2
  obtain ⟨c1, h1, h2, h3, _, h5⟩ := CFileCache.UnSubscribe_find env s typeName objId c o hc ho
  refine ⟨c1, _, h1, h2, ?_, ?_, ?_⟩
  · rw [CCacheObject.UnSubscribe_count, hcount]; rfl
  · intro hr
    rw [h5, CCacheObject.UnSubscribe_too_large env _ _ o r hdir hw hpath hstat hr]
    refine ⟨rfl, hw, ?_⟩
    simp only [if_true, AMap.find_erase]
  · intro hr hxs hsync hxw
    rw [h3, h5, CCacheObject.UnSubscribe_finalised env _ _ o r hdir hw hpath hstat hr hxs hsync hxw]
    exact ⟨rfl, rfl, rfl, by simp, rfl⟩

/-- An instance of the closed write window: the writer of the object 1
(declared size 123) has written 4 bytes and unsubscribes. -/
theorem finalise_write_window_witness :
    ∃ c1 o1,
      (CFileCache.UnSubscribe sampleEnv sampleWriting "type".toList 1).GetFileCacheForType
        "type".toList = some c1 ∧
      c1.GetCacheObjectForId 1 = some o1 ∧ o1.m_subscriptionCount = 0 ∧
      o1.m_size = 4 ∧ o1.m_written = true ∧ o1.m_expired = false ∧
      c1.m_cacheSize = 8192 + (GetFilesystemFileSize 4 - GetFilesystemFileSize 123) :=
  have h := finalise_write_window sampleEnv sampleWriting "type".toList 1
    { sampleType with
      m_numObjects := 1, m_cacheSize := 8192, m_cacheList := [1],
      m_cachedObjects := [(1, { sampleObject with m_subscriptionCount := 1 })] }
    { sampleObject with m_subscriptionCount := 1 } 4 (by decide) (by decide) (by decide)
    (by decide) (by decide) (by decide) (by decide) (by decide) (by decide)
  match h with
  | ⟨c1, o1, h1, h2, h3, _, h5⟩ =>
    ⟨c1, o1, h1, h2, h3, (h5 (by decide) (by decide) (by decide) (by decide)).1,
      (h5 (by decide) (by decide) (by decide) (by decide)).2.1,
      (h5 (by decide) (by decide) (by decide) (by decide)).2.2.1,
      (h5 (by decide) (by decide) (by decide) (by decide)).2.2.2.2⟩

/-- When the admission test still fails after `Cleanup`, `CFileCache::Resize`
returns 0 and the state that `Cleanup` has left. -/
theorem CFileCache.Resize_no_space (env : Env) (s : CFileCacheSet) (typeName : List Char)
    (objId : Nat) (newSize : Int) (c : CFileCache) (o : CCacheObject)
    (hc : s.GetFileCacheForType typeName = some c)
    (ho : c.GetCacheObjectForId objId = some o)
    (hno : CFileCache.CheckForSize
      (if CFileCache.CheckForSize s typeName
          (GetFilesystemFileSize newSize - GetFilesystemFileSize o.m_size) = true then s
        else CFileCache.Cleanup env s typeName
          (GetFilesystemFileSize newSize - GetFilesystemFileSize o.m_size))
      typeName (GetFilesystemFileSize newSize - GetFilesystemFileSize o.m_size) = false) :
    CFileCache.Resize env s typeName objId newSize =
      some (if CFileCache.CheckForSize s typeName
          (GetFilesystemFileSize newSize - GetFilesystemFileSize o.m_size) = true then s
        else CFileCache.Cleanup env s typeName
          (GetFilesystemFileSize newSize - GetFilesystemFileSize o.m_size), 0) := by
  unfold CFileCache.Resize
  rw [hc]
  simp only [ho]
  by_cases h1 : CFileCache.CheckForSize s typeName
      (GetFilesystemFileSize newSize - GetFilesystemFileSize o.m_size) = true
  · rw [if_pos h1] at hno
    rw [h1] at hno
    exact Bool.noConfusion hno
  · rw [if_neg h1] at hno
    have h1f : CFileCache.CheckForSize s typeName
        (GetFilesystemFileSize newSize - GetFilesystemFileSize o.m_size) = false := by
      simpa using h1
    simp [h1f, hno]

/-- C11, the code on a failing run: the object 1 has the declared size 123 and
its writer is subscribed; the type holds 8192 of its 24576 bytes.  A resize to
100000 bytes is not admissible, before and after `Cleanup`: both
`CFileCache::Resize` and `CFileCacheSet::Resize` return 0, not the original
size 123; the object keeps the size 123 and the type its cache size 8192. -/
theorem Resize_without_space_returns_zero :
    sampleWriting.CachedObjectSize 1 = 123 ∧
    CFileCache.CheckForSize sampleWriting "type".toList
      (GetFilesystemFileSize 100000 - GetFilesystemFileSize 123) = false ∧
    CFileCache.CheckForSize
      (CFileCache.Cleanup sampleEnv sampleWriting "type".toList
        (GetFilesystemFileSize 100000 - GetFilesystemFileSize 123))
      "type".toList (GetFilesystemFileSize 100000 - GetFilesystemFileSize 123) = false ∧
    CFileCache.Resize sampleEnv sampleWriting "type".toList 1 100000 = some (sampleWriting, 0) ∧
    sampleWriting.Resize sampleEnv 1 100000 = some (sampleWriting, 0) := by
  refine ⟨?_, ?_, ?_, ?_, ?_⟩ <;> decide

/-- C14.  Expire idempotence: for every id that is not in the id map of the
cache set, `ExpireCacheObject(id)` returns true and leaves the whole state of
the cache set as it is. -/
theorem ExpireCacheObject_absent_id (env : Env) (s : CFileCacheSet) (objId : Nat)
    (h : AMap.find s.m_idMap objId = none) :
    s.ExpireCacheObject env objId = (s, true) := by
  unfold CFileCacheSet.ExpireCacheObject CFileCacheSet.GetTypeForObjectId
  rw [h]
  rfl

/-- C14, instances: the id 0 in a set with the object 1, and the id 1 after it
was expired while a reader held it (a second `ExpireCacheObject(1)`). -/
theorem ExpireCacheObject_absent_id_witness :
    AMap.find sampleInserted.m_idMap 0 = none ∧
    sampleInserted.ExpireCacheObject sampleEnv 0 = (sampleInserted, true) ∧
    AMap.find sampleReadingExpired.m_idMap 1 = none ∧
    sampleReadingExpired.ExpireCacheObject sampleEnv 1 = (sampleReadingExpired, true) :=
  ⟨by decide, ExpireCacheObject_absent_id sampleEnv sampleInserted 0 (by decide), by decide,
    by decide⟩

/-! ## Claim C13: admission of inserts -/

theorem CFileCache.ExpireIn_sameFrame (env : Env) (s : CFileCacheSet) (typeName : List Char)
    (objId : Nat) : SameFrame s (CFileCache.ExpireIn env s typeName objId).1 := by
  unfold CFileCache.ExpireIn
  cases hc : s.GetFileCacheForType typeName with
  | none => exact ⟨rfl, rfl, rfl, rfl⟩
  | some c => exact ⟨rfl, rfl, rfl, AMap.keys_replace _ _ _⟩

theorem Cleans.sameFrame {env : Env} {s s1 : CFileCacheSet} (hcl : Cleans env s s1) :
    SameFrame s s1 := by
  induction hcl with
  | done s => exact ⟨rfl, rfl, rfl, rfl⟩
  | unmap s s1 objId _ ih => exact ih
  | expire s s1 typeName objId _ ih =>
    obtain ⟨h1, h2, h3, h4⟩ := CFileCache.ExpireIn_sameFrame env s typeName objId
    obtain ⟨i1, i2, i3, i4⟩ := ih
    exact ⟨i1.trans h1, i2.trans h2, i3.trans h3, i4.trans h4⟩
  | relist s s1 typeName c l hc _ ih =>
    obtain ⟨i1, i2, i3, i4⟩ := ih
    exact ⟨i1, i2, i3, i4.trans (AMap.keys_replace _ _ _)⟩

theorem AMap.find_isSome_of_keys {κ α : Type} [DecidableEq κ] (m m1 : List (κ × α)) (k : κ)
    (v : α) (hk : AMap.keys m1 = AMap.keys m) (h : AMap.find m k = some v) :
    ∃ v1, AMap.find m1 k = some v1 := by
  cases h1 : AMap.find m1 k with
  | some v1 => exact ⟨v1, rfl⟩
  | none =>
    exfalso
    have hn := AMap.not_mem_keys_of_find m1 k h1
    rw [hk] at hn
    rw [AMap.find_eq_none_of_not_mem_keys m k hn] at h
    exact Option.noConfusion h

theorem CFileCacheSet.GetNextCachedObjectId_round (env : Env) (k : Nat) (seq : Int)
    (hlo : 1 ≤ seq) (hhi : seq < 2 ^ 62) :
    ∃ id, 1 ≤ id ∧ id ≤ s_maxId ∧
      CFileCacheSet.GetNextCachedObjectId.loop env 1 k seq = some (id, seq + 1) := by
  unfold CFileCacheSet.GetNextCachedObjectId.loop
  have hr : env.lrand48 k % 2 ^ 32 < 2 ^ 32 := Nat.mod_lt _ (by norm_num)
  generalize env.lrand48 k % 2 ^ 32 = r at hr
  have hshift : r <<< s_maxSeqBits = r * 2 ^ 22 := by
    rw [Nat.shiftLeft_eq]; rfl
  have hmod : (((r * 2 ^ 22 : Nat) : Int) + seq) % 2 ^ 64 = ((r * 2 ^ 22 : Nat) : Int) + seq := by
    apply Int.emod_eq_of_lt <;> omega
  have hvalid : ¬ ((((r * 2 ^ 22 : Nat) : Int) + seq).toNat < 1 ∨
      (((r * 2 ^ 22 : Nat) : Int) + seq).toNat > s_maxId) := by
    simp only [s_maxId]; omega
  refine ⟨(((r * 2 ^ 22 : Nat) : Int) + seq).toNat, by omega, ?_, ?_⟩
  · simp only [s_maxId]; omega
  · simp only [hshift, hmod]
    simp only [Bool.or_eq_true, decide_eq_true_eq, if_neg hvalid]

/-- With a sequence number in `[1, 2 ^ 62)` the first round of
`GetNextCachedObjectId` yields a valid id. -/
theorem CFileCacheSet.GetNextCachedObjectId_valid (env : Env) (s : CFileCacheSet)
    (hlo : 1 ≤ s.m_sequenceNumber) (hhi : s.m_sequenceNumber < 2 ^ 62) :
    ∃ id, 1 ≤ id ∧ id ≤ s_maxId ∧
      s.GetNextCachedObjectId env =
        some ({ s with m_sequenceNumber := s.m_sequenceNumber + 1 }, id) := by
  have hfuel : (1 - s.m_sequenceNumber).toNat + 1 = 1 := by omega
  obtain ⟨id, h1, h2, h3⟩ := CFileCacheSet.GetNextCachedObjectId_round env 0 s.m_sequenceNumber hlo hhi
  refine ⟨id, h1, h2, ?_⟩
  unfold CFileCacheSet.GetNextCachedObjectId
  rw [hfuel, h3]

theorem CFileCacheSet.InsertCacheObject_withId_ok (env : Env) (s : CFileCacheSet)
    (typeName filename : List Char) (objectId : Nat) (size cost lifetime : Int) (c : CFileCache)
    (hc : s.GetFileCacheForType typeName = some c)
    (hinit : (CCacheObject.new env objectId filename size cost lifetime false
      c.m_dirType).Initialize env s.m_baseDirName c.m_cacheType true = true) :
    (CFileCacheSet.InsertCacheObject.withId env s typeName filename objectId size cost lifetime
      false true).2 = objectId := by
  unfold CFileCacheSet.InsertCacheObject.withId
  rw [hc]
  simp only [hinit, if_true]

/-- C13.  Admission of inserts: for a type of the set (with a sequence
number in `[1, 2^62)`, from which the id generator yields an id at once, and
an environment in which the creation of the backing object succeeds),
`InsertCacheObject(type, filename, size, cost, lifetime)` returns a nonzero id
if and only if, with the defaults of the type in place of a zero size, cost
or lifetime and after the `Cleanup(fs)` of the type when the first check
fails, `CheckForSize(fs)` is true for `fs = GetFilesystemFileSize(size)`; for
a type that is not defined it returns 0. -/
theorem InsertCacheObject_admission (env : Env) (s : CFileCacheSet)
    (typeName filename : List Char) (size cost lifetime : Int) (c : CFileCache)
    (hc : s.GetFileCacheForType typeName = some c)
    (hlo : 1 ≤ s.m_sequenceNumber) (hhi : s.m_sequenceNumber < 2 ^ 62)
    (hinit : ∀ (objectId : Nat) (dirType : Bool) (t : List Char), 1 ≤ objectId →
      (CCacheObject.new env objectId filename (if size = 0 then c.m_defaultSize else size)
        (if cost = 0 then c.m_defaultCost else cost)
        (if lifetime = 0 then c.m_defaultLifetime else lifetime) false dirType).Initialize env
          s.m_baseDirName t true = true) :
    (∀ t, s.GetFileCacheForType t = none →
      s.InsertCacheObject env t filename size cost lifetime = some (s, 0)) ∧
    ∃ s1 id,
      s.InsertCacheObject env typeName filename size cost lifetime = some (s1, id) ∧
      (id ≠ 0 ↔
        CFileCache.CheckForSize
          (if CFileCache.CheckForSize s typeName
              (GetFilesystemFileSize (if size = 0 then c.m_defaultSize else size)) = true then s
            else CFileCache.Cleanup env s typeName
              (GetFilesystemFileSize (if size = 0 then c.m_defaultSize else size)))
          typeName (GetFilesystemFileSize (if size = 0 then c.m_defaultSize else size)) = true) := by
  constructor
  · intro t ht
    unfold CFileCacheSet.InsertCacheObject
    rw [ht]
  · have hsize : (if ((size == 0 || cost == 0 || lifetime == 0) && size == 0) = true
        then c.Describe.1.size else size) = if size = 0 then c.m_defaultSize else size := by
      by_cases h : size = 0 <;> simp [h, CFileCache.Describe]
    have hcost : (if ((size == 0 || cost == 0 || lifetime == 0) && cost == 0) = true
        then c.Describe.1.cost else cost) = if cost = 0 then c.m_defaultCost else cost := by
      by_cases h : cost = 0 <;> simp [h, CFileCache.Describe]
    have hlife : (if ((size == 0 || cost == 0 || lifetime == 0) && lifetime == 0) = true
        then c.Describe.1.lifetime else lifetime) =
        if lifetime = 0 then c.m_defaultLifetime else lifetime := by
      by_cases h : lifetime = 0 <;> simp [h, CFileCache.Describe]
    unfold CFileCacheSet.InsertCacheObject
    rw [hc]
    simp only [hsize, hcost, hlife]
    generalize hfs : GetFilesystemFileSize (if size = 0 then c.m_defaultSize else size) = fs
    have hs1 : (if (!CFileCache.CheckForSize s typeName fs) = true
        then CFileCache.Cleanup env s typeName fs else s) =
        (if CFileCache.CheckForSize s typeName fs = true then s
          else CFileCache.Cleanup env s typeName fs) := by
      cases CFileCache.CheckForSize s typeName fs <;> rfl
    rw [hs1]
    have hframe : SameFrame s (if CFileCache.CheckForSize s typeName fs = true then s
        else CFileCache.Cleanup env s typeName fs) := by
      split_ifs
      · exact ⟨rfl, rfl, rfl, rfl⟩
      · exact (CFileCache.Cleanup_cleans env s typeName fs).sameFrame
    generalize (if CFileCache.CheckForSize s typeName fs = true then s
      else CFileCache.Cleanup env s typeName fs) = s1 at hframe ⊢
    obtain ⟨hbase, hseq, _, hkeys⟩ := hframe
    cases hcheck : CFileCache.CheckForSize s1 typeName fs with
    | false => exact ⟨s1, 0, by simp, by simp⟩
    | true =>
      obtain ⟨id, hid1, _, hnext⟩ :=
        CFileCacheSet.GetNextCachedObjectId_valid env s1 (by rw [hseq]; exact hlo)
          (by rw [hseq]; exact hhi)
      obtain ⟨c1, hc1⟩ := AMap.find_isSome_of_keys s.m_cacheSet s1.m_cacheSet typeName c hkeys hc
      have hc2 : ({ s1 with m_sequenceNumber := s1.m_sequenceNumber + 1 } :
          CFileCacheSet).GetFileCacheForType typeName = some c1 := hc1
      have hres := CFileCacheSet.InsertCacheObject_withId_ok env
        { s1 with m_sequenceNumber := s1.m_sequenceNumber + 1 } typeName filename id
        (if size = 0 then c.m_defaultSize else size) (if cost = 0 then c.m_defaultCost else cost)
        (if lifetime = 0 then c.m_defaultLifetime else lifetime) c1 hc2
        (by
          have := hinit id c1.m_dirType c1.m_cacheType hid1
          rw [← hbase] at this
          exact this)
      simp only [hnext, if_true]
      refine ⟨(CFileCacheSet.InsertCacheObject.withId env
        { s1 with m_sequenceNumber := s1.m_sequenceNumber + 1 } typeName filename id
        (if size = 0 then c.m_defaultSize else size) (if cost = 0 then c.m_defaultCost else cost)
        (if lifetime = 0 then c.m_defaultLifetime else lifetime) false true).1, id, ?_, ?_⟩
      · exact congrArg some (Prod.ext rfl hres)
      · constructor
        · intro _; trivial
        · intro _; omega

theorem BuildPathname_createDir (cm : List Char) (mkdirOk : List Char → Bool)
    (hmk : ∀ p, mkdirOk p = true) (objectId : Nat) (basePath typeName fileName : List Char) :
    BuildPathname cm mkdirOk objectId basePath typeName fileName true =
      BuildPathname cm mkdirOk objectId basePath typeName fileName false := by
  unfold BuildPathname
  simp [hmk]

/-- In the sample environment the creation of the backing object succeeds for
every object with a nonzero id. -/
theorem sampleEnv_Initialize (o : CCacheObject) (baseDirName typeName : List Char)
    (hid : o.m_id ≠ 0) : o.Initialize sampleEnv baseDirName typeName true = true := by
  have hpath : o.GetPathname sampleEnv baseDirName typeName true ≠ [] := by
    unfold CCacheObject.GetPathname
    rw [BuildPathname_createDir sampleEnv.charMapping
      (fun p => sampleEnv.mkdirOk p || sampleEnv.mkdirExists p) (fun _ => rfl)]
    exact ((buildPathname_shape sampleEnv.charMapping (by decide) (by decide) _ o.m_id baseDirName
      typeName o.m_filename) hid).2
  have hne : (o.GetPathname sampleEnv baseDirName typeName true).isEmpty = false := by
    cases h : o.GetPathname sampleEnv baseDirName typeName true with
    | nil => exact absurd h hpath
    | cons _ _ => rfl
  unfold CCacheObject.Initialize
  simp only [if_true, hne]
  cases hd : o.m_dirType <;>
    simp [CCacheObject.CreateObject, CCacheObject.SetSizeAttribute,
      CCacheObject.SetWrittenAttribute, sampleEnv, hd]

/-- C13, an instance: the insert of the unit test (FileCacheSetTest.h:97-99)
into the empty type `type`; the id generator draws 0 and the sequence number
is 1, so the new object has the id 1. -/
theorem InsertCacheObject_admission_witness :
    sampleSet.InsertCacheObject sampleEnv "type".toList "testfile.ext".toList 123 0 0 =
      some ({ sampleInserted with m_sequenceNumber := 2 }, 1) ∧
    ((∀ t, sampleSet.GetFileCacheForType t = none →
      sampleSet.InsertCacheObject sampleEnv t "testfile.ext".toList 123 0 0 =
        some (sampleSet, 0)) ∧
    ∃ s1 id,
      sampleSet.InsertCacheObject sampleEnv "type".toList "testfile.ext".toList 123 0 0 =
        some (s1, id) ∧
      (id ≠ 0 ↔
        CFileCache.CheckForSize
          (if CFileCache.CheckForSize sampleSet "type".toList
              (GetFilesystemFileSize (if (123 : Int) = 0 then sampleType.m_defaultSize else 123)) =
                true then sampleSet
            else CFileCache.Cleanup sampleEnv sampleSet "type".toList
              (GetFilesystemFileSize (if (123 : Int) = 0 then sampleType.m_defaultSize else 123)))
          "type".toList
          (GetFilesystemFileSize (if (123 : Int) = 0 then sampleType.m_defaultSize else 123)) =
            true)) :=
  ⟨by decide,
    InsertCacheObject_admission sampleEnv sampleSet "type".toList "testfile.ext".toList 123 0 0
      sampleType (by decide) (by decide) (by decide)
      (fun objectId dirType t hid => sampleEnv_Initialize _ _ _ (by
        show objectId ≠ 0
        omega))⟩

/-! ## Claim C15: move to the front of the LRU list -/

theorem CFileCache.UpdateObject_list (c : CFileCache) (objId : Nat)
    (h : objId ∈ c.m_cacheList) :
    (c.UpdateObject objId).m_cacheList = objId :: c.m_cacheList.erase objId := by
  unfold CFileCache.UpdateObject
  rw [if_pos h]

/-- C16, the code on a failing run: the writer of the object 1 (declared size
123) has written 200 bytes and unsubscribes.  The object is marked expired
and taken out of the id map, but its id stays in the LRU list; the next
`CleanupOrphans` deletes the object, and its id is still in the LRU list,
where it is no key of the object map.  A later `CleanupCache` takes this id
for its victim and reports -1 as the size it has freed. -/
theorem lru_list_keeps_expired_id :
    ((CFileCache.UnSubscribe sampleEnvLarge sampleWriting "type".toList 1).GetFileCacheForType
        "type".toList).map
      (fun c => (c.m_cacheList, (c.GetCacheObjectForId 1).map (fun o => o.m_expired))) =
      some ([1], some true) ∧
    (((CFileCache.UnSubscribe sampleEnvLarge sampleWriting "type".toList 1).CleanupOrphans
        sampleEnv).GetFileCacheForType "type".toList).map
      (fun c => (c.m_cacheList, (c.GetCacheObjectForId 1).map (fun o => o.m_expired))) =
      some ([1], none) ∧
    (CFileCache.CleanupCache sampleEnv
      ((CFileCache.UnSubscribe sampleEnvLarge sampleWriting "type".toList 1).CleanupOrphans
        sampleEnv) "type".toList).2 = (-1, some 1) := by
  refine ⟨?_, ?_, ?_⟩ <;> decide

/-! ## Claim C17: the cleanup candidate -/

theorem lastUse_eq_none {ids : List Nat} {x : Nat} : lastUse ids x = none ↔ x ∉ ids := by
  induction ids with
  | nil => simp [lastUse]
  | cons y ids ih =>
    simp only [lastUse, List.mem_cons, not_or]
    cases h : lastUse ids x with
    | some t =>
      have : ¬ (x ∉ ids) := fun hx => by rw [ih.mpr hx] at h; exact Option.noConfusion h
      simp [this]
    | none =>
      have hx := ih.mp h
      by_cases hy : y = x
      · simp [hy]
      · simp [hy, hx, Ne.symm hy]

theorem lastUse_lt {ids : List Nat} {x t : Nat} (h : lastUse ids x = some t) :
    t < ids.length := by
  induction ids generalizing t with
  | nil => simp [lastUse] at h
  | cons y ids ih =>
    simp only [lastUse] at h
    cases h1 : lastUse ids x with
    | some t1 =>
      rw [h1] at h
      have := ih h1
      simp only [Option.some.injEq] at h
      simp only [List.length_cons]
      omega
    | none =>
      rw [h1] at h
      by_cases hy : y = x
      · simp only [hy, if_true, Option.some.injEq] at h
        simp only [List.length_cons]
        omega
      · simp [hy] at h

theorem lastUse_snoc (ids : List Nat) (x y : Nat) :
    lastUse (ids ++ [x]) y = if y = x then some ids.length else lastUse ids y := by
  induction ids with
  | nil =>
    by_cases h : y = x
    · simp [lastUse, h]
    · simp [lastUse, h, Ne.symm h]
  | cons z ids ih =>
    have hstep : lastUse (z :: ids ++ [x]) y =
        match lastUse (ids ++ [x]) y with
        | some t => some (t + 1)
        | none => if z = y then some 0 else none := rfl
    rw [hstep, ih]
    by_cases h : y = x
    · simp [h]
    · simp only [if_neg h]
      rfl

theorem UsedAfter.snoc_head {ids : List Nat} {x b : Nat} (hb : b ∈ ids) (hne : b ≠ x) :
    UsedAfter (ids ++ [x]) x b := by
  cases hl : lastUse ids b with
  | none => exact absurd hb (lastUse_eq_none.mp hl)
  | some tb =>
    refine ⟨ids.length, tb, ?_, ?_, lastUse_lt hl⟩
    · rw [lastUse_snoc, if_pos rfl]
    · rw [lastUse_snoc, if_neg hne, hl]

theorem UsedAfter.snoc_tail {ids : List Nat} {x a b : Nat} (ha : a ≠ x) (hb : b ≠ x)
    (h : UsedAfter ids a b) : UsedAfter (ids ++ [x]) a b := by
  obtain ⟨ta, tb, h1, h2, h3⟩ := h
  refine ⟨ta, tb, ?_, ?_, h3⟩
  · rw [lastUse_snoc, if_neg ha, h1]
  · rw [lastUse_snoc, if_neg hb, h2]

/-- Moving `x` to the front of a list ordered by the most recent use gives the
list ordered by the most recent use once `x` was used again. -/
theorem lru_front_ordered (ids L : List Nat) (x : Nat) (hnd : L.Nodup)
    (hmem : ∀ y, y ∈ L ↔ y ∈ ids) (hpw : L.Pairwise (UsedAfter ids)) :
    (x :: L.erase x).Nodup ∧ (∀ y, y ∈ x :: L.erase x ↔ y ∈ ids ++ [x]) ∧
      (x :: L.erase x).Pairwise (UsedAfter (ids ++ [x])) := by
  have hin : ∀ y, y ∈ L.erase x ↔ y ≠ x ∧ y ∈ L := fun y => hnd.mem_erase_iff
  refine ⟨?_, ?_, ?_⟩
  · rw [List.nodup_cons]
    exact ⟨fun h => ((hin x).mp h).1 rfl, hnd.erase x⟩
  · intro y
    rw [List.mem_cons, hin, hmem, List.mem_append, List.mem_singleton]
    by_cases hy : y = x
    · simp [hy]
    · simp [hy]
  · rw [List.pairwise_cons]
    constructor
    · intro b hb
      obtain ⟨hne, hbL⟩ := (hin b).mp hb
      exact UsedAfter.snoc_head ((hmem b).mp hbL) hne
    · refine (hpw.sublist (List.erase_sublist x L)).imp_of_mem ?_
      intro a b ha hb hab
      exact UsedAfter.snoc_tail ((hin a).mp ha).1 ((hin b).mp hb).1 hab

theorem LruInv.step (env : Env) (ids : List Nat) (c : CFileCache) (op : LruOp)
    (h : LruInv ids c)
    (hop : match op with
      | LruOp.insert newObj => c.GetCacheObjectForId newObj.m_id = none
      | LruOp.touch objId => c.GetCacheObjectForId objId ≠ none) :
    LruInv (ids ++ [op.objId]) (c.applyLruOp env op) := by
  obtain ⟨hnd, hmem, hmap, hpw⟩ := h
  cases op with
  | insert newObj =>
    simp only at hop
    have hx : newObj.m_id ∉ c.m_cacheList := fun hin => (hmap _).mp hin hop
    have hlist : (c.applyLruOp env (LruOp.insert newObj)).m_cacheList =
        newObj.m_id :: c.m_cacheList.erase newObj.m_id := by
      rw [List.erase_of_not_mem hx]; rfl
    obtain ⟨h1, h2, h3⟩ := lru_front_ordered ids c.m_cacheList newObj.m_id hnd hmem hpw
    refine ⟨by rw [hlist]; exact h1, by rw [hlist]; exact h2, ?_, by rw [hlist]; exact h3⟩
    intro y
    rw [hlist, List.erase_of_not_mem hx, List.mem_cons]
    have hfind : (c.applyLruOp env (LruOp.insert newObj)).GetCacheObjectForId y =
        if y = newObj.m_id then some newObj else c.GetCacheObjectForId y := by
      show AMap.find (AMap.insert idLt c.m_cachedObjects newObj.m_id newObj) y = _
      unfold AMap.insert
      have hop1 : AMap.find c.m_cachedObjects newObj.m_id = none := hop
      rw [hop1]
      exact AMap.find_orderedInsert idLt newObj.m_id newObj c.m_cachedObjects hop1 y
    rw [hfind]
    by_cases hy : y = newObj.m_id
    · simp [hy]
    · simp only [hy, false_or, if_false]
      exact hmap y
  | touch objId =>
    simp only at hop
    have hx : objId ∈ c.m_cacheList := (hmap _).mpr hop
    cases ho : c.GetCacheObjectForId objId with
    | none => exact absurd ho hop
    | some o =>
      have happ : c.applyLruOp env (LruOp.touch objId) =
          ({ c with m_cachedObjects :=
            AMap.replace c.m_cachedObjects objId (o.Touch env).1 }).UpdateObject objId := by
        show (c.Touch env objId).1 = _
        unfold CFileCache.Touch
        rw [ho]
      have hlist : (c.applyLruOp env (LruOp.touch objId)).m_cacheList =
          objId :: c.m_cacheList.erase objId := by
        rw [happ]
        exact CFileCache.UpdateObject_list _ objId hx
      obtain ⟨h1, h2, h3⟩ := lru_front_ordered ids c.m_cacheList objId hnd hmem hpw
      refine ⟨by rw [hlist]; exact h1, by rw [hlist]; exact h2, ?_, by rw [hlist]; exact h3⟩
      intro y
      have hfind : (c.applyLruOp env (LruOp.touch objId)).GetCacheObjectForId y =
          if y = objId then (c.GetCacheObjectForId objId).map (fun _ => (o.Touch env).1)
          else c.GetCacheObjectForId y := by
        rw [happ]
        unfold CFileCache.GetCacheObjectForId
        rw [(CFileCache.UpdateObject_objects _ objId).1]
        exact AMap.find_replace _ _ _ _
      rw [hlist, hfind, List.mem_cons, hnd.mem_erase_iff]
      by_cases hy : y = objId
      · simp [hy, ho]
      · simp only [hy, false_or, if_false, ne_eq, not_false_eq_true, true_and]
        exact hmap y

theorem LruInv.run (env : Env) (ops : List LruOp) :
    ∀ (ids : List Nat) (c : CFileCache), LruInv ids c → LruOpsValid env c ops →
      LruInv (ids ++ ops.map LruOp.objId) (c.runLruOps env ops) := by
  induction ops with
  | nil =>
    intro ids c h _
    simpa [CFileCache.runLruOps] using h
  | cons op rest ih =>
    intro ids c h hv
    obtain ⟨hop, hrest⟩ := hv
    have hstep := LruInv.step env ids c op h hop
    have := ih (ids ++ [op.objId]) (c.applyLruOp env op) hstep hrest
    simpa [CFileCache.runLruOps, List.append_assoc] using this

/-- C17.  Cleanup candidate: `GetCleanupCandidate` returns the last element of
the LRU list when `cacheSize > loWatermark` and the list is not empty, and 0
otherwise; and after any run of inserts and touches of distinct live ids on a
type that was empty, the last element of the LRU list is the id whose most
recent insert or touch is the oldest: it lies no later in the run than the
most recent insert or touch of any id. -/
theorem cleanup_candidate_oldest (env : Env) (c : CFileCache) (ops : List LruOp)
    (h0 : c.isEmptyType) (hv : LruOpsValid env c ops) :
    (∀ (c1 : CFileCache) (x : Nat), c1.m_cacheSize > c1.m_loWatermark →
      c1.m_cacheList.getLast? = some x → c1.GetCleanupCandidate = x) ∧
    (∀ c1 : CFileCache, ¬ (c1.m_cacheSize > c1.m_loWatermark) ∨ c1.m_cacheList = [] →
      c1.GetCleanupCandidate = 0) ∧
    ∀ last, (c.runLruOps env ops).m_cacheList.getLast? = some last →
      ∃ t, lastUse (ops.map LruOp.objId) last = some t ∧
        ∀ y t1, lastUse (ops.map LruOp.objId) y = some t1 → t ≤ t1 := by
  refine ⟨?_, ?_, ?_⟩
  · intro c1 x hsize hlast
    unfold CFileCache.GetCleanupCandidate
    have hne : c1.m_cacheList.isEmpty = false := by
      cases hl : c1.m_cacheList with
      | nil => rw [hl] at hlast; exact Option.noConfusion hlast
      | cons _ _ => rfl
    simp only [hsize, hne, decide_True, Bool.not_false, Bool.and_self, if_true]
    rw [List.getLastD_eq_getLast?, hlast]
    rfl
  · intro c1 h
    unfold CFileCache.GetCleanupCandidate
    rcases h with h | h
    · simp [h]
    · simp [h]
  · intro last hlast
    have hinit : LruInv [] c := by
      obtain ⟨h1, h2, _, _⟩ := h0
      refine ⟨by rw [h2]; exact List.nodup_nil, by intro y; rw [h2], ?_,
        by rw [h2]; exact List.Pairwise.nil⟩
      intro y
      unfold CFileCache.GetCacheObjectForId
      rw [h2, h1]
      simp [AMap.find]
    have hinv := LruInv.run env ops [] c hinit hv
    rw [List.nil_append] at hinv
    obtain ⟨_, hmem, _, hpw⟩ := hinv
    obtain ⟨front, hfront⟩ := List.getLast?_eq_some_iff.mp hlast
    rw [hfront] at hmem hpw
    have hlastmem : last ∈ ops.map LruOp.objId := (hmem last).mp (by simp)
    cases hl : lastUse (ops.map LruOp.objId) last with
    | none => exact absurd hlastmem (lastUse_eq_none.mp hl)
    | some t =>
      refine ⟨t, rfl, ?_⟩
      intro y t1 hy
      have hyin : y ∈ front ++ [last] := by
        rw [hmem]
        by_contra hn
        rw [lastUse_eq_none.mpr hn] at hy
        exact Option.noConfusion hy
      rcases List.mem_append.mp hyin with hf | hs
      · obtain ⟨ta, tb, h1, h2, h3⟩ := (List.pairwise_append.mp hpw).2.2 y hf last (by simp)
        rw [hy] at h1
        rw [hl] at h2
        have e1 : t1 = ta := Option.some.inj h1
        have e2 : t = tb := Option.some.inj h2
        omega
      · have e : y = last := by simpa using hs
        rw [e, hl] at hy
        have e1 : t = t1 := Option.some.inj hy
        omega

theorem sampleLruOps_valid : LruOpsValid sampleEnv sampleType sampleLruOps := by
  refine ⟨?_, ?_, ?_, ?_, trivial⟩ <;> decide

/-- C17, an instance: the run of the unit test `testUpdateObject`.  After the
inserts of 1, 2, 3 and the touch of 1 the LRU list is `[1, 3, 2]`; its last
element 2 is the candidate, and the most recent step about 2 is the step 1 of
the run, the earliest of all ids. -/
theorem cleanup_candidate_oldest_witness :
    sampleType.isEmptyType ∧ LruOpsValid sampleEnv sampleType sampleLruOps ∧
    (sampleType.runLruOps sampleEnv sampleLruOps).m_cacheList = [1, 3, 2] ∧
    (sampleType.runLruOps sampleEnv sampleLruOps).GetCleanupCandidate = 2 ∧
    (∃ t, lastUse (sampleLruOps.map LruOp.objId) 2 = some t ∧
      ∀ y t1, lastUse (sampleLruOps.map LruOp.objId) y = some t1 → t ≤ t1) :=
  ⟨⟨rfl, rfl, rfl, rfl⟩, sampleLruOps_valid, by decide, by decide,
    (cleanup_candidate_oldest sampleEnv sampleType sampleLruOps ⟨rfl, rfl, rfl, rfl⟩
      sampleLruOps_valid).2.2 2 (by decide)⟩

/-! ## Claims C18 to C20: the configuration of a type -/

theorem sum_other_of_absent (m : List (List Char × CFileCache)) (k : List Char)
    (h : AMap.find m k = none) :
    ((m.filter (fun p => decide (p.1 ≠ k))).map (fun p => p.2.m_loWatermark)).sum =
      (m.map (fun p => p.2.m_loWatermark)).sum := by
  induction m with
  | nil => rfl
  | cons p m ih =>
    rw [AMap.find_cons] at h
    by_cases hp : p.1 = k
    · rw [if_pos hp] at h; exact Option.noConfusion h
    · rw [if_neg hp] at h
      rw [List.filter_cons_of_pos (by simpa using hp), List.map_cons, List.map_cons,
        List.sum_cons, List.sum_cons, ih h]

theorem sum_other_of_present (m : List (List Char × CFileCache)) (k : List Char)
    (c : CFileCache) (hnd : (AMap.keys m).Nodup) (h : AMap.find m k = some c) :
    (m.map (fun p => p.2.m_loWatermark)).sum =
      ((m.filter (fun p => decide (p.1 ≠ k))).map (fun p => p.2.m_loWatermark)).sum +
        c.m_loWatermark := by
  induction m with
  | nil => simp [AMap.find] at h
  | cons p m ih =>
    have hnd0 : (p.1 :: AMap.keys m).Nodup := hnd
    have hnd1 : p.1 ∉ AMap.keys m ∧ (AMap.keys m).Nodup := List.nodup_cons.mp hnd0
    rw [AMap.find_cons] at h
    by_cases hp : p.1 = k
    · rw [if_pos hp] at h
      have hc : p.2 = c := Option.some.inj h
      have hk : AMap.find m k = none :=
        AMap.find_eq_none_of_not_mem_keys m k (by rw [← hp]; exact hnd1.1)
      rw [List.filter_cons_of_neg (by simpa using hp), sum_other_of_absent m k hk,
        List.map_cons, List.sum_cons, hc]
      omega
    · rw [if_neg hp] at h
      rw [List.filter_cons_of_pos (by simpa using hp), List.map_cons, List.map_cons,
        List.sum_cons, List.sum_cons, ih hnd1.2 h]
      omega

theorem CFileCacheSet.SumOfLoWatermarks_absent (s : CFileCacheSet) (typeName : List Char)
    (h : s.GetFileCacheForType typeName = none) :
    s.SumOfLoWatermarks = SumOfOtherLoWatermarks s typeName :=
  (sum_other_of_absent s.m_cacheSet typeName h).symm

theorem CFileCacheSet.SumOfLoWatermarks_present (s : CFileCacheSet) (typeName : List Char)
    (c : CFileCache) (hnd : (AMap.keys s.m_cacheSet).Nodup)
    (h : s.GetFileCacheForType typeName = some c) :
    s.SumOfLoWatermarks = SumOfOtherLoWatermarks s typeName + c.m_loWatermark :=
  sum_other_of_present s.m_cacheSet typeName c hnd h

theorem CFileCache.Configure_refused (env : Env) (s : CFileCacheSet) (c : CFileCache)
    (p : CCacheParamValues) (dirType : Bool)
    (h : ¬ GetFilesystemFileSize p.loWatermark < s.m_totalCacheSpace - s.SumOfLoWatermarks) :
    c.Configure env s (some p) dirType = (c, false) := by
  unfold CFileCache.Configure
  simp only [if_neg h]

theorem CFileCache.Configure_admitted (env : Env) (s : CFileCacheSet) (c : CFileCache)
    (p : CCacheParamValues) (dirType : Bool)
    (h : GetFilesystemFileSize p.loWatermark < s.m_totalCacheSpace - s.SumOfLoWatermarks) :
    c.Configure env s (some p) dirType =
      (CFileCache.Configure.apply c p dirType,
        (CFileCache.Configure.apply c p dirType).WriteConfig env s.m_baseDirName) := by
  unfold CFileCache.Configure
  simp only [if_pos h]

/-- C18 (amended).  Configure admission and atomicity.  `DefineType` of a new
type with parameters: when `GetFilesystemFileSize(params.loWatermark)` is
greater than or equal to `totalCacheSpace` minus the sum of the low watermarks
of the other types, `Configure` returns false and the cache set is left as it
is; when it is less, the parameters are taken and the result is true exactly
when the defaults file is written.  `ChangeType` of an existing type (of a set
with distinct type names and a low watermark of the type that is not
negative): when the filesystem size is greater than `totalCacheSpace` minus
the sum of the low watermarks of the other types, `Configure` returns false
and changes no field of the type; when it is less than `totalCacheSpace` minus
the sum of the low watermarks of all types, the parameters are taken and the
result is that of writing the defaults file. -/
theorem Configure_admission (env : Env) (s : CFileCacheSet) (typeName : List Char)
    (p : CCacheParamValues) (dirType : Bool) :
    (s.GetFileCacheForType typeName = none →
      (GetFilesystemFileSize p.loWatermark ≥
          s.m_totalCacheSpace - SumOfOtherLoWatermarks s typeName →
        s.DefineType env typeName (some p) dirType = (s, false)) ∧
      (GetFilesystemFileSize p.loWatermark <
          s.m_totalCacheSpace - SumOfOtherLoWatermarks s typeName →
        (CFileCache.new typeName).Configure env s (some p) dirType =
          (CFileCache.Configure.apply (CFileCache.new typeName) p dirType,
            (CFileCache.Configure.apply (CFileCache.new typeName) p dirType).WriteConfig env
              s.m_baseDirName) ∧
        (s.DefineType env typeName (some p) dirType).2 =
          (CFileCache.Configure.apply (CFileCache.new typeName) p dirType).WriteConfig env
            s.m_baseDirName)) ∧
    (∀ c, s.GetFileCacheForType typeName = some c → (AMap.keys s.m_cacheSet).Nodup →
      0 ≤ c.m_loWatermark →
      (GetFilesystemFileSize p.loWatermark >
          s.m_totalCacheSpace - SumOfOtherLoWatermarks s typeName →
        (s.ChangeType env typeName (some p)).2 = false ∧
        (s.ChangeType env typeName (some p)).1.GetFileCacheForType typeName = some c) ∧
      (GetFilesystemFileSize p.loWatermark < s.m_totalCacheSpace - s.SumOfLoWatermarks →
        (s.ChangeType env typeName (some p)).2 =
          (CFileCache.Configure.apply c p false).WriteConfig env s.m_baseDirName ∧
        (s.ChangeType env typeName (some p)).1.GetFileCacheForType typeName =
          some (CFileCache.Configure.apply c p false))) := by
  constructor
  · intro hnone
    have hsum := CFileCacheSet.SumOfLoWatermarks_absent s typeName hnone
    constructor
    · intro h
      unfold CFileCacheSet.DefineType
      rw [hnone]
      simp only
      rw [CFileCache.Configure_refused env s _ p dirType (by rw [hsum]; omega)]
      simp
    · intro h
      have hadm := CFileCache.Configure_admitted env s (CFileCache.new typeName) p dirType
        (by rw [hsum]; exact h)
      refine ⟨hadm, ?_⟩
      unfold CFileCacheSet.DefineType
      rw [hnone]
      simp only
      rw [hadm]
      simp only
      split_ifs with hw
      · exact hw.symm
      · simpa using hw
  · intro c hc hnd hlo
    have hsum := CFileCacheSet.SumOfLoWatermarks_present s typeName c hnd hc
    constructor
    · intro h
      unfold CFileCacheSet.ChangeType
      rw [hc]
      simp only
      rw [CFileCache.Configure_refused env s c p false (by rw [hsum]; omega)]
      exact ⟨rfl, AMap.find_replace_self _ _ _ _ hc⟩
    · intro h
      unfold CFileCacheSet.ChangeType
      rw [hc]
      simp only
      rw [CFileCache.Configure_admitted env s c p false h]
      exact ⟨rfl, AMap.find_replace_self _ _ _ _ hc⟩

/-- C18, an instance: the directory type `dir` with the parameters of the unit
tests is admitted into the empty set, and `DefineType` returns the result of
writing its defaults file. -/
theorem Configure_admission_witness :
    sampleEmptySet.GetFileCacheForType "dir".toList = none ∧
    GetFilesystemFileSize sampleParams.loWatermark <
      sampleEmptySet.m_totalCacheSpace - SumOfOtherLoWatermarks sampleEmptySet "dir".toList ∧
    (sampleEmptySet.DefineType sampleEnv "dir".toList (some sampleParams) true).2 =
      (CFileCache.Configure.apply (CFileCache.new "dir".toList) sampleParams true).WriteConfig
        sampleEnv sampleEmptySet.m_baseDirName :=
  ⟨by decide, by decide,
    (((Configure_admission sampleEnv sampleEmptySet "dir".toList sampleParams true).1
      (by decide)).2 (by decide)).2⟩

/-- C18 as stated fails on two runs, in both of which the defaults file can be
written.  (1) `DefineType` of the first type of a set of 8388608 bytes with
the low watermark 8384512, whose filesystem size is 8388608, equal to the
total space: the claim has it accepted, `DefineType` returns false.  (2)
`ChangeType` of the only type of a set of 32768 bytes, giving the type the low
watermark 10000 that it already has (filesystem size 16384, at most the total
space minus the low watermarks of the other types, of which there are none):
`ChangeType` returns false. -/
theorem Configure_admission_counterexample :
    (GetFilesystemFileSize 8384512 ≤
      sampleEmptySet.m_totalCacheSpace - SumOfOtherLoWatermarks sampleEmptySet "t".toList ∧
     (CFileCache.Configure.apply (CFileCache.new "t".toList)
       { sampleParams with loWatermark := 8384512, hiWatermark := 8388608 } false).WriteConfig
         sampleEnv sampleEmptySet.m_baseDirName = true ∧
     (sampleEmptySet.DefineType sampleEnv "t".toList
       (some { sampleParams with loWatermark := 8384512, hiWatermark := 8388608 }) false).2 =
       false) ∧
    (GetFilesystemFileSize sampleParams.loWatermark ≤
      (32768 : Int) - SumOfOtherLoWatermarks { sampleSet with m_totalCacheSpace := 32768 }
        "type".toList ∧
     (CFileCache.Configure.apply sampleType sampleParams false).WriteConfig sampleEnv
       sampleSet.m_baseDirName = true ∧
     (({ sampleSet with m_totalCacheSpace := 32768 } : CFileCacheSet).ChangeType sampleEnv
       "type".toList (some sampleParams)).2 = false) := by
  refine ⟨⟨?_, ?_, ?_⟩, ?_, ?_, ?_⟩ <;> decide

theorem GetFilesystemFileSize_pos (a : Int) : 0 < GetFilesystemFileSize a := by
  unfold GetFilesystemFileSize
  simp only [s_blockSize]
  split_ifs <;> omega

theorem CFileCache.Configure_apply_watermarks (c : CFileCache) (p : CCacheParamValues)
    (dirType : Bool) :
    (CFileCache.Configure.apply c p dirType).m_loWatermark =
      (if p.loWatermark > 0 then GetFilesystemFileSize p.loWatermark else c.m_loWatermark) ∧
    (CFileCache.Configure.apply c p dirType).m_hiWatermark =
      (if p.hiWatermark > 0 then GetFilesystemFileSize p.hiWatermark else c.m_hiWatermark) ∧
    (CFileCache.Configure.apply c p dirType).m_dirType = dirType := by
  unfold CFileCache.Configure.apply
  refine ⟨?_, ?_, rfl⟩ <;> split_ifs <;> rfl

/-- An admitted `ChangeType` stores `dirType = false`, whatever the flag of the
type was. -/
theorem CFileCacheSet.ChangeType_resets_dirType (env : Env) (s : CFileCacheSet)
    (typeName : List Char) (p : CCacheParamValues) (c : CFileCache)
    (hc : s.GetFileCacheForType typeName = some c)
    (h : GetFilesystemFileSize p.loWatermark < s.m_totalCacheSpace - s.SumOfLoWatermarks) :
    (s.ChangeType env typeName (some p)).1.isTypeDirType typeName = false := by
  unfold CFileCacheSet.ChangeType
  rw [hc]
  simp only
  rw [CFileCache.Configure_admitted env s c p false h]
  unfold CFileCacheSet.isTypeDirType
  have hf : (s.setCache typeName (CFileCache.Configure.apply c p false)).GetFileCacheForType
      typeName = some (CFileCache.Configure.apply c p false) :=
    AMap.find_replace_self _ _ _ _ hc
  simp only [hf]
  exact (CFileCache.Configure_apply_watermarks c p false).2.2

/-- C20, the code on a failing run: the type `dir` is defined as a directory
type; a `ChangeType` that raises its high watermark to 30000 succeeds, and the
type is no directory type afterwards. -/
theorem ChangeType_clears_dirType :
    (sampleEmptySet.DefineType sampleEnv "dir".toList (some sampleParams) true).2 = true ∧
    sampleDirSet.isTypeDirType "dir".toList = true ∧
    CategoryHandler.ChangeType.paramsOk { sampleParams with hiWatermark := 30000 } = true ∧
    (sampleDirSet.ChangeType sampleEnv "dir".toList
      (some { sampleParams with hiWatermark := 30000 })).2 = true ∧
    (sampleDirSet.ChangeType sampleEnv "dir".toList
      (some { sampleParams with hiWatermark := 30000 })).1.isTypeDirType "dir".toList = false := by
  refine ⟨?_, ?_, ?_, ?_, ?_⟩ <;> decide

/-! ## Claim C23: the cache cost -/

/-- C23.  Cache cost: for an object of size at least 0 whose lifetime is at
least 1, with `age = now - lastAccessTime`, `GetCacheCost` returns `s_maxCost`
(100) when `age < lifetime`; otherwise the age is not zero and the result is
`cost * ceil(size / 4096) / age` in the truncating integer division, which is
0 for size 0.  The constructor forces a lifetime of at least 1 (and a cost of
at most `s_maxCost`). -/
theorem GetCacheCost_spec (env : Env) (o : CCacheObject) (hsize : 0 ≤ o.m_size)
    (hlife : 1 ≤ o.m_lifetime) :
    (env.now - o.m_lastAccessTime < o.m_lifetime → o.GetCacheCost env = s_maxCost) ∧
    s_maxCost = 100 ∧
    (o.m_lifetime ≤ env.now - o.m_lastAccessTime →
      env.now - o.m_lastAccessTime ≠ 0 ∧
      o.GetCacheCost env =
        Int.tdiv (o.m_cost * ⌈(o.m_size : ℚ) / 4096⌉) (env.now - o.m_lastAccessTime) ∧
      (o.m_size = 0 → o.GetCacheCost env = 0)) ∧
    (∀ (env1 : Env) (id : Nat) (filename : List Char) (size cost lifetime : Int)
      (written dirType : Bool),
      1 ≤ (CCacheObject.new env1 id filename size cost lifetime written dirType).m_lifetime ∧
      (CCacheObject.new env1 id filename size cost lifetime written dirType).m_cost ≤ s_maxCost ∧
      (CCacheObject.new env1 id filename size cost lifetime written dirType).m_size = size ∧
      (CCacheObject.new env1 id filename size cost lifetime written dirType).m_lastAccessTime =
        env1.now) := by
  have hceil : ⌈(o.m_size : ℚ) / 4096⌉ = (o.m_size + 4096 - 1) / 4096 := by
    rw [Int.ceil_eq_iff]
    constructor
    · rw [lt_div_iff₀ (by norm_num : (0 : ℚ) < 4096)]
      have : ((o.m_size + 4096 - 1) / 4096 - 1) * 4096 < o.m_size := by omega
      exact_mod_cast this
    · rw [div_le_iff₀ (by norm_num : (0 : ℚ) < 4096)]
      have : o.m_size ≤ ((o.m_size + 4096 - 1) / 4096) * 4096 := by omega
      exact_mod_cast this
  have htdiv : Int.tdiv (o.m_size + s_blockSize - 1) s_blockSize = (o.m_size + 4096 - 1) / 4096 := by
    have h0 : 0 ≤ o.m_size + s_blockSize - 1 := by simp only [s_blockSize]; omega
    rw [Int.tdiv_eq_ediv h0 (by decide)]
    rfl
  refine ⟨?_, rfl, ?_, ?_⟩
  · intro h
    simp only [CCacheObject.GetCacheCost, if_pos h]
  · intro h
    have hn : ¬ env.now - o.m_lastAccessTime < o.m_lifetime := by omega
    have hcost : o.GetCacheCost env =
        Int.tdiv (o.m_cost * ⌈(o.m_size : ℚ) / 4096⌉) (env.now - o.m_lastAccessTime) := by
      simp only [CCacheObject.GetCacheCost, if_neg hn, htdiv, hceil]
    refine ⟨by omega, hcost, ?_⟩
    intro h0
    rw [hcost, hceil, h0]
    simp
  · intro env1 id filename size cost lifetime written dirType
    refine ⟨?_, ?_, rfl, rfl⟩
    · simp only [CCacheObject.new]
      split_ifs <;> omega
    · simp only [CCacheObject.new]
      split_ifs with h
      · exact le_refl _
      · omega

/-- C23, instances from the unit test (CacheObjectTest.h:471-503): the object
of size 1, cost 10 and lifetime 5 costs `s_maxCost` at once and 2 after 5
seconds; the object of size 0 costs 0 after 1 second. -/
theorem GetCacheCost_spec_witness :
    (CCacheObject.new sampleEnv 786950 "testfile.ext".toList 1 10 5 false false).GetCacheCost
      sampleEnv = 100 ∧
    (CCacheObject.new sampleEnv 786950 "testfile.ext".toList 1 10 5 false false).GetCacheCost
      { sampleEnv with now := sampleEnv.now + 5 } = 2 ∧
    (CCacheObject.new sampleEnv 564738 "testfile.ext".toList 0 0 0 false false).GetCacheCost
      { sampleEnv with now := sampleEnv.now + 1 } = 0 ∧
    ((CCacheObject.new sampleEnv 786950 "testfile.ext".toList 1 10 5 false false).GetCacheCost
        { sampleEnv with now := sampleEnv.now + 5 } =
      Int.tdiv (10 * ⌈((1 : Int) : ℚ) / 4096⌉) 5) :=
  ⟨by decide, by decide, by decide,
    ((GetCacheCost_spec { sampleEnv with now := sampleEnv.now + 5 }
      (CCacheObject.new sampleEnv 786950 "testfile.ext".toList 1 10 5 false false)
      (by decide) (by decide)).2.2.1 (by decide)).2.1⟩

/-! ## Claim C30: the generated ids and the path encoding -/

/-- The path of an id in `[1, 2^54)` decodes to the id when the extension
that `GetFileExtension` appends is not empty, or when neither the base
directory nor the type name holds a `.`. -/
theorem BuildPathname_decodes (cm : List Char) (hcm : ValidCharMapping cm)
    (mkdirOk : List Char → Bool) (objectId : Nat) (hlo : 1 ≤ objectId)
    (hhi : objectId < 2 ^ 54) (basePath typeName fileName : List Char)
    (hdot : GetFileExtension fileName ≠ [] ∨ ('.' ∉ basePath ∧ '.' ∉ typeName)) :
    GetObjectIdFromPath cm
      (BuildPathname cm mkdirOk objectId basePath typeName fileName false) = some objectId := by
  have hid : objectId ≠ 0 := by omega
  rw [BuildPathname_eq cm hcm.length_eq hcm.no_blank mkdirOk objectId hid]
  have hassoc : basePath ++ ['/'] ++ typeName ++ ['/'] ++ idDirSymbols cm objectId ++ ['/'] ++
      idStemSymbols cm objectId ++ GetFileExtension fileName =
      (basePath ++ ['/'] ++ typeName ++ ['/']) ++
        (idDirSymbols cm objectId ++ ['/'] ++ idStemSymbols cm objectId) ++
        GetFileExtension fileName := by simp
  rw [hassoc, GetObjectIdFromPath_eq_decodeChars cm _ _ _ (idStemSymbols_length cm objectId),
    decodeChars_symbols cm hcm objectId hhi]
  by_cases hext : GetFileExtension fileName = []
  · right
    refine ⟨?_, hext⟩
    rcases hdot with h | ⟨hb, ht⟩
    · exact absurd hext h
    · rw [hext, rindex_eq_none]
      have hs := not_dot_mem_symbols cm hcm objectId
      have hsl : '.' ∉ ['/'] := by decide
      intro hmem
      simp only [List.append_nil, List.mem_append] at hmem hs
      rcases hmem with (((h | h) | h) | h) | h
      · exact hb h
      · exact hsl h
      · exact ht h
      · exact hsl h
      · exact hs h
  · left
    have he : GetFileExtension fileName = extFromLastDot fileName := by
      rw [GetFileExtension_eq, extUnlessSlash] at hext ⊢
      split_ifs at hext ⊢ with hsl
      · exact absurd rfl hext
      · rfl
    rcases extFromLastDot_shape fileName with ⟨he0, _⟩ | ⟨rest, he1, hrest, _, _⟩
    · exact absurd (he.trans he0) hext
    · rw [he, he1, rindex_append, rindex_cons_self_of_not_mem hrest]
      simp only [List.length_append, Nat.add_zero]
      rfl

/-- C30 (amended).  Generated ids are encodable: an id `(r << 22) + s` with
`r < 2^31` and `1 <= s <= 2^22 - 1` is not zero and below `2^54`; it is the
id `GetNextCachedObjectId` returns from the sequence number `s` when
`lrand48` yields `r`; and for an alphabet of 64 distinct characters other
than `/`, `.`, the blank and NUL, the path `BuildPathname` builds for it
decodes to it whenever `GetFileExtension` of the file name is not empty or
neither the base directory nor the type name holds a `.`. -/
theorem generated_ids_encodable (r s : Nat) (hr : r < 2 ^ 31) (hs1 : 1 ≤ s)
    (hs2 : s ≤ 2 ^ 22 - 1) :
    (r <<< s_maxSeqBits) + s ≠ 0 ∧ (r <<< s_maxSeqBits) + s < 2 ^ 54 ∧
    (∀ (env : Env) (k : Nat), env.lrand48 k = r →
      CFileCacheSet.GetNextCachedObjectId.loop env 1 k (s : Int) =
        some ((r <<< s_maxSeqBits) + s, (s : Int) + 1)) ∧
    (∀ (cm : List Char), ValidCharMapping cm →
      ∀ (mkdirOk : List Char → Bool) (basePath typeName fileName : List Char),
        (GetFileExtension fileName ≠ [] ∨ ('.' ∉ basePath ∧ '.' ∉ typeName)) →
        GetObjectIdFromPath cm
          (BuildPathname cm mkdirOk ((r <<< s_maxSeqBits) + s) basePath typeName fileName false) =
          some ((r <<< s_maxSeqBits) + s)) := by
  have hshift : r <<< s_maxSeqBits = r * 2 ^ 22 := by
    rw [Nat.shiftLeft_eq]; rfl
  have hlt : r * 2 ^ 22 + s < 2 ^ 54 := by omega
  refine ⟨by omega, by rw [hshift]; exact hlt, ?_, ?_⟩
  · intro env k hk
    unfold CFileCacheSet.GetNextCachedObjectId.loop
    have hrm : env.lrand48 k % 2 ^ 32 = r := by rw [hk]; omega
    have hmod : (((r * 2 ^ 22 : Nat) : Int) + (s : Int)) % 2 ^ 64 =
        ((r * 2 ^ 22 + s : Nat) : Int) := by
      rw [Int.emod_eq_of_lt] <;> omega
    have hvalid : ¬ ((r * 2 ^ 22 + s < 1) ∨ (r * 2 ^ 22 + s > s_maxId)) := by
      simp only [s_maxId]; omega
    simp only [hrm, hshift, hmod, Int.toNat_ofNat, Bool.or_eq_true, decide_eq_true_eq,
      if_neg hvalid]
  · intro cm hcm mkdirOk basePath typeName fileName hdot
    exact BuildPathname_decodes cm hcm mkdirOk _ (by omega) (by rw [hshift]; exact hlt)
      basePath typeName fileName hdot

/-- C30, an instance: the id `(1081 << 22) + 1000` under the sample alphabet,
with a file name that has an extension. -/
theorem generated_ids_encodable_witness :
    (1081 : Nat) < 2 ^ 31 ∧ 1 ≤ 1000 ∧ 1000 ≤ 2 ^ 22 - 1 ∧
    ValidCharMapping sampleCharMapping ∧
    GetObjectIdFromPath sampleCharMapping
      (BuildPathname sampleCharMapping (fun _ => true) ((1081 <<< s_maxSeqBits) + 1000)
        "/tmp/test".toList "type".toList "foo.ext".toList false) =
      some ((1081 <<< s_maxSeqBits) + 1000) :=
  ⟨by decide, by decide, by decide,
    ⟨by decide, by decide, by decide, by decide, by decide, by decide⟩,
    (generated_ids_encodable 1081 1000 (by decide) (by decide) (by decide)).2.2.2
      sampleCharMapping ⟨by decide, by decide, by decide, by decide, by decide, by decide⟩
      (fun _ => true) "/tmp/test".toList "type".toList "foo.ext".toList
      (Or.inl (by decide))⟩

/-- C30 as stated fails for an alphabet that holds the blank:
`blankCharMapping` has 64 distinct characters, none of them `/` or `.`; the id
`(0 << 22) + 1 = 1` has the digit 0 eight times, `GetCharNFromObjectId` yields
the blank for it, which `BuildPathname` takes as the error value: the path is
empty and does not decode to the id. -/
theorem generated_ids_encodable_counterexample :
    blankCharMapping.length = 64 ∧ blankCharMapping.Nodup ∧
    '/' ∉ blankCharMapping ∧ '.' ∉ blankCharMapping ∧
    GetFileExtension "foo.ext".toList ≠ [] ∧
    BuildPathname blankCharMapping (fun _ => true) ((0 <<< s_maxSeqBits) + 1)
      "/tmp/test".toList "type".toList "foo.ext".toList false = [] ∧
    GetObjectIdFromPath blankCharMapping
      (BuildPathname blankCharMapping (fun _ => true) ((0 <<< s_maxSeqBits) + 1)
        "/tmp/test".toList "type".toList "foo.ext".toList false) ≠
      some ((0 <<< s_maxSeqBits) + 1) := by
  refine ⟨by decide, by decide, by decide, by decide, by decide, by decide, by decide⟩

/-! ## Claim C22: the cross-type eviction order -/

/-- When every candidate costs more than `s_maxCost`, `SelectCandidateToExpire`
returns what it was started with: from `NULL` it returns `NULL`. -/
theorem CFileCacheSet.SelectCandidateToExpire_above_max (env : Env) (s : CFileCacheSet)
    (lowCost : Int) (retVal : Option (List Char)) :
    ∀ cleanupMap : List (List Char × Nat),
      (∀ p ∈ cleanupMap, ∃ c, s.GetFileCacheForType p.1 = some c ∧
        lowCost < c.GetCacheCost env p.2) →
      CFileCacheSet.SelectCandidateToExpire env s cleanupMap retVal lowCost = retVal := by
  intro cleanupMap
  induction cleanupMap with
  | nil => intro _; rfl
  | cons p rest ih =>
    intro h
    obtain ⟨c, hc, hcost⟩ := h p (List.mem_cons_self _ _)
    unfold CFileCacheSet.SelectCandidateToExpire
    simp only [hc]
    rw [if_neg (by omega)]
    exact ih (fun q hq => h q (List.mem_cons_of_mem _ hq))

/-- C22, the failing run: the type `type` holds the single object 1 (12289
bytes, cost 100, lifetime 1) and a second has passed.  The candidate map of
`CleanupAllTypes` is not empty (the type offers the object 1), the cost of the
candidate is `100 * 4 / 1 = 400`, above the `s_maxCost` that
`SelectCandidateToExpire` starts from, so no victim is chosen and
`CleanupAllTypes(4096)` ends with nothing cleaned, less than the 8192 bytes
needed, and the state unchanged. -/
theorem CleanupAllTypes_skips_costly_candidate :
    (CFileCacheSet.InsertCacheObject sampleEnv sampleSet "type".toList "big.ext".toList
      12289 100 1).map Prod.snd = some 1 ∧
    CFileCacheSet.collectCandidates sampleEnvLater sampleCostly.m_cacheSet [] =
      [("type".toList, 1)] ∧
    (sampleCostly.GetFileCacheForType "type".toList).map
      (fun c => c.GetCacheCost sampleEnvLater 1) = some 400 ∧
    CFileCacheSet.SelectCandidateToExpire sampleEnvLater sampleCostly
      [("type".toList, 1)] none s_maxCost = none ∧
    sampleCostly.CleanupAllTypes sampleEnvLater 4096 = (sampleCostly, 0) ∧
    (0 : Int) < GetFilesystemFileSize 4096 := by
  refine ⟨by decide, by decide, by decide, by decide, by decide, by decide⟩

/-- What `SelectCandidateToExpire` returns: its start value when every
candidate costs more than `lowCost`, and otherwise the type of a candidate
whose cost is at most `lowCost` and minimal in the map. -/
theorem CFileCacheSet.SelectCandidateToExpire_min (env : Env) (s : CFileCacheSet) :
    ∀ (cleanupMap : List (List Char × Nat)) (retVal : Option (List Char)) (lowCost : Int),
      (CFileCacheSet.SelectCandidateToExpire env s cleanupMap retVal lowCost = retVal ∧
        ∀ p ∈ cleanupMap, lowCost < s.candidateCost env p) ∨
      (∃ p ∈ cleanupMap,
        CFileCacheSet.SelectCandidateToExpire env s cleanupMap retVal lowCost = some p.1 ∧
        s.candidateCost env p ≤ lowCost ∧
        ∀ q ∈ cleanupMap, s.candidateCost env p ≤ s.candidateCost env q) := by
  intro cleanupMap
  induction cleanupMap with
  | nil => intro retVal lowCost; left; exact ⟨rfl, by simp⟩
  | cons p rest ih =>
    intro retVal lowCost
    have hunf : CFileCacheSet.SelectCandidateToExpire env s (p :: rest) retVal lowCost =
        if s.candidateCost env p ≤ lowCost then
          CFileCacheSet.SelectCandidateToExpire env s rest (some p.1) (s.candidateCost env p)
        else CFileCacheSet.SelectCandidateToExpire env s rest retVal lowCost := by
      rw [CFileCacheSet.SelectCandidateToExpire]
      rfl
    rw [hunf]
    by_cases hle : s.candidateCost env p ≤ lowCost
    · rw [if_pos hle]
      right
      rcases ih (some p.1) (s.candidateCost env p) with ⟨hres, hall⟩ | ⟨q, hq, hres, hqle, hmin⟩
      · refine ⟨p, List.mem_cons_self _ _, hres, hle, ?_⟩
        intro q hq
        rcases List.mem_cons.mp hq with h | h
        · rw [h]
        · exact le_of_lt (hall q h)
      · refine ⟨q, List.mem_cons_of_mem _ hq, hres, le_trans hqle hle, ?_⟩
        intro q1 hq1
        rcases List.mem_cons.mp hq1 with h | h
        · rw [h]; exact hqle
        · exact hmin q1 h
    · rw [if_neg hle]
      rcases ih retVal lowCost with ⟨hres, hall⟩ | ⟨q, hq, hres, hqle, hmin⟩
      · left
        refine ⟨hres, ?_⟩
        intro q hq
        rcases List.mem_cons.mp hq with h | h
        · rw [h]; omega
        · exact hall q h
      · right
        refine ⟨q, List.mem_cons_of_mem _ hq, hres, hqle, ?_⟩
        intro q1 hq1
        rcases List.mem_cons.mp hq1 with h | h
        · rw [h]; omega
        · exact hmin q1 h

/-! ## The sequence number: lemmas -/

theorem CFileCacheSet.WriteSequenceNumber_ok (env : Env) (s : CFileCacheSet)
    (file : Option Int) (h : CFileCacheSet.seqWriteOk env s.m_baseDirName = true) :
    s.WriteSequenceNumber env file = some s.m_sequenceNumber := by
  unfold CFileCacheSet.seqWriteOk at h
  simp only [Bool.and_eq_true, Bool.not_eq_true', List.append_assoc] at h
  obtain ⟨⟨⟨h1, h2⟩, h3⟩, h4⟩ := h
  unfold CFileCacheSet.WriteSequenceNumber
  simp only [h1, List.append_assoc, h2, h3, h4, if_true, Bool.false_eq_true, if_false]

/-- The first two components of `GetNextCachedObjectId.fileLoop` are those of
`GetNextCachedObjectId.loop`: tracking the file changes neither the id nor
the sequence number. -/
theorem CFileCacheSet.GetNextCachedObjectId_fileLoop_agrees (env : Env) (s : CFileCacheSet) :
    ∀ (fuel k : Nat) (seq : Int) (file : Option Int),
      (CFileCacheSet.GetNextCachedObjectId.fileLoop env s fuel k seq file).map
        (fun r => (r.1, r.2.1)) = CFileCacheSet.GetNextCachedObjectId.loop env fuel k seq := by
  intro fuel
  induction fuel with
  | zero => intro k seq file; rfl
  | succ n ih =>
    intro k seq file
    unfold CFileCacheSet.GetNextCachedObjectId.fileLoop CFileCacheSet.GetNextCachedObjectId.loop
    simp only
    split_ifs <;> first | exact ih _ _ _ | rfl

theorem CFileCacheSet.GetNextCachedObjectId_withFile_agrees (env : Env) (s : CFileCacheSet)
    (file : Option Int) :
    (CFileCacheSet.GetNextCachedObjectId.withFile env s file).map (fun r => (r.1, r.2.1)) =
      s.GetNextCachedObjectId env := by
  have h := CFileCacheSet.GetNextCachedObjectId_fileLoop_agrees env s
    ((1 - s.m_sequenceNumber).toNat + 1) 0 s.m_sequenceNumber file
  unfold CFileCacheSet.GetNextCachedObjectId.withFile CFileCacheSet.GetNextCachedObjectId
  rw [← h]
  cases CFileCacheSet.GetNextCachedObjectId.fileLoop env s
      ((1 - s.m_sequenceNumber).toNat + 1) 0 s.m_sequenceNumber file with
  | none => rfl
  | some r => rfl

/-- One call with a sequence number in `[1, 2^62)`: one round, the id of that
round, the sequence number one higher, and the file rewritten when the new
sequence number is a multiple of `s_sequenceBumpCnt`. -/
theorem CFileCacheSet.GetNextCachedObjectId_withFile_eq (env : Env) (s : CFileCacheSet)
    (file : Option Int) (hlo : 1 ≤ s.m_sequenceNumber) (hhi : s.m_sequenceNumber < 2 ^ 62) :
    CFileCacheSet.GetNextCachedObjectId.withFile env s file =
      some ({ s with m_sequenceNumber := s.m_sequenceNumber + 1 },
        CFileCacheSet.firstRoundId env s.m_sequenceNumber,
        if (s.m_sequenceNumber + 1) % 1000 = 0 then
          ({ s with m_sequenceNumber := s.m_sequenceNumber + 1 }).WriteSequenceNumber env file
        else file) := by
  have hfuel : (1 - s.m_sequenceNumber).toNat + 1 = 1 := by omega
  have htmod : Int.tmod (s.m_sequenceNumber + 1) s_sequenceBumpCnt =
      (s.m_sequenceNumber + 1) % 1000 :=
    Int.tmod_eq_emod (by omega) (by decide)
  unfold CFileCacheSet.GetNextCachedObjectId.withFile
  rw [hfuel]
  unfold CFileCacheSet.GetNextCachedObjectId.fileLoop CFileCacheSet.firstRoundId
  have hr : env.lrand48 0 % 2 ^ 32 < 2 ^ 32 := Nat.mod_lt _ (by norm_num)
  generalize env.lrand48 0 % 2 ^ 32 = r at hr
  have hshift : r <<< s_maxSeqBits = r * 2 ^ 22 := by
    rw [Nat.shiftLeft_eq]; rfl
  have hmod : (((r * 2 ^ 22 : Nat) : Int) + s.m_sequenceNumber) % 2 ^ 64 =
      ((r * 2 ^ 22 : Nat) : Int) + s.m_sequenceNumber := by
    apply Int.emod_eq_of_lt <;> omega
  have hvalid : ¬ ((((r * 2 ^ 22 : Nat) : Int) + s.m_sequenceNumber).toNat < 1 ∨
      (((r * 2 ^ 22 : Nat) : Int) + s.m_sequenceNumber).toNat > s_maxId) := by
    simp only [s_maxId]; omega
  simp only [hshift, hmod, htmod]
  simp only [Bool.or_eq_true, decide_eq_true_eq, if_neg hvalid]

/-- A session from a sequence number `seq >= 1` with `seq + n < 2^62` has a
result: the sequence number grows by the number of calls, and the ids are
those of the first rounds. -/
theorem CFileCacheSet.idSession_ids :
    ∀ (envs : List Env) (s : CFileCacheSet) (file : Option Int),
      1 ≤ s.m_sequenceNumber → s.m_sequenceNumber + envs.length < 2 ^ 62 →
      ∃ file1, CFileCacheSet.idSession envs s file =
        some ({ s with m_sequenceNumber := s.m_sequenceNumber + envs.length },
          CFileCacheSet.sessionIds envs s.m_sequenceNumber, file1) := by
  intro envs
  induction envs with
  | nil =>
    intro s file _ _
    refine ⟨file, ?_⟩
    simp [CFileCacheSet.idSession, CFileCacheSet.sessionIds]
  | cons env rest ih =>
    intro s file hlo hhi
    have hlen : ((env :: rest).length : Int) = (rest.length : Int) + 1 := by simp
    rw [hlen] at hhi
    obtain ⟨file1, h1⟩ := ih { s with m_sequenceNumber := s.m_sequenceNumber + 1 }
      (if (s.m_sequenceNumber + 1) % 1000 = 0 then
          ({ s with m_sequenceNumber := s.m_sequenceNumber + 1 }).WriteSequenceNumber env file
        else file) (by simp only; omega) (by simp only; omega)
    refine ⟨file1, ?_⟩
    unfold CFileCacheSet.idSession
    rw [CFileCacheSet.GetNextCachedObjectId_withFile_eq env s file hlo (by omega)]
    simp only [h1, CFileCacheSet.sessionIds, hlen]
    congr 3
    omega

/-! ## Claim C25: the layout of the ids -/

/-- The id of a round whose sequence number is `2^22`: with the random value
`r` it is `(r + 1) << 22`. -/
theorem CFileCacheSet.firstRoundId_overflow (env : Env) :
    CFileCacheSet.firstRoundId env (2 ^ 22) = (env.lrand48 0 % 2 ^ 32 + 1) * 2 ^ 22 := by
  unfold CFileCacheSet.firstRoundId
  have hr : env.lrand48 0 % 2 ^ 32 < 2 ^ 32 := Nat.mod_lt _ (by norm_num)
  generalize env.lrand48 0 % 2 ^ 32 = r at hr
  have hshift : r <<< s_maxSeqBits = r * 2 ^ 22 := by
    rw [Nat.shiftLeft_eq]; rfl
  rw [hshift]
  have hmod : (((r * 2 ^ 22 : Nat) : Int) + 2 ^ 22) % 2 ^ 64 = (((r + 1) * 2 ^ 22 : Nat) : Int) := by
    rw [Int.emod_eq_of_lt] <;> push_cast <;> omega
  rw [hmod, Int.toNat_ofNat]

/-- C25, the failing run: the service starts without a sequence file, so the
sequence number is 1, and `GetNextCachedObjectId` is called `2^22 - 1` times
(whatever the random values and the outcomes of the writes).  The calls all
return, and the sequence number is then `2^22 = 4194304`, above
`s_maxAllowSeqNum`: nothing wraps it.  The id of the next call is
`(r + 1) << 22` for the random value `r`: its low 22 bits are 0, not the
sequence number, and its higher bits are `r + 1`, not `r`. -/
theorem sequence_number_leaves_range (envs : List Env) (hlen : envs.length = 2 ^ 22 - 1)
    (env0 env : Env) (s : CFileCacheSet) :
    (s.ReadSequenceNumber env0 none).1.m_sequenceNumber = 1 ∧
    ∃ s1 ids file1,
      CFileCacheSet.idSession envs (s.ReadSequenceNumber env0 none).1
        (s.ReadSequenceNumber env0 none).2 = some (s1, ids, file1) ∧
      s1.m_sequenceNumber = 2 ^ 22 ∧ s_maxAllowSeqNum < s1.m_sequenceNumber ∧
      ∃ s2 file2,
        CFileCacheSet.GetNextCachedObjectId.withFile env s1 file1 =
          some (s2, (env.lrand48 0 % 2 ^ 32 + 1) * 2 ^ 22, file2) ∧
        s2.m_sequenceNumber = 2 ^ 22 + 1 ∧
        ((env.lrand48 0 % 2 ^ 32 + 1) * 2 ^ 22) % 2 ^ 22 = 0 ∧
        ((env.lrand48 0 % 2 ^ 32 + 1) * 2 ^ 22) >>> 22 = env.lrand48 0 % 2 ^ 32 + 1 := by
  have hseq : (s.ReadSequenceNumber env0 none).1.m_sequenceNumber = 1 := rfl
  refine ⟨hseq, ?_⟩
  obtain ⟨file1, h1⟩ := CFileCacheSet.idSession_ids envs (s.ReadSequenceNumber env0 none).1
    (s.ReadSequenceNumber env0 none).2 (by rw [hseq]) (by rw [hseq, hlen]; norm_num)
  have hend : (s.ReadSequenceNumber env0 none).1.m_sequenceNumber + (envs.length : Int) =
      2 ^ 22 := by
    rw [hseq, hlen]; norm_num
  rw [hend] at h1
  refine ⟨_, _, file1, h1, rfl, (by show s_maxAllowSeqNum < (2 : Int) ^ 22; decide), ?_⟩
  have h2 := CFileCacheSet.GetNextCachedObjectId_withFile_eq env
    { (s.ReadSequenceNumber env0 none).1 with m_sequenceNumber := 2 ^ 22 } file1
    (by show (1 : Int) ≤ 2 ^ 22; decide) (by show (2 : Int) ^ 22 < 2 ^ 62; decide)
  rw [CFileCacheSet.firstRoundId_overflow] at h2
  refine ⟨_, _, h2, rfl, by simp, ?_⟩
  rw [Nat.shiftRight_eq_div_pow]
  simp

/-- C25, an instance: `2^22 - 1` calls in the sample environment, whose random
value is 0, and then one more: its id is `1 << 22 = 4194304`. -/
theorem sequence_number_leaves_range_witness :
    (List.replicate (2 ^ 22 - 1) sampleEnv).length = 2 ^ 22 - 1 ∧
    ∃ s1 ids file1,
      CFileCacheSet.idSession (List.replicate (2 ^ 22 - 1) sampleEnv)
        (sampleSet.ReadSequenceNumber sampleEnv none).1
        (sampleSet.ReadSequenceNumber sampleEnv none).2 = some (s1, ids, file1) ∧
      s1.m_sequenceNumber = 2 ^ 22 ∧
      ∃ s2 file2,
        CFileCacheSet.GetNextCachedObjectId.withFile sampleEnv s1 file1 =
          some (s2, 4194304, file2) :=
  ⟨List.length_replicate _ _,
    match (sequence_number_leaves_range (List.replicate (2 ^ 22 - 1) sampleEnv)
      (List.length_replicate _ _) sampleEnv sampleEnv sampleSet).2 with
    | ⟨s1, ids, file1, h1, h2, _, s2, file2, h3, _⟩ =>
      ⟨s1, ids, file1, h1, h2, s2, file2, h3⟩⟩

/-! ## Claim C24: ids before and after a restart -/

/-- With a sequence number in `[1, 2^22)` the low 22 bits of the id of a round
are the sequence number. -/
theorem CFileCacheSet.firstRoundId_low (env : Env) (seq : Int) (hlo : 1 ≤ seq)
    (hhi : seq < 2 ^ 22) :
    ((CFileCacheSet.firstRoundId env seq % 2 ^ 22 : Nat) : Int) = seq := by
  unfold CFileCacheSet.firstRoundId
  have hr : env.lrand48 0 % 2 ^ 32 < 2 ^ 32 := Nat.mod_lt _ (by norm_num)
  generalize env.lrand48 0 % 2 ^ 32 = r at hr
  have hshift : r <<< s_maxSeqBits = r * 2 ^ 22 := by
    rw [Nat.shiftLeft_eq]; rfl
  rw [hshift]
  have hmod : (((r * 2 ^ 22 : Nat) : Int) + seq) % 2 ^ 64 = ((r * 2 ^ 22 : Nat) : Int) + seq := by
    apply Int.emod_eq_of_lt <;> omega
  rw [hmod]
  omega

/-- The low 22 bits of the ids of a session that stays below `2^22` are the
sequence numbers from `seq` up to `seq + n - 1`. -/
theorem CFileCacheSet.sessionIds_low :
    ∀ (envs : List Env) (seq : Int), 1 ≤ seq → seq + envs.length ≤ 2 ^ 22 →
      ∀ id ∈ CFileCacheSet.sessionIds envs seq,
        seq ≤ ((id % 2 ^ 22 : Nat) : Int) ∧ ((id % 2 ^ 22 : Nat) : Int) < seq + envs.length := by
  intro envs
  induction envs with
  | nil => intro seq _ _ id hid; simp [CFileCacheSet.sessionIds] at hid
  | cons env rest ih =>
    intro seq hlo hhi id hid
    have hlen : ((env :: rest).length : Int) = (rest.length : Int) + 1 := by simp
    rw [hlen] at hhi ⊢
    simp only [CFileCacheSet.sessionIds, List.mem_cons] at hid
    rcases hid with h | h
    · rw [h, CFileCacheSet.firstRoundId_low env seq hlo (by omega)]
      omega
    · have := ih (seq + 1) (by omega) (by omega) id h
      omega

/-- The ids of a session with one environment throughout. -/
theorem CFileCacheSet.sessionIds_replicate (env : Env) :
    ∀ (n : Nat) (seq : Int) (i : Nat), i < n →
      CFileCacheSet.firstRoundId env (seq + i) ∈
        CFileCacheSet.sessionIds (List.replicate n env) seq := by
  intro n
  induction n with
  | zero => intro seq i hi; omega
  | succ m ih =>
    intro seq i hi
    rw [List.replicate_succ]
    simp only [CFileCacheSet.sessionIds, List.mem_cons]
    cases i with
    | zero => left; simp
    | succ j =>
      right
      have h := ih (seq + 1) j (by omega)
      have e : seq + 1 + (j : Int) = seq + ((j + 1 : Nat) : Int) := by push_cast; omega
      rw [e] at h
      exact h

/-- While the writes of the sequence file succeed, the number in the file
stays at most the sequence number and in the same block of
`s_sequenceBumpCnt` numbers. -/
theorem CFileCacheSet.idSession_file :
    ∀ (envs : List Env) (s : CFileCacheSet) (P : Int),
      (∀ env ∈ envs, CFileCacheSet.seqWriteOk env s.m_baseDirName = true) →
      1 ≤ s.m_sequenceNumber → s.m_sequenceNumber + envs.length < 2 ^ 62 →
      P ≤ s.m_sequenceNumber → s.m_sequenceNumber / 1000 = P / 1000 →
      ∃ P1, CFileCacheSet.idSession envs s (some P) =
          some ({ s with m_sequenceNumber := s.m_sequenceNumber + envs.length },
            CFileCacheSet.sessionIds envs s.m_sequenceNumber, some P1) ∧
        P1 ≤ s.m_sequenceNumber + envs.length ∧
        (s.m_sequenceNumber + envs.length) / 1000 = P1 / 1000 := by
  intro envs
  induction envs with
  | nil =>
    intro s P _ _ _ hP hblock
    refine ⟨P, ?_, by simpa using hP, by simpa using hblock⟩
    simp [CFileCacheSet.idSession, CFileCacheSet.sessionIds]
  | cons env rest ih =>
    intro s P hw hlo hhi hP hblock
    have hlen : ((env :: rest).length : Int) = (rest.length : Int) + 1 := by simp
    rw [hlen] at hhi ⊢
    have hwenv := hw env (List.mem_cons_self _ _)
    have hwrite : ({ s with m_sequenceNumber := s.m_sequenceNumber + 1 }).WriteSequenceNumber env
        (some P) = some (s.m_sequenceNumber + 1) :=
      CFileCacheSet.WriteSequenceNumber_ok env _ _ hwenv
    have hcall := CFileCacheSet.GetNextCachedObjectId_withFile_eq env s (some P) hlo (by omega)
    rw [hwrite] at hcall
    by_cases hm : (s.m_sequenceNumber + 1) % 1000 = 0
    · rw [if_pos hm] at hcall
      obtain ⟨P1, h1, h2, h3⟩ := ih { s with m_sequenceNumber := s.m_sequenceNumber + 1 }
        (s.m_sequenceNumber + 1) (fun e he => hw e (List.mem_cons_of_mem _ he))
        (by simp only; omega) (by simp only; omega) (le_refl _) rfl
      simp only at h1 h2 h3
      refine ⟨P1, ?_, by omega, by rw [← h3]; congr 1; omega⟩
      unfold CFileCacheSet.idSession
      rw [hcall]
      simp only [h1, CFileCacheSet.sessionIds]
      congr 3
      omega
    · rw [if_neg hm] at hcall
      obtain ⟨P1, h1, h2, h3⟩ := ih { s with m_sequenceNumber := s.m_sequenceNumber + 1 }
        P (fun e he => hw e (List.mem_cons_of_mem _ he))
        (by simp only; omega) (by simp only; omega) (by simp only; omega)
        (by simp only; omega)
      simp only at h1 h2 h3
      refine ⟨P1, ?_, by omega, by rw [← h3]; congr 1; omega⟩
      unfold CFileCacheSet.idSession
      rw [hcall]
      simp only [h1, CFileCacheSet.sessionIds]
      congr 3
      omega

/-- The sequence number `ReadSequenceNumber` sets is in
`[1, s_maxAllowSeqNum]`, and it is the number written to the file when the
write succeeds. -/
theorem CFileCacheSet.ReadSequenceNumber_range (env : Env) (s : CFileCacheSet)
    (file : Option Int) :
    1 ≤ (s.ReadSequenceNumber env file).1.m_sequenceNumber ∧
    (s.ReadSequenceNumber env file).1.m_sequenceNumber ≤ s_maxAllowSeqNum ∧
    (s.ReadSequenceNumber env file).1.m_baseDirName = s.m_baseDirName ∧
    (CFileCacheSet.seqWriteOk env s.m_baseDirName = true →
      (s.ReadSequenceNumber env file).2 =
        some (s.ReadSequenceNumber env file).1.m_sequenceNumber) := by
  have hmax : s_maxAllowSeqNum = 4194303 := by decide
  refine ⟨?_, ?_, rfl, ?_⟩
  · unfold CFileCacheSet.ReadSequenceNumber
    cases file with
    | none => simp
    | some n =>
      simp only [Bool.or_eq_true, decide_eq_true_eq]
      split_ifs with h
      · exact le_refl _
      · omega
  · unfold CFileCacheSet.ReadSequenceNumber
    cases file with
    | none => simp [hmax]
    | some n =>
      simp only [Bool.or_eq_true, decide_eq_true_eq]
      split_ifs with h
      · rw [hmax]; decide
      · omega
  · intro hw
    exact CFileCacheSet.WriteSequenceNumber_ok env _ file hw

/-- C24 (amended).  Id uniqueness across a restart: a session starts with
`ReadSequenceNumber`, makes any number of `GetNextCachedObjectId` calls with
any random values, the writes of the sequence file succeeding and the sequence
numbers it uses staying at most `2^22 - 1`; the session has a result, and the
file then holds a number `P1`.  When the restart does not roll over
(`P1 + s_sequenceBumpCnt <= s_maxAllowSeqNum`), a second session that starts
with `ReadSequenceNumber` on that file and uses sequence numbers up to
`2^22 - 1` has a result too, and none of its ids is an id of the first
session, whatever the random values. -/
theorem id_uniqueness_across_restart (env0 envR : Env) (envs1 envs2 : List Env)
    (s sR : CFileCacheSet) (file0 : Option Int)
    (hw0 : CFileCacheSet.seqWriteOk env0 s.m_baseDirName = true)
    (hw1 : ∀ env ∈ envs1, CFileCacheSet.seqWriteOk env s.m_baseDirName = true)
    (h1 : (s.ReadSequenceNumber env0 file0).1.m_sequenceNumber + envs1.length ≤ 2 ^ 22) :
    ∃ s1 ids1 P1,
      CFileCacheSet.idSession envs1 (s.ReadSequenceNumber env0 file0).1
        (s.ReadSequenceNumber env0 file0).2 = some (s1, ids1, some P1) ∧
      (P1 + s_sequenceBumpCnt ≤ s_maxAllowSeqNum →
        (sR.ReadSequenceNumber envR (some P1)).1.m_sequenceNumber + envs2.length ≤ 2 ^ 22 →
        ∃ s2 ids2 file2,
          CFileCacheSet.idSession envs2 (sR.ReadSequenceNumber envR (some P1)).1
            (sR.ReadSequenceNumber envR (some P1)).2 = some (s2, ids2, file2) ∧
          ∀ id ∈ ids2, id ∉ ids1) := by
  obtain ⟨hlo, hmax, hbase, hfile⟩ := CFileCacheSet.ReadSequenceNumber_range env0 s file0
  have hmaxv : s_maxAllowSeqNum = 4194303 := by decide
  have hbump : s_sequenceBumpCnt = 1000 := rfl
  rw [hfile hw0]
  obtain ⟨P1, hs1, hP1, hblock⟩ := CFileCacheSet.idSession_file envs1
    (s.ReadSequenceNumber env0 file0).1 (s.ReadSequenceNumber env0 file0).1.m_sequenceNumber
    (by rw [hbase]; exact hw1) hlo (by omega) (le_refl _) rfl
  refine ⟨_, _, P1, hs1, ?_⟩
  intro hroll h2
  have hP1lo : (s.ReadSequenceNumber env0 file0).1.m_sequenceNumber ≤ P1 ∨
      P1 / 1000 = (s.ReadSequenceNumber env0 file0).1.m_sequenceNumber / 1000 := by omega
  have hseqR : (sR.ReadSequenceNumber envR (some P1)).1.m_sequenceNumber = P1 + 1000 := by
    have hn : ¬ (P1 + s_sequenceBumpCnt < 1 ∨ P1 + s_sequenceBumpCnt > s_maxAllowSeqNum) := by
      rw [hbump, hmaxv] at *
      omega
    simp only [CFileCacheSet.ReadSequenceNumber, Bool.or_eq_true, decide_eq_true_eq, if_neg hn]
    rfl
  obtain ⟨file2, hs2⟩ := CFileCacheSet.idSession_ids envs2
    (sR.ReadSequenceNumber envR (some P1)).1 (sR.ReadSequenceNumber envR (some P1)).2
    (by rw [hseqR]; omega) (by omega)
  refine ⟨_, _, file2, hs2, ?_⟩
  intro id hid2 hid1
  have hb1 := CFileCacheSet.sessionIds_low envs1 _ hlo h1 id hid1
  have hb2 := CFileCacheSet.sessionIds_low envs2 _ (by rw [hseqR]; omega) h2 id hid2
  rw [hseqR] at hb2
  omega

/-- C24, an instance: the first session starts without a sequence file and
makes two calls in the sample environment, the second one call. -/
theorem id_uniqueness_across_restart_witness :
    CFileCacheSet.seqWriteOk sampleEnv sampleSet.m_baseDirName = true ∧
    (∀ env ∈ [sampleEnv, sampleEnv],
      CFileCacheSet.seqWriteOk env sampleSet.m_baseDirName = true) ∧
    (sampleSet.ReadSequenceNumber sampleEnv none).1.m_sequenceNumber +
      ([sampleEnv, sampleEnv].length : Int) ≤ 2 ^ 22 ∧
    ∃ s1 ids1 P1,
      CFileCacheSet.idSession [sampleEnv, sampleEnv] (sampleSet.ReadSequenceNumber sampleEnv none).1
        (sampleSet.ReadSequenceNumber sampleEnv none).2 = some (s1, ids1, some P1) ∧
      (P1 + s_sequenceBumpCnt ≤ s_maxAllowSeqNum →
        (sampleSet.ReadSequenceNumber sampleEnv (some P1)).1.m_sequenceNumber +
          ([sampleEnv].length : Int) ≤ 2 ^ 22 →
        ∃ s2 ids2 file2,
          CFileCacheSet.idSession [sampleEnv] (sampleSet.ReadSequenceNumber sampleEnv (some P1)).1
            (sampleSet.ReadSequenceNumber sampleEnv (some P1)).2 = some (s2, ids2, file2) ∧
          ∀ id ∈ ids2, id ∉ ids1) :=
  have hw : ∀ env ∈ [sampleEnv, sampleEnv],
      CFileCacheSet.seqWriteOk env sampleSet.m_baseDirName = true := by
    intro env henv
    simp only [List.mem_cons, List.mem_singleton, List.not_mem_nil, or_false, or_self] at henv
    rw [henv]
    decide
  ⟨by decide, hw, by decide,
    id_uniqueness_across_restart sampleEnv sampleEnv [sampleEnv, sampleEnv] [sampleEnv]
      sampleSet sampleSet none (by decide) hw (by decide)⟩

/-- C24 as stated fails when the restart rolls over.  The first session
starts on a sequence file that holds 4193000: its sequence number is 4194000,
which it writes to the file, and its one call, with the random value 0,
returns the id 4194000.  At the restart `4194000 + 1000` is above
`s_maxAllowSeqNum`, so the sequence number is set to 1.  The second session
makes 4194000 calls with the random value 0; all sequence numbers are at most
`2^22 - 1`, and 4194000 is among its ids. -/
theorem id_uniqueness_across_restart_counterexample :
    (sampleSet.ReadSequenceNumber sampleEnv (some 4193000)).1.m_sequenceNumber = 4194000 ∧
    CFileCacheSet.idSession [sampleEnv] (sampleSet.ReadSequenceNumber sampleEnv (some 4193000)).1
        (sampleSet.ReadSequenceNumber sampleEnv (some 4193000)).2 =
      some ({ sampleSet with m_sequenceNumber := 4194001 }, [4194000], some 4194000) ∧
    (sampleSet.ReadSequenceNumber sampleEnv (some 4194000)).1.m_sequenceNumber = 1 ∧
    ∃ s2 ids2 file2,
      CFileCacheSet.idSession (List.replicate 4194000 sampleEnv)
        (sampleSet.ReadSequenceNumber sampleEnv (some 4194000)).1
        (sampleSet.ReadSequenceNumber sampleEnv (some 4194000)).2 = some (s2, ids2, file2) ∧
      s2.m_sequenceNumber = 4194001 ∧ 4194000 ∈ ids2 := by
  refine ⟨by decide, by decide, by decide, ?_⟩
  have hseq : (sampleSet.ReadSequenceNumber sampleEnv (some 4194000)).1.m_sequenceNumber = 1 := by
    decide
  obtain ⟨file2, h2⟩ := CFileCacheSet.idSession_ids (List.replicate 4194000 sampleEnv)
    (sampleSet.ReadSequenceNumber sampleEnv (some 4194000)).1
    (sampleSet.ReadSequenceNumber sampleEnv (some 4194000)).2 (by rw [hseq])
    (by rw [hseq, List.length_replicate]; norm_num)
  refine ⟨_, _, file2, h2, ?_, ?_⟩
  · show (sampleSet.ReadSequenceNumber sampleEnv (some 4194000)).1.m_sequenceNumber +
      ((List.replicate 4194000 sampleEnv).length : Int) = 4194001
    rw [hseq, List.length_replicate]
    norm_num
  · rw [hseq]
    have h := CFileCacheSet.sessionIds_replicate sampleEnv 4194000 1 4193999 (by norm_num)
    have e : CFileCacheSet.firstRoundId sampleEnv (1 + ((4193999 : Nat) : Int)) = 4194000 := by
      decide
    rw [e] at h
    exact h

/-! ## Claim C21: the budget of the low watermarks -/

theorem loSum_replace (m : List (List Char × CFileCache)) (k : List Char) (c v : CFileCache)
    (hnd : (AMap.keys m).Nodup) (h : AMap.find m k = some c) :
    ((AMap.replace m k v).map (fun p => p.2.m_loWatermark)).sum =
      (m.map (fun p => p.2.m_loWatermark)).sum - c.m_loWatermark + v.m_loWatermark := by
  induction m with
  | nil => simp [AMap.find] at h
  | cons p m ih =>
    have hnd0 : (p.1 :: AMap.keys m).Nodup := hnd
    have hnd1 : p.1 ∉ AMap.keys m ∧ (AMap.keys m).Nodup := List.nodup_cons.mp hnd0
    rw [AMap.find_cons] at h
    rw [AMap.replace_cons]
    by_cases hp : p.1 = k
    · rw [if_pos hp] at h
      have hc : p.2 = c := Option.some.inj h
      rw [if_pos hp, AMap.replace_of_not_mem_keys m k v (by rw [← hp]; exact hnd1.1)]
      simp only [List.map_cons, List.sum_cons]
      rw [hc]
      omega
    · rw [if_neg hp] at h
      rw [if_neg hp]
      simp only [List.map_cons, List.sum_cons]
      rw [ih hnd1.2 h]
      omega

theorem loSum_orderedInsert (lt : List Char → List Char → Bool) (k : List Char) (v : CFileCache)
    (m : List (List Char × CFileCache)) :
    ((AMap.orderedInsert lt k v m).map (fun p => p.2.m_loWatermark)).sum =
      (m.map (fun p => p.2.m_loWatermark)).sum + v.m_loWatermark := by
  induction m with
  | nil => simp [AMap.orderedInsert]
  | cons p m ih =>
    simp only [AMap.orderedInsert]
    by_cases h : lt k p.1 = true
    · rw [if_pos h]
      simp only [List.map_cons, List.sum_cons]
      omega
    · rw [if_neg h]
      simp only [List.map_cons, List.sum_cons]
      rw [ih]
      omega

theorem mem_orderedInsert (lt : List Char → List Char → Bool) (k : List Char) (v : CFileCache)
    (m : List (List Char × CFileCache)) (q : List Char × CFileCache)
    (h : q ∈ AMap.orderedInsert lt k v m) : q = (k, v) ∨ q ∈ m := by
  induction m with
  | nil => simpa [AMap.orderedInsert] using h
  | cons p m ih =>
    simp only [AMap.orderedInsert] at h
    by_cases hlt : lt k p.1 = true
    · rw [if_pos hlt] at h
      simpa using h
    · rw [if_neg hlt] at h
      rcases List.mem_cons.mp h with h1 | h1
      · right; rw [h1]; exact List.mem_cons_self _ _
      · rcases ih h1 with h2 | h2
        · left; exact h2
        · right; exact List.mem_cons_of_mem _ h2

theorem loSum_erase_le (m : List (List Char × CFileCache)) (k : List Char)
    (hpos : ∀ p ∈ m, 0 ≤ p.2.m_loWatermark) :
    ((AMap.erase m k).map (fun p => p.2.m_loWatermark)).sum ≤
      (m.map (fun p => p.2.m_loWatermark)).sum := by
  induction m with
  | nil => simp [AMap.erase]
  | cons p m ih =>
    have h0 := hpos p (List.mem_cons_self _ _)
    have ih1 := ih (fun q hq => hpos q (List.mem_cons_of_mem _ hq))
    rw [AMap.erase_cons]
    by_cases hp : p.1 = k
    · rw [if_pos hp]
      simp only [List.map_cons, List.sum_cons]
      omega
    · rw [if_neg hp]
      simp only [List.map_cons, List.sum_cons]
      omega

theorem CFileCache.Expire_loWatermark (env : Env) (b : List Char) (c : CFileCache)
    (objId : Nat) : (c.Expire env b objId).1.m_loWatermark = c.m_loWatermark := by
  cases hf : c.GetCacheObjectForId objId with
  | none => rw [CFileCache.Expire_none env b c objId hf]
  | some o =>
    obtain ⟨l, ⟨_, _, h3⟩ | ⟨_, _, h3⟩⟩ := CFileCache.Expire_fst env b c objId o hf <;>
      rw [h3]

theorem loWatermarks_replace (m : List (List Char × CFileCache)) (k : List Char)
    (c v : CFileCache) (hnd : (AMap.keys m).Nodup) (h : AMap.find m k = some c)
    (hv : v.m_loWatermark = c.m_loWatermark) :
    (AMap.replace m k v).map (fun p => (p.1, p.2.m_loWatermark)) =
      m.map (fun p => (p.1, p.2.m_loWatermark)) := by
  induction m with
  | nil => rfl
  | cons p m ih =>
    have hnd0 : (p.1 :: AMap.keys m).Nodup := hnd
    have hnd1 : p.1 ∉ AMap.keys m ∧ (AMap.keys m).Nodup := List.nodup_cons.mp hnd0
    rw [AMap.find_cons] at h
    rw [AMap.replace_cons]
    by_cases hp : p.1 = k
    · rw [if_pos hp] at h
      have hc : p.2 = c := Option.some.inj h
      rw [if_pos hp, AMap.replace_of_not_mem_keys m k v (by rw [← hp]; exact hnd1.1)]
      simp only [List.map_cons, hv, hc]
    · rw [if_neg hp] at h
      rw [if_neg hp]
      simp only [List.map_cons]
      rw [ih hnd1.2 h]

/-- No step of the expiry machinery changes a stored low watermark. -/
theorem Cleans.loWatermarks {env : Env} {s s1 : CFileCacheSet} (hcl : Cleans env s s1)
    (hnd : (AMap.keys s.m_cacheSet).Nodup) : s1.loWatermarks = s.loWatermarks := by
  induction hcl with
  | done s => rfl
  | unmap s s1 objId _ ih => exact ih hnd
  | expire s s1 typeName objId _ ih =>
    have hk := (CFileCache.ExpireIn_sameFrame env s typeName objId).2.2.2
    rw [ih (by rw [hk]; exact hnd)]
    cases hc : s.GetFileCacheForType typeName with
    | none => rw [CFileCache.ExpireIn_none env s typeName objId hc]
    | some c =>
      unfold CFileCacheSet.loWatermarks
      rw [(CFileCache.ExpireIn_cacheSet env s typeName objId c hc).1]
      exact loWatermarks_replace _ _ c _ hnd hc (CFileCache.Expire_loWatermark env _ c objId)
  | relist s s1 typeName c l hc _ ih =>
    rw [ih (by
      show (AMap.keys (AMap.replace s.m_cacheSet typeName _)).Nodup
      rw [AMap.keys_replace]; exact hnd)]
    exact loWatermarks_replace _ _ c _ hnd hc rfl

theorem BudgetInv.of_loWatermarks {s s1 : CFileCacheSet} (h : BudgetInv s)
    (hl : s1.loWatermarks = s.loWatermarks) (ht : s1.m_totalCacheSpace = s.m_totalCacheSpace) :
    BudgetInv s1 := by
  obtain ⟨h1, h2, h3⟩ := h
  have hkeys : AMap.keys s1.m_cacheSet = AMap.keys s.m_cacheSet := by
    have := congrArg (List.map Prod.fst) hl
    simpa [CFileCacheSet.loWatermarks, AMap.keys, List.map_map, Function.comp_def] using this
  have hvals : s1.m_cacheSet.map (fun p => p.2.m_loWatermark) =
      s.m_cacheSet.map (fun p => p.2.m_loWatermark) := by
    have := congrArg (List.map Prod.snd) hl
    simpa [CFileCacheSet.loWatermarks, List.map_map, Function.comp_def] using this
  refine ⟨by rw [hkeys]; exact h1, ?_, ?_⟩
  · intro p hp
    have hm : p.2.m_loWatermark ∈ s1.m_cacheSet.map (fun p => p.2.m_loWatermark) :=
      List.mem_map.mpr ⟨p, hp, rfl⟩
    rw [hvals] at hm
    obtain ⟨q, hq, he⟩ := List.mem_map.mp hm
    rw [← he]
    exact h2 q hq
  · unfold CFileCacheSet.SumOfLoWatermarks at h3 ⊢
    rw [hvals, ht]
    exact h3

theorem ConfigStep.preserves {s s1 : CFileCacheSet} (hstep : ConfigStep s s1)
    (h : BudgetInv s) : BudgetInv s1 ∧ s1.m_totalCacheSpace = s.m_totalCacheSpace := by
  obtain ⟨hnd, hpos, hsum⟩ := h
  cases hstep with
  | defineType env s typeName p dirType =>
    unfold CFileCacheSet.DefineType
    cases hc : s.GetFileCacheForType typeName with
    | some c => exact ⟨⟨hnd, hpos, hsum⟩, rfl⟩
    | none =>
      simp only
      by_cases hadm : GetFilesystemFileSize p.loWatermark <
          s.m_totalCacheSpace - s.SumOfLoWatermarks
      · rw [CFileCache.Configure_admitted env s _ p dirType hadm]
        simp only
        split_ifs with hw
        · refine ⟨⟨?_, ?_, ?_⟩, rfl⟩
          · simp only [AMap.insert]
            have hc1 : AMap.find s.m_cacheSet typeName = none := hc
            rw [hc1]
            simp only
            refine (List.Perm.nodup_iff (AMap.keys_orderedInsert_perm _ _ _ _)).mpr ?_
            exact List.nodup_cons.mpr ⟨AMap.not_mem_keys_of_find _ _ hc1, hnd⟩
          · intro q hq
            simp only [AMap.insert] at hq
            have hc1 : AMap.find s.m_cacheSet typeName = none := hc
            rw [hc1] at hq
            simp only at hq
            rcases mem_orderedInsert _ _ _ _ _ hq with h1 | h1
            · rw [h1]
              simp only
              rw [(CFileCache.Configure_apply_watermarks _ p dirType).1]
              split_ifs
              · exact le_of_lt (GetFilesystemFileSize_pos _)
              · exact le_refl _
            · exact hpos q h1
          · unfold CFileCacheSet.SumOfLoWatermarks at hadm hsum ⊢
            simp only [AMap.insert]
            have hc1 : AMap.find s.m_cacheSet typeName = none := hc
            rw [hc1]
            simp only
            rw [loSum_orderedInsert, (CFileCache.Configure_apply_watermarks _ p dirType).1]
            split_ifs
            · omega
            · have h0 : (CFileCache.new typeName).m_loWatermark = 0 := rfl
              omega
        · exact ⟨⟨hnd, hpos, hsum⟩, rfl⟩
      · rw [CFileCache.Configure_refused env s _ p dirType hadm]
        exact ⟨⟨hnd, hpos, hsum⟩, rfl⟩
  | changeType env s typeName p =>
    unfold CFileCacheSet.ChangeType
    cases hc : s.GetFileCacheForType typeName with
    | none => exact ⟨⟨hnd, hpos, hsum⟩, rfl⟩
    | some c =>
      simp only
      have hc1 : AMap.find s.m_cacheSet typeName = some c := hc
      by_cases hadm : GetFilesystemFileSize p.loWatermark <
          s.m_totalCacheSpace - s.SumOfLoWatermarks
      · rw [CFileCache.Configure_admitted env s c p false hadm]
        simp only [CFileCacheSet.setCache]
        refine ⟨⟨?_, ?_, ?_⟩, trivial⟩
        · rw [AMap.keys_replace]; exact hnd
        · intro q hq
          rcases AMap.mem_replace _ _ _ q hq with h1 | h1
          · exact hpos q h1
          · rw [h1, (CFileCache.Configure_apply_watermarks c p false).1]
            split_ifs
            · exact le_of_lt (GetFilesystemFileSize_pos _)
            · exact hpos (typeName, c) (AMap.mem_of_find _ _ _ hc1)
        · unfold CFileCacheSet.SumOfLoWatermarks at hadm hsum ⊢
          simp only
          rw [loSum_replace _ _ c _ hnd hc1, (CFileCache.Configure_apply_watermarks c p false).1]
          have h0 := hpos (typeName, c) (AMap.mem_of_find _ _ _ hc1)
          simp only at h0
          split_ifs
          · omega
          · omega
      · rw [CFileCache.Configure_refused env s c p false hadm]
        exact ⟨BudgetInv.of_loWatermarks ⟨hnd, hpos, hsum⟩
          (loWatermarks_replace _ _ c c hnd hc1 rfl) rfl, rfl⟩
  | deleteType env s typeName =>
    unfold CFileCacheSet.DeleteType
    cases hc : s.GetFileCacheForType typeName with
    | none => exact ⟨⟨hnd, hpos, hsum⟩, rfl⟩
    | some c =>
      simp only
      split_ifs with hcl
      · have hk := @Cleans.foldl env Nat
          (fun acc objId => (CFileCacheSet.ExpireCacheObject env acc objId).1)
          (fun a x => CFileCacheSet.ExpireCacheObject_cleans env a x)
          c.GetCachedObjects.reverse s
        have hinv := BudgetInv.of_loWatermarks ⟨hnd, hpos, hsum⟩ (hk.loWatermarks hnd)
          hk.sameFrame.2.2.1
        obtain ⟨i1, i2, i3⟩ := hinv
        refine ⟨⟨?_, ?_, ?_⟩, hk.sameFrame.2.2.1⟩
        · exact AMap.keys_erase_nodup _ _ i1
        · intro q hq
          exact i2 q (AMap.mem_erase _ _ q hq)
        · unfold CFileCacheSet.SumOfLoWatermarks at i3 ⊢
          exact le_trans (loSum_erase_le _ _ i2) i3
      · exact ⟨⟨hnd, hpos, hsum⟩, rfl⟩

/-- C21.  Low watermark budget: in every state reachable from a cache set
without types (whose total cache space is not negative) through `DefineType`
and `ChangeType` with explicit parameters and `DeleteType`, with any outcomes
of the system calls, the sum of the stored low watermarks of the defined types
is at most `m_totalCacheSpace`, which no request changes. -/
theorem lo_watermark_budget (s0 s : CFileCacheSet) (hempty : s0.m_cacheSet = [])
    (htotal : 0 ≤ s0.m_totalCacheSpace) (hr : ConfigReachable s0 s) :
    s.SumOfLoWatermarks ≤ s.m_totalCacheSpace ∧ s.m_totalCacheSpace = s0.m_totalCacheSpace := by
  have key : BudgetInv s ∧ s.m_totalCacheSpace = s0.m_totalCacheSpace := by
    induction hr with
    | init =>
      refine ⟨⟨?_, ?_, ?_⟩, rfl⟩
      · rw [hempty]; exact List.nodup_nil
      · rw [hempty]; intro p hp; simp at hp
      · unfold CFileCacheSet.SumOfLoWatermarks
        rw [hempty]
        simpa using htotal
    | step s s1 _ hstep ih =>
      obtain ⟨h1, h2⟩ := hstep.preserves ih.1
      exact ⟨h1, h2.trans ih.2⟩
  exact ⟨key.1.2.2, key.2⟩

/-- C21, an instance: `DefineType("type", (10000, 20000, ..))` on the sample
set without types, then `ChangeType("type", ..)` with the same parameters,
which is refused: the sum of the low watermarks is 16384, the total space
8388608. -/
theorem lo_watermark_budget_witness :
    sampleEmptySet.m_cacheSet = [] ∧ 0 ≤ sampleEmptySet.m_totalCacheSpace ∧
    ConfigReachable sampleEmptySet
      (((sampleEmptySet.DefineType sampleEnv "type".toList (some sampleParams) false).1).ChangeType
        sampleEnv "type".toList (some sampleParams)).1 ∧
    (((sampleEmptySet.DefineType sampleEnv "type".toList (some sampleParams) false).1).ChangeType
        sampleEnv "type".toList (some sampleParams)).1.SumOfLoWatermarks = 16384 ∧
    (((sampleEmptySet.DefineType sampleEnv "type".toList (some sampleParams) false).1).ChangeType
        sampleEnv "type".toList (some sampleParams)).1.SumOfLoWatermarks ≤
      (((sampleEmptySet.DefineType sampleEnv "type".toList (some sampleParams) false).1).ChangeType
        sampleEnv "type".toList (some sampleParams)).1.m_totalCacheSpace :=
  have hr : ConfigReachable sampleEmptySet
      (((sampleEmptySet.DefineType sampleEnv "type".toList (some sampleParams) false).1).ChangeType
        sampleEnv "type".toList (some sampleParams)).1 :=
    ConfigReachable.step _ _
      (ConfigReachable.step _ _ ConfigReachable.init
        (ConfigStep.defineType sampleEnv sampleEmptySet "type".toList sampleParams false))
      (ConfigStep.changeType sampleEnv _ "type".toList sampleParams)
  ⟨rfl, by decide, hr, by decide,
    (lo_watermark_budget sampleEmptySet _ rfl (by decide) hr).1⟩

/-! ## Claim C27: the postcondition of the local cleanup -/

/-- C27, the failing run: in `sampleStaleTail` the LRU list of the type is
`[3, 2, 1]`, the id 1 at its tail is no key of the object map, the size of the
type is 16384 and its high watermark 24576.  `Cleanup(8192)` has
`8192 < hiWatermark`; its first `CleanupCache` pops the id 1, finds no object
and reports the size -1 although `ExpireCacheObject` returned true, so the
loop ends: afterwards `cacheSize + 8192 = 24576` is not below the high
watermark and the LRU list, `[3, 2]`, is not empty; no object was expired. -/
theorem Cleanup_stops_at_stale_id :
    (sampleStaleTail.GetFileCacheForType "type".toList).map
      (fun c => (c.m_cacheList, AMap.keys c.m_cachedObjects, c.m_cacheSize, c.m_hiWatermark)) =
      some ([3, 2, 1], [2, 3], 16384, 24576) ∧
    (CFileCache.CleanupCache sampleEnv sampleStaleTail "type".toList).2 = (-1, some 1) ∧
    ((CFileCache.Cleanup sampleEnv sampleStaleTail "type".toList 8192).GetFileCacheForType
        "type".toList).map
      (fun c => (c.m_cacheList, AMap.keys c.m_cachedObjects, c.m_cacheSize, c.m_hiWatermark)) =
      some ([3, 2], [2, 3], 16384, 24576) ∧
    ¬ ((16384 : Int) + 8192 < 24576) := by
  refine ⟨by decide, by decide, by decide, by decide⟩

/-! ## Claim C28: the id map -/

/-- C28, the failing run: the checks of the service accept the empty type
name, `DefineType("")` creates the type and `InsertCacheObject("")` puts the
object 1 into it, with the entry `1 -> ""` in `m_idMap`.
`GetTypeForObjectId` returns the empty string for "not found", so
`ExpireCacheObject(1)` does nothing and reports success; `DeleteType("")`
reports the 8192 bytes of the type, deletes it with its object and leaves the
entry `1 -> ""` in `m_idMap`, which now names a type that is not defined. -/
theorem DeleteType_leaves_id_of_nameless_type :
    CategoryHandler.DefineType.paramsOk [] sampleParams false false = true ∧
    sampleNamelessSet.TypeExists [] = true ∧
    (sampleNamelessSet.InsertCacheObject sampleEnv [] "a.ext".toList 123 1 1).map Prod.snd =
      some 1 ∧
    sampleNamelessObject.m_idMap = [(1, [])] ∧
    ((sampleNamelessObject.GetFileCacheForType []).bind (fun c => c.GetCacheObjectForId 1)).map
      (fun o => o.m_expired) = some false ∧
    sampleNamelessObject.ExpireCacheObject sampleEnv 1 = (sampleNamelessObject, true) ∧
    (sampleNamelessObject.DeleteType sampleEnv []).2 = 8192 ∧
    (sampleNamelessObject.DeleteType sampleEnv []).1.m_idMap = [(1, [])] ∧
    (sampleNamelessObject.DeleteType sampleEnv []).1.TypeExists [] = false ∧
    (sampleNamelessObject.DeleteType sampleEnv []).1.GetFileCacheForType [] = none := by
  refine ⟨by decide, by decide, by decide, by decide, by decide, by decide, by decide, by decide,
    by decide, by decide⟩

/-! ## Claim C26: the life of the objects of a directory type -/

theorem AMap.find_filter_keys {κ α : Type} [DecidableEq κ] (m : List (κ × α)) (done : List κ)
    (k : κ) :
    AMap.find (m.filter (fun p => decide (p.1 ∉ done))) k =
      if k ∈ done then none else AMap.find m k := by
  induction m with
  | nil => simp [AMap.find]
  | cons p m ih =>
    by_cases hp : p.1 ∈ done
    · rw [List.filter_cons_of_neg (by simpa using hp), ih, AMap.find_cons]
      by_cases hk : k ∈ done
      · simp [hk]
      · have : p.1 ≠ k := fun e => hk (e ▸ hp)
        simp [hk, this]
    · rw [List.filter_cons_of_pos (by simpa using hp), AMap.find_cons, AMap.find_cons, ih]
      by_cases hpk : p.1 = k
      · have : k ∉ done := fun h => hp (hpk ▸ h)
        simp [hpk, this]
      · simp [hpk]

theorem AMap.erase_filter_keys {κ α : Type} [DecidableEq κ] (m : List (κ × α)) (done : List κ)
    (k : κ) :
    AMap.erase (m.filter (fun p => decide (p.1 ∉ done))) k =
      m.filter (fun p => decide (p.1 ∉ k :: done)) := by
  unfold AMap.erase
  rw [List.filter_filter]
  apply List.filter_congr
  intro p _
  by_cases h1 : p.1 = k <;> by_cases h2 : p.1 ∈ done <;> simp [h1, h2]

theorem AMap.find_of_mem_nodup {κ α : Type} [DecidableEq κ] (m : List (κ × α)) (p : κ × α)
    (hnd : (AMap.keys m).Nodup) (hp : p ∈ m) : AMap.find m p.1 = some p.2 := by
  induction m with
  | nil => simp at hp
  | cons q m ih =>
    have hnd0 : (q.1 :: AMap.keys m).Nodup := hnd
    have hnd1 : q.1 ∉ AMap.keys m ∧ (AMap.keys m).Nodup := List.nodup_cons.mp hnd0
    rw [AMap.find_cons]
    rcases List.mem_cons.mp hp with h | h
    · rw [h, if_pos rfl]
    · have hne : q.1 ≠ p.1 := by
        intro e
        apply hnd1.1
        rw [e]
        exact List.mem_map.mpr ⟨p, h, rfl⟩
      rw [if_neg hne]
      exact ih hnd1.2 h

theorem CFileCache.ExpireIn_fields (env : Env) (s : CFileCacheSet) (typeName : List Char)
    (objId : Nat) :
    (CFileCache.ExpireIn env s typeName objId).1.m_idMap = s.m_idMap ∧
    (CFileCache.ExpireIn env s typeName objId).1.m_baseDirName = s.m_baseDirName := by
  unfold CFileCache.ExpireIn
  cases s.GetFileCacheForType typeName with
  | none => exact ⟨rfl, rfl⟩
  | some c => exact ⟨rfl, rfl⟩

/-- An `Expire` of the cache on an object without subscriptions whose removal
succeeds takes the object out of the map and lowers `m_numObjects` by one. -/
theorem CFileCache.ExpireIn_removes (env : Env) (s : CFileCacheSet) (typeName : List Char)
    (objId : Nat) (c : CFileCache) (o : CCacheObject)
    (hc : s.GetFileCacheForType typeName = some c)
    (ho : c.GetCacheObjectForId objId = some o)
    (hok : (o.Expire env s.m_baseDirName c.m_cacheType).2.1 = true) :
    ∃ c1, (CFileCache.ExpireIn env s typeName objId).1.GetFileCacheForType typeName = some c1 ∧
      c1.m_cachedObjects = AMap.erase c.m_cachedObjects objId ∧
      c1.m_numObjects = c.m_numObjects - 1 ∧ c1.m_cacheType = c.m_cacheType := by
  obtain ⟨l, ⟨_, _, h3⟩ | ⟨h1, _, _⟩⟩ := CFileCache.Expire_fst env s.m_baseDirName c objId o ho
  · refine ⟨(c.Expire env s.m_baseDirName objId).1, ?_, ?_, ?_, ?_⟩
    · unfold CFileCacheSet.GetFileCacheForType
      rw [(CFileCache.ExpireIn_cacheSet env s typeName objId c hc).1]
      exact AMap.find_replace_self _ _ _ _ hc
    · rw [h3]
    · rw [h3]
    · rw [h3]
  · rw [hok] at h1
    exact Bool.noConfusion h1

theorem DirCleaned.afterStep (env : Env) {s s1 : CFileCacheSet} {typeName : List Char}
    {c : CFileCache} {done : List Nat} (h : DirCleaned s typeName c done s1) (objId : Nat)
    (o : CCacheObject) (hnot : objId ∉ done) (ho : c.GetCacheObjectForId objId = some o)
    (hok : (o.Expire env s.m_baseDirName c.m_cacheType).2.1 = true)
    (hreg : o.m_expired = true ∨ (typeName ≠ [] ∧ AMap.find s.m_idMap objId = some typeName)) :
    DirCleaned s typeName c (objId :: done) (CFileCache.CleanupDirType.step env typeName s1 objId) := by
  obtain ⟨hbase, hid, c1, hc1, hobjs, hnum, htype⟩ := h
  have ho1 : c1.GetCacheObjectForId objId = some o := by
    unfold CFileCache.GetCacheObjectForId
    rw [hobjs, AMap.find_filter_keys, if_neg hnot]
    exact ho
  have hlen : (((objId :: done).length : Nat) : Int) = (done.length : Int) + 1 := by simp
  unfold CFileCache.CleanupDirType.step
  rw [hc1]
  simp only [ho1]
  by_cases hexp : o.m_expired = true
  · rw [if_pos hexp]
    obtain ⟨c2, h1, h2, h3, h4⟩ := CFileCache.ExpireIn_removes env s1 typeName objId c1 o hc1 ho1
      (by rw [hbase, htype]; exact hok)
    obtain ⟨f1, f2⟩ := CFileCache.ExpireIn_fields env s1 typeName objId
    refine ⟨f2.trans hbase, ?_, c2, h1, ?_, ?_, h4.trans htype⟩
    · intro id hidn
      rw [f1]
      exact hid id (fun hm => hidn (List.mem_cons_of_mem _ hm))
    · rw [h2, hobjs, AMap.erase_filter_keys]
    · rw [h3, hnum, hlen]; omega
  · rw [if_neg hexp]
    rcases hreg with hr | ⟨hne, hmap⟩
    · exact absurd hr hexp
    · have hfind : AMap.find s1.m_idMap objId = some typeName := by
        rw [hid objId hnot]; exact hmap
      have htypeOf : s1.GetTypeForObjectId objId = typeName := by
        unfold CFileCacheSet.GetTypeForObjectId
        rw [hfind]
      have hnotEmpty : typeName.isEmpty = false := by
        cases typeName with
        | nil => exact absurd rfl hne
        | cons _ _ => rfl
      rw [CFileCacheSet.ExpireCacheObject_eq, htypeOf, hnotEmpty, hc1]
      simp only [Bool.false_eq_true, if_false]
      have hc1r : (s1.RemoveObjectFromIdMap objId).GetFileCacheForType typeName = some c1 := hc1
      obtain ⟨c2, h1, h2, h3, h4⟩ := CFileCache.ExpireIn_removes env
        (s1.RemoveObjectFromIdMap objId) typeName objId c1 o hc1r ho1
        (by
          show (o.Expire env s1.m_baseDirName c1.m_cacheType).2.1 = true
          rw [hbase, htype]; exact hok)
      obtain ⟨f1, f2⟩ := CFileCache.ExpireIn_fields env (s1.RemoveObjectFromIdMap objId)
        typeName objId
      refine ⟨f2.trans hbase, ?_, c2, h1, ?_, ?_, h4.trans htype⟩
      · intro id hidn
        rw [f1]
        have hne1 : id ≠ objId := fun e => hidn (e ▸ List.mem_cons_self _ _)
        show AMap.find (AMap.erase s1.m_idMap objId) id = AMap.find s.m_idMap id
        rw [AMap.find_erase, if_neg hne1]
        exact hid id (fun hm => hidn (List.mem_cons_of_mem _ hm))
      · rw [h2, hobjs, AMap.erase_filter_keys]
      · rw [h3, hnum, hlen]; omega

theorem DirCleaned.afterRun (env : Env) {s : CFileCacheSet} {typeName : List Char} {c : CFileCache} :
    ∀ (l done : List Nat) (s1 : CFileCacheSet), DirCleaned s typeName c done s1 →
      l.Nodup → (∀ x ∈ l, x ∉ done) →
      (∀ x ∈ l, ∃ o, c.GetCacheObjectForId x = some o ∧
        (o.Expire env s.m_baseDirName c.m_cacheType).2.1 = true ∧
        (o.m_expired = true ∨ (typeName ≠ [] ∧ AMap.find s.m_idMap x = some typeName))) →
      DirCleaned s typeName c (l.reverse ++ done)
        (l.foldl (CFileCache.CleanupDirType.step env typeName) s1) := by
  intro l
  induction l with
  | nil => intro done s1 h _ _ _; simpa using h
  | cons x l ih =>
    intro done s1 h hnd hnot hcond
    obtain ⟨hx, hl⟩ := List.nodup_cons.mp hnd
    obtain ⟨o, ho, hok, hreg⟩ := hcond x (List.mem_cons_self _ _)
    have hstep := h.afterStep env x o (hnot x (List.mem_cons_self _ _)) ho hok hreg
    have := ih (x :: done) _ hstep hl
      (by
        intro y hy hm
        rcases List.mem_cons.mp hm with e | e
        · exact hx (e ▸ hy)
        · exact hnot y (List.mem_cons_of_mem _ hy) e)
      (fun y hy => hcond y (List.mem_cons_of_mem _ hy))
    rw [List.foldl_cons, List.reverse_cons, List.append_assoc]
    exact this

theorem CCacheObject.UnSubscribe_dirType (env : Env) (b t : List Char) (o : CCacheObject)
    (hdir : o.m_dirType = true) :
    o.UnSubscribe env b t =
      ({ o with m_subscriptionCount := o.m_subscriptionCount - 1, m_expired := true }, true) := by
  unfold CCacheObject.UnSubscribe
  simp [hdir]

/-- C26 (amended).  Directory objects: `UnSubscribe` of an object with
`dirType = true` leaves it in the object map, expired, with one subscription
less, and without an entry in `m_idMap`, whatever the filesystem holds.
`CleanupDirType` on a type leaves every object with subscriptions in the
object map, still subscribed; and when every object without subscriptions can
be removed (its `Expire` succeeds: it has a file name and `CleanupDir` or
`unlink` succeeds) and is expired or entered in `m_idMap` under this type, the
object map afterwards is the map before without the objects whose
subscription count is 0, and `m_numObjects` is lower by their number. -/
theorem dirType_lifecycle (env : Env) (s : CFileCacheSet) (typeName : List Char)
    (c : CFileCache) (hc : s.GetFileCacheForType typeName = some c)
    (hnd : (AMap.keys c.m_cachedObjects).Nodup) :
    (∀ (objId : Nat) (o : CCacheObject), c.GetCacheObjectForId objId = some o →
      o.m_dirType = true →
      ∃ c1 o1,
        (CFileCache.UnSubscribe env s typeName objId).GetFileCacheForType typeName = some c1 ∧
        c1.GetCacheObjectForId objId = some o1 ∧ o1.m_expired = true ∧
        o1.m_subscriptionCount = o.m_subscriptionCount - 1 ∧
        AMap.find (CFileCache.UnSubscribe env s typeName objId).m_idMap objId = none) ∧
    (∀ (objId : Nat) (o : CCacheObject), c.GetCacheObjectForId objId = some o →
      0 < o.m_subscriptionCount →
      ∃ c1 o1,
        (CFileCache.CleanupDirType env s typeName).GetFileCacheForType typeName = some c1 ∧
        c1.GetCacheObjectForId objId = some o1 ∧ 0 < o1.m_subscriptionCount) ∧
    ((∀ p ∈ c.m_cachedObjects, p.2.m_subscriptionCount = 0 →
        (p.2.Expire env s.m_baseDirName c.m_cacheType).2.1 = true ∧
        (p.2.m_expired = true ∨ (typeName ≠ [] ∧ AMap.find s.m_idMap p.1 = some typeName))) →
      ∃ c1,
        (CFileCache.CleanupDirType env s typeName).GetFileCacheForType typeName = some c1 ∧
        c1.m_cachedObjects =
          c.m_cachedObjects.filter (fun p => decide (p.2.m_subscriptionCount ≠ 0)) ∧
        c1.m_numObjects = c.m_numObjects -
          ((c.m_cachedObjects.filter (fun p => decide (p.2.m_subscriptionCount = 0))).length :
            Int)) := by
  refine ⟨?_, ?_, ?_⟩
  · intro objId o ho hdir
    obtain ⟨c1, h1, h2, _, _, h5⟩ := CFileCache.UnSubscribe_find env s typeName objId c o hc ho
    rw [CCacheObject.UnSubscribe_dirType env _ _ o hdir] at h2 h5
    refine ⟨c1, _, h1, h2, rfl, rfl, ?_⟩
    rw [h5]
    simp only [if_true, AMap.find_erase]
  · intro objId o ho hcount
    obtain ⟨⟨c1, o1, h1, h2, h3⟩, _⟩ :=
      (CFileCache.CleanupDirType_cleans env s typeName).keepsPinned typeName objId
        ⟨c, o, hc, ho, hcount⟩
    exact ⟨c1, o1, h1, h2, h3⟩
  · intro hcond
    have hmem : ∀ x, x ∈ (c.m_cachedObjects.filter
        (fun p => decide (p.2.m_subscriptionCount = 0))).map Prod.fst ↔
        ∃ o, c.GetCacheObjectForId x = some o ∧ o.m_subscriptionCount = 0 := by
      intro x
      constructor
      · intro hx
        obtain ⟨p, hp, hpx⟩ := List.mem_map.mp hx
        obtain ⟨hp1, hp2⟩ := List.mem_filter.mp hp
        refine ⟨p.2, ?_, by simpa using hp2⟩
        rw [← hpx]
        exact AMap.find_of_mem_nodup _ p hnd hp1
      · rintro ⟨o, ho, hcount⟩
        have hp : (x, o) ∈ c.m_cachedObjects := AMap.mem_of_find _ _ _ ho
        exact List.mem_map.mpr ⟨(x, o), List.mem_filter.mpr ⟨hp, by simpa using hcount⟩, rfl⟩
    have hnd1 : ((c.m_cachedObjects.filter
        (fun p => decide (p.2.m_subscriptionCount = 0))).map Prod.fst).Nodup :=
      List.Nodup.sublist (List.Sublist.map _ (List.filter_sublist _)) hnd
    have h0 : DirCleaned s typeName c [] s :=
      ⟨rfl, fun _ _ => rfl, c, hc, by simp, by simp, rfl⟩
    have hrun := DirCleaned.afterRun env
      ((c.m_cachedObjects.filter (fun p => decide (p.2.m_subscriptionCount = 0))).map
        Prod.fst).reverse [] s h0 (List.nodup_reverse.mpr hnd1) (fun _ _ => List.not_mem_nil _)
      (by
        intro x hx
        obtain ⟨o, ho, hcount⟩ := (hmem x).mp (List.mem_reverse.mp hx)
        have hp : (x, o) ∈ c.m_cachedObjects := AMap.mem_of_find _ _ _ ho
        exact ⟨o, ho, hcond (x, o) hp hcount⟩)
    rw [List.reverse_reverse, List.append_nil] at hrun
    obtain ⟨_, _, c1, h1, h2, h3, _⟩ := hrun
    refine ⟨c1, ?_, ?_, ?_⟩
    · unfold CFileCache.CleanupDirType
      rw [hc]
      exact h1
    · rw [h2]
      apply List.filter_congr
      intro p hp
      have hfind := AMap.find_of_mem_nodup _ p hnd hp
      by_cases hcount : p.2.m_subscriptionCount = 0
      · have : p.1 ∈ (c.m_cachedObjects.filter
            (fun p => decide (p.2.m_subscriptionCount = 0))).map Prod.fst :=
          (hmem p.1).mpr ⟨p.2, hfind, hcount⟩
        simp [hcount, this]
      · have : p.1 ∉ (c.m_cachedObjects.filter
            (fun p => decide (p.2.m_subscriptionCount = 0))).map Prod.fst := by
          intro hm
          obtain ⟨o, ho, ho0⟩ := (hmem p.1).mp hm
          have ho1 : c.GetCacheObjectForId p.1 = some p.2 := hfind
          rw [ho1] at ho
          exact hcount ((Option.some.inj ho) ▸ ho0)
        simp [hcount, this]
    · rw [h3, List.length_map]

/-- C26, a run like that of the unit test `testCleanupDirType`
(FileCacheTest.h:436-471): two objects of a directory type are subscribed,
the subscriber of the object 1 unsubscribes, which leaves it expired and out
of `m_idMap`; `CleanupDirType` then removes the object 1 and keeps the object
2: one object is left. -/
theorem dirType_lifecycle_witness :
    sampleDirSubscribed.GetFileCacheForType "dir".toList = some sampleDirCacheSubscribed ∧
    sampleDirUnsubscribed.GetFileCacheForType "dir".toList = some sampleDirCache ∧
    (AMap.keys sampleDirCache.m_cachedObjects).Nodup ∧
    (∃ c1 o1,
      sampleDirUnsubscribed.GetFileCacheForType "dir".toList = some c1 ∧
      c1.GetCacheObjectForId 1 = some o1 ∧ o1.m_expired = true ∧
      o1.m_subscriptionCount = 1 - 1 ∧ AMap.find sampleDirUnsubscribed.m_idMap 1 = none) ∧
    (∃ c1,
      (CFileCache.CleanupDirType sampleEnv sampleDirUnsubscribed "dir".toList).GetFileCacheForType
        "dir".toList = some c1 ∧
      AMap.keys c1.m_cachedObjects = [2] ∧ c1.m_numObjects = 1) :=
  have hsub : sampleDirSubscribed.GetFileCacheForType "dir".toList =
      some sampleDirCacheSubscribed := by decide
  have hc : sampleDirUnsubscribed.GetFileCacheForType "dir".toList = some sampleDirCache := by
    decide
  have hnd : (AMap.keys sampleDirCache.m_cachedObjects).Nodup := by decide
  ⟨hsub, hc, hnd,
    match (dirType_lifecycle sampleEnv sampleDirSubscribed "dir".toList sampleDirCacheSubscribed
      hsub (by decide)).1 1
      ((sampleDirCacheSubscribed.GetCacheObjectForId 1).getD sampleObject)
      (by decide) (by decide) with
    | ⟨c1, o1, h1, h2, h3, h4, h5⟩ => ⟨c1, o1, h1, h2, h3, h4, h5⟩,
    match (dirType_lifecycle sampleEnv sampleDirUnsubscribed "dir".toList sampleDirCache hc
      hnd).2.2 (by decide) with
    | ⟨c1, h1, h2, h3⟩ =>
      ⟨c1, h1, by rw [h2]; decide, by rw [h3]; decide⟩⟩

/-- C26 as stated fails when the directory of an object cannot be removed: in
the state of the witness, with `CleanupDir` failing, `CleanupDirType` leaves
the object 1, whose subscription count is 0, in the object map, and
`m_numObjects` stays 2. -/
theorem dirType_lifecycle_counterexample :
    ((sampleDirUnsubscribed.GetFileCacheForType "dir".toList).bind
        (fun c => c.GetCacheObjectForId 1)).map
      (fun o => (o.m_dirType, o.m_subscriptionCount, o.m_expired)) = some (true, 0, true) ∧
    ((CFileCache.CleanupDirType sampleEnvNoCleanup sampleDirUnsubscribed
        "dir".toList).GetFileCacheForType "dir".toList).map
      (fun c => (AMap.keys c.m_cachedObjects, c.m_numObjects,
        (c.GetCacheObjectForId 1).map (fun o => o.m_subscriptionCount))) =
      some ([1, 2], 2, some 0) := by
  refine ⟨by decide, by decide⟩

/-! ## Claim C29: the cross-type eviction terminates -/

theorem GetFilesystemFileSize_ge (a : Int) : 2 * s_blockSize ≤ GetFilesystemFileSize a := by
  unfold GetFilesystemFileSize
  simp only [s_blockSize]
  split_ifs <;> omega

theorem AMap.length_erase_le {κ α : Type} [DecidableEq κ] (m : List (κ × α)) (k : κ) :
    (AMap.erase m k).length ≤ m.length :=
  List.length_filter_le _ _

theorem AMap.length_erase_lt {κ α : Type} [DecidableEq κ] (m : List (κ × α)) (k : κ) (v : α)
    (h : AMap.find m k = some v) : (AMap.erase m k).length < m.length := by
  induction m with
  | nil => simp [AMap.find] at h
  | cons p m ih =>
    rw [AMap.find_cons] at h
    rw [AMap.erase_cons]
    by_cases hp : p.1 = k
    · rw [if_pos hp]
      have := AMap.length_erase_le m k
      simp only [List.length_cons]
      omega
    · rw [if_neg hp] at h
      rw [if_neg hp]
      simp only [List.length_cons]
      have := ih h
      omega

theorem CFileCache.Expire_list (env : Env) (b : List Char) (c : CFileCache) (objId : Nat)
    (o : CCacheObject) (ho : c.GetCacheObjectForId objId = some o) :
    (c.Expire env b objId).1.m_cacheList =
      if o.m_expired then c.m_cacheList else c.m_cacheList.erase objId := by
  unfold CFileCache.Expire
  rw [ho]
  simp only
  cases he : o.m_expired <;> split_ifs <;> simp_all

/-- What `ExpireCacheObject` does to `m_idMap`, and where it can return
false: only after it has removed the entry of the id, in an `Expire` of an
object of the type the entry named. -/
theorem CFileCacheSet.ExpireCacheObject_idMap (env : Env) (s : CFileCacheSet) (objId : Nat) :
    (s.ExpireCacheObject env objId).1.m_idMap.length ≤ s.m_idMap.length ∧
    ((s.ExpireCacheObject env objId).2 = false →
      (s.ExpireCacheObject env objId).1.m_idMap.length < s.m_idMap.length ∧
      ∃ t c o c1, AMap.find s.m_idMap objId = some t ∧ s.GetFileCacheForType t = some c ∧
        c.GetCacheObjectForId objId = some o ∧
        (s.ExpireCacheObject env objId).1.GetFileCacheForType t = some c1 ∧
        c1.m_cacheList = if o.m_expired then c.m_cacheList else c.m_cacheList.erase objId) := by
  rw [CFileCacheSet.ExpireCacheObject_eq]
  by_cases hempty : (s.GetTypeForObjectId objId).isEmpty = true
  · rw [if_pos hempty]
    exact ⟨le_refl _, fun h => Bool.noConfusion h⟩
  · rw [if_neg hempty]
    cases hc : s.GetFileCacheForType (s.GetTypeForObjectId objId) with
    | none => exact ⟨le_refl _, fun h => Bool.noConfusion h⟩
    | some c =>
      simp only
      have hfind : AMap.find s.m_idMap objId = some (s.GetTypeForObjectId objId) := by
        unfold CFileCacheSet.GetTypeForObjectId at hempty ⊢
        cases hf : AMap.find s.m_idMap objId with
        | none => rw [hf] at hempty; exact absurd rfl hempty
        | some t => rfl
      have hid := (CFileCache.ExpireIn_fields env (s.RemoveObjectFromIdMap objId)
        (s.GetTypeForObjectId objId) objId).1
      have hc1 : (s.RemoveObjectFromIdMap objId).GetFileCacheForType
          (s.GetTypeForObjectId objId) = some c := hc
      obtain ⟨h1, _, h3⟩ := CFileCache.ExpireIn_cacheSet env (s.RemoveObjectFromIdMap objId)
        (s.GetTypeForObjectId objId) objId c hc1
      have hlt := AMap.length_erase_lt s.m_idMap objId _ hfind
      refine ⟨?_, ?_⟩
      · rw [hid]
        exact le_of_lt hlt
      · intro hfalse
        refine ⟨by rw [hid]; exact hlt, ?_⟩
        rw [h3] at hfalse
        cases ho : c.GetCacheObjectForId objId with
        | none =>
          rw [CFileCache.Expire_none env _ c objId ho] at hfalse
          exact Bool.noConfusion hfalse
        | some o =>
          refine ⟨_, c, o, _, hfind, hc, ho, ?_,
            CFileCache.Expire_list env (s.RemoveObjectFromIdMap objId).m_baseDirName c objId o ho⟩
          unfold CFileCacheSet.GetFileCacheForType
          rw [h1]
          exact AMap.find_replace_self _ _ _ _ hc1

theorem CFileCacheSet.CleanupAllTypes_loop_succ (env : Env) (neededSize : Int) (fuel : Nat)
    (s : CFileCacheSet) (cleanupMap : List (List Char × Nat)) (cleanedSize : Int) :
    CFileCacheSet.CleanupAllTypes.loop env neededSize (fuel + 1) s cleanupMap cleanedSize =
      match CFileCacheSet.CleanupAllTypes.round env neededSize s cleanupMap cleanedSize with
      | none => (s, cleanedSize)
      | some x => CFileCacheSet.CleanupAllTypes.loop env neededSize fuel x.1 x.2.1 x.2.2 := by
  rw [CFileCacheSet.CleanupAllTypes.loop]
  unfold CFileCacheSet.CleanupAllTypes.round
  by_cases hlt : cleanedSize < neededSize
  · simp only [if_pos hlt]
    cases CFileCacheSet.SelectCandidateToExpire env s cleanupMap none s_maxCost with
    | none => rfl
    | some fileCache => rfl
  · simp only [if_neg hlt]

theorem CFileCacheSet.CleanupAllTypes_loop_zero (env : Env) (neededSize : Int)
    (s : CFileCacheSet) (cleanupMap : List (List Char × Nat)) (cleanedSize : Int) :
    CFileCacheSet.CleanupAllTypes.loop env neededSize 0 s cleanupMap cleanedSize =
      (s, cleanedSize) := by
  rw [CFileCacheSet.CleanupAllTypes.loop]

/-- A round that does not leave the loop starts with less cleaned than
needed, and it either adds at least `2 * s_blockSize` to `cleanedSize`, or it
leaves `cleanedSize` as it is and removes an entry of `m_idMap`: the entry of
an object of the type the entry names, whose id the `Expire` of that type has
taken off the LRU list of the type unless the object was expired already. -/
theorem CFileCacheSet.CleanupAllTypes_round_cases (env : Env) (neededSize : Int)
    (s : CFileCacheSet) (cleanupMap : List (List Char × Nat)) (cleanedSize : Int) :
    CFileCacheSet.CleanupAllTypes.round env neededSize s cleanupMap cleanedSize = none ∨
    ∃ s1 cleanupMap1 cleanedSize1,
      CFileCacheSet.CleanupAllTypes.round env neededSize s cleanupMap cleanedSize =
        some (s1, cleanupMap1, cleanedSize1) ∧
      cleanedSize < neededSize ∧ s1.m_idMap.length ≤ s.m_idMap.length ∧
      (cleanedSize + 2 * s_blockSize ≤ cleanedSize1 ∨
        (cleanedSize1 = cleanedSize ∧ s1.m_idMap.length < s.m_idMap.length ∧
          ∃ objId t c o c1, AMap.find s.m_idMap objId = some t ∧
            s.GetFileCacheForType t = some c ∧ c.GetCacheObjectForId objId = some o ∧
            s1.GetFileCacheForType t = some c1 ∧
            c1.m_cacheList = if o.m_expired then c.m_cacheList else c.m_cacheList.erase objId)) := by
  unfold CFileCacheSet.CleanupAllTypes.round
  by_cases hlt : cleanedSize < neededSize
  · simp only [if_pos hlt]
    cases CFileCacheSet.SelectCandidateToExpire env s cleanupMap none s_maxCost with
    | none => left; rfl
    | some fileCache =>
      right
      simp only
      obtain ⟨hle, hfalse⟩ := CFileCacheSet.ExpireCacheObject_idMap env s
        ((AMap.find cleanupMap fileCache).getD 0)
      refine ⟨_, _, _, rfl, hlt, hle, ?_⟩
      cases hr : (s.ExpireCacheObject env ((AMap.find cleanupMap fileCache).getD 0)).2 with
      | true =>
        left
        simp only [if_true]
        have := GetFilesystemFileSize_ge
          (s.CachedObjectSize ((AMap.find cleanupMap fileCache).getD 0))
        omega
      | false =>
        right
        obtain ⟨h1, h2⟩ := hfalse hr
        refine ⟨by simp, h1, _, h2⟩
  · left
    simp only [if_neg hlt]

theorem CFileCacheSet.CleanupAllTypes_roundsLeft_lt (env : Env) (neededSize : Int)
    (s : CFileCacheSet) (cleanupMap : List (List Char × Nat)) (cleanedSize : Int)
    (x : CFileCacheSet × List (List Char × Nat) × Int)
    (h : CFileCacheSet.CleanupAllTypes.round env neededSize s cleanupMap cleanedSize = some x) :
    CFileCacheSet.CleanupAllTypes.roundsLeft neededSize x.1 x.2.2 <
      CFileCacheSet.CleanupAllTypes.roundsLeft neededSize s cleanedSize := by
  rcases CFileCacheSet.CleanupAllTypes_round_cases env neededSize s cleanupMap cleanedSize with
    hn | ⟨s1, m1, c1, hs, hlt, hle, hcase⟩
  · rw [hn] at h; exact Option.noConfusion h
  · rw [hs] at h
    have hx : x = (s1, m1, c1) := (Option.some.inj h).symm
    subst hx
    unfold CFileCacheSet.CleanupAllTypes.roundsLeft
    simp only [s_blockSize] at hcase ⊢
    rcases hcase with hadd | ⟨heq, hless, _⟩
    · omega
    · rw [heq]; omega

/-- With more fuel than `roundsLeft` the loop is left, and `CleanupAllTypes.loop`
gives the state and `cleanedSize` of that exit for every fuel of at least
`roundsLeft`. -/
theorem CFileCacheSet.CleanupAllTypes_run_total (env : Env) (neededSize : Int) :
    ∀ (fuel : Nat) (s : CFileCacheSet) (cleanupMap : List (List Char × Nat)) (cleanedSize : Int),
      CFileCacheSet.CleanupAllTypes.roundsLeft neededSize s cleanedSize < fuel →
      ∃ r, CFileCacheSet.CleanupAllTypes.run env neededSize fuel s cleanupMap cleanedSize =
          some r ∧
        ∀ fuel2, CFileCacheSet.CleanupAllTypes.roundsLeft neededSize s cleanedSize ≤ fuel2 →
          CFileCacheSet.CleanupAllTypes.loop env neededSize fuel2 s cleanupMap cleanedSize = r := by
  intro fuel
  induction fuel with
  | zero => intro s cleanupMap cleanedSize h; omega
  | succ n ih =>
    intro s cleanupMap cleanedSize hfuel
    unfold CFileCacheSet.CleanupAllTypes.run
    cases hround : CFileCacheSet.CleanupAllTypes.round env neededSize s cleanupMap cleanedSize with
    | none =>
      refine ⟨(s, cleanedSize), rfl, ?_⟩
      intro fuel2 _
      cases fuel2 with
      | zero => exact CFileCacheSet.CleanupAllTypes_loop_zero env neededSize s cleanupMap cleanedSize
      | succ m => rw [CFileCacheSet.CleanupAllTypes_loop_succ, hround]
    | some x =>
      have hlt := CFileCacheSet.CleanupAllTypes_roundsLeft_lt env neededSize s cleanupMap
        cleanedSize x hround
      obtain ⟨r, hr, hloop⟩ := ih x.1 x.2.1 x.2.2 (by omega)
      refine ⟨r, hr, ?_⟩
      intro fuel2 hfuel2
      cases fuel2 with
      | zero => omega
      | succ m =>
        rw [CFileCacheSet.CleanupAllTypes_loop_succ, hround]
        exact hloop m (by omega)

/-- C29.  Termination of the cross-type eviction: for every state of the cache
set and every `neededSize` the second loop of `CleanupAllTypes` is left after
at most `roundsLeft` rounds (the blocks of `2 * s_blockSize` bytes to clean
plus the entries of `m_idMap`), with the state and the size that
`CleanupAllTypes` returns; for every round of the loop either the loop is left,
or `cleanedSize` grows by at least `2 * s_blockSize`, or `ExpireCacheObject`
has returned false, which removes the entry of the id from `m_idMap` and takes
the id off the LRU list of its type (unless the object was expired already). -/
theorem CleanupAllTypes_terminates (env : Env) (s : CFileCacheSet) (neededSize : Int) :
    (∀ k : Nat,
      CFileCacheSet.CleanupAllTypes.run env (GetFilesystemFileSize neededSize)
        (CFileCacheSet.CleanupAllTypes.roundsLeft (GetFilesystemFileSize neededSize) s 0 + 1 + k)
        s (CFileCacheSet.collectCandidates env s.m_cacheSet []) 0 =
        some (s.CleanupAllTypes env neededSize)) ∧
    (∀ (needed : Int) (s0 : CFileCacheSet) (cleanupMap : List (List Char × Nat))
      (cleanedSize : Int),
      CFileCacheSet.CleanupAllTypes.round env needed s0 cleanupMap cleanedSize = none ∨
      ∃ s1 cleanupMap1 cleanedSize1,
        CFileCacheSet.CleanupAllTypes.round env needed s0 cleanupMap cleanedSize =
          some (s1, cleanupMap1, cleanedSize1) ∧
        (cleanedSize + 2 * s_blockSize ≤ cleanedSize1 ∨
          (cleanedSize1 = cleanedSize ∧ s1.m_idMap.length < s0.m_idMap.length ∧
            ∃ objId t c o c1, AMap.find s0.m_idMap objId = some t ∧
              s0.GetFileCacheForType t = some c ∧ c.GetCacheObjectForId objId = some o ∧
              s1.GetFileCacheForType t = some c1 ∧
              c1.m_cacheList =
                if o.m_expired then c.m_cacheList else c.m_cacheList.erase objId))) := by
  constructor
  · intro k
    obtain ⟨r, hr, hloop⟩ := CFileCacheSet.CleanupAllTypes_run_total env
      (GetFilesystemFileSize neededSize)
      (CFileCacheSet.CleanupAllTypes.roundsLeft (GetFilesystemFileSize neededSize) s 0 + 1 + k)
      s (CFileCacheSet.collectCandidates env s.m_cacheSet []) 0 (by omega)
    rw [hr]
    congr 1
    unfold CFileCacheSet.CleanupAllTypes
    simp only
    symm
    apply hloop
    unfold CFileCacheSet.CleanupAllTypes.roundsLeft
    have := GetFilesystemFileSize_ge neededSize
    simp only [s_blockSize] at this ⊢
    omega
  · intro needed s0 cleanupMap cleanedSize
    rcases CFileCacheSet.CleanupAllTypes_round_cases env needed s0 cleanupMap cleanedSize with
      h | ⟨s1, m1, c1, h1, _, _, h4⟩
    · left; exact h
    · right; exact ⟨s1, m1, c1, h1, h4⟩

end FileCache
